import Mathlib

/-!
The `btest` harness: sampling of test values and the puzzle runner.

A shallow embedding of `src/bitwise/btest.c` (with the types of
`src/bitwise/puzzle_spec.h`).

Conventions of the embedding.

* A C `int` is an `Int` in `[-2^31, 2^31)`; every signed operation that can
  leave that interval is wrapped by `toInt32` (two's complement, the
  behaviour of the usual targets; ISO C leaves signed overflow undefined).
* A C `unsigned` is a `Nat` below `2^32`; unsigned arithmetic is reduced
  modulo `2^32` by `toUInt32`.
* A `double` is kept as the rational number it stands for. Every operation of
  `random_val` is rounded to the nearest double, ties to even (IEEE-754
  binary64, `round_double`); its operands stay among the normal numbers, so
  overflow and underflow are not modelled, and no multiply-add is fused. The
  conversion to an integer type truncates toward zero. The one call of `pow`
  is taken exactly (as an integer root).
* `rand()` is a stream `rand : Nat → Nat` read at a call counter; the libc
  constant `RAND_MAX` is a parameter.
* A loop whose exit depends on wrapped arithmetic takes fuel; `Run.nofuel`
  is the result when the fuel does not suffice.
* The libc functions `strtol` and `strtof` are parameters of `get_num_val`
  and `main`; closed evaluations use `strtol_c`, written after ISO C.
* The registry is a list (the array without its sentinel); the puzzle
  functions it points to are given by two tables indexed by puzzle name.
-/

namespace Btest

/-! ## Machine integers -/

/-- The value `INT_MIN` of `<limits.h>` for a 32-bit `int`. -/
def INT_MIN : Int := -2147483648

/-- The value `INT_MAX` of `<limits.h>` for a 32-bit `int`. -/
def INT_MAX : Int := 2147483647

/-- Conversion of an integer to a 32-bit `int` (wrap-around). -/
def toInt32 (x : Int) : Int := (x + 2147483648) % 4294967296 - 2147483648

/-- Conversion of an integer to a 32-bit `unsigned` (reduction modulo `2^32`). -/
def toUInt32 (x : Int) : Nat := (x % 4294967296).toNat

/-- Conversion of a `double` to an integer type: the fractional part is
discarded (truncation toward zero). -/
def truncToInt (q : ℚ) : Int := Int.tdiv q.num (q.den : Int)

/-! ## Constants of `btest.c` -/

/-- The macro `TEST_RANGE`. -/
def TEST_RANGE : Nat := 500000

/-- The macro `MAX_TEST_VALS`, which expands to `13 * TEST_RANGE`. -/
def MAX_TEST_VALS : Int := 13 * (TEST_RANGE : Int)

/-! ## `double` arithmetic -/

/-- The integer nearest to `x`, the even one of the two when `x` lies halfway
between them. -/
def round_half_even (x : ℚ) : Int :=
  if x - (⌊x⌋ : ℚ) < 1 / 2 then ⌊x⌋
  else if 1 / 2 < x - (⌊x⌋ : ℚ) then ⌊x⌋ + 1
  else if ⌊x⌋ % 2 = 0 then ⌊x⌋ else ⌊x⌋ + 1

/-- The exponent `e` of a nonzero `q`, with `2^e <= |q| < 2^(e+1)`: the
difference of the bit lengths of numerator and denominator, or one less. -/
def binade (q : ℚ) : Int :=
  let e0 : Int := (q.num.natAbs.log2 : Int) - (q.den.log2 : Int)
  if (2 : ℚ) ^ e0 ≤ |q| then e0 else e0 - 1

/-- The double nearest to the real number `q` (round to nearest, ties to even):
a multiple of `2^(e-52)` where `e` is the exponent of `q`, so that the
significand has 53 bits. -/
def round_double (q : ℚ) : ℚ :=
  if q = 0 then 0
  else (round_half_even (q / 2 ^ (binade q - 52)) : ℚ) * 2 ^ (binade q - 52)

/-! ## `random_val` -/

/-- The function `random_val(min, max)`, where `r` is the value returned by
its call of `rand()`: `weight = rand() / (double) RAND_MAX` and
`result = min * (1 - weight) + max * weight`, every operation rounded to
double, the result converted to `int` (`RAND_MAX` is positive). -/
def random_val (RAND_MAX r : Nat) (min max : Int) : Int :=
  let weight : ℚ := round_double ((r : ℚ) / (RAND_MAX : ℚ))
  truncToInt (round_double
    (round_double ((min : ℚ) * round_double (1 - weight)) + round_double ((max : ℚ) * weight)))

/-! ## `gen_vals` -/

/-- Outcome of running a piece of the program: it finishes with a value,
it calls `exit(status)` (after having evaluated the puzzle functions on the
listed tuples), it stores past the end of a test-value array, or the fuel
given to the model ran out. -/
inductive Run (α : Type) where
  | done (a : α) : Run α
  | exit (status : Int) (evaluated : List (List Nat)) : Run α
  | overrun : Run α
  | nofuel : Run α
  deriving DecidableEq

/-- The twelve stores of one iteration `i` of the float loop of `gen_vals`,
in program order, each converted to the `int` element type of `test_vals`. -/
def float_iter (i : Int) : List Int :=
  let smallest_norm : Nat := 0x00800000
  let one : Nat := 0x3f800000
  let largest_norm : Nat := 0x7f000000
  let sign : Nat := 0x80000000
  [ i,
    toInt32 (sign ||| toUInt32 i),
    toInt32 (toUInt32 (smallest_norm + i)),
    toInt32 (toUInt32 (smallest_norm - i)),
    toInt32 (sign ||| toUInt32 (smallest_norm + i)),
    toInt32 (sign ||| toUInt32 (smallest_norm - i)),
    toInt32 (toUInt32 (one + i)),
    toInt32 (toUInt32 (one - i)),
    toInt32 (sign ||| toUInt32 (one + i)),
    toInt32 (sign ||| toUInt32 (one - i)),
    toInt32 (toUInt32 (largest_norm - i)),
    toInt32 (sign ||| toUInt32 (largest_norm - i)) ]

/-- The four stores after the float loop: `inf`, `sign | inf`, `nan`,
`sign | nan`. -/
def float_special : List Int :=
  let inf : Nat := 0x7f800000
  let nan : Nat := 0x7fc00000
  let sign : Nat := 0x80000000
  [ toInt32 inf, toInt32 (sign ||| inf), toInt32 nan, toInt32 (sign ||| nan) ]

/-- The loop `for (int i = 0; i < test_range; i++)` of the float case:
`n` more iterations starting at `i`, appending to `test_vals`. -/
def float_loop : Nat → Int → List Int → List Int
  | 0, _, test_vals => test_vals
  | n + 1, i, test_vals => float_loop n (i + 1) (test_vals ++ float_iter i)

/-- The loop `for (int i = min; i <= max; i++) test_vals[test_count++] = i;`
of the exhaustive case. The increment wraps at `INT_MAX`. -/
def exhaust_loop : Nat → Int → Int → List Int → Option (List Int)
  | 0, _, _, _ => none
  | fuel + 1, i, max, test_vals =>
    if i ≤ max then exhaust_loop fuel (toInt32 (i + 1)) max (test_vals ++ [i])
    else some test_vals

/-- The stores of one iteration `i` of the sampling loop of `gen_vals`;
`r` is the value `rand()` returns inside `random_val`. -/
def sample_iter (RAND_MAX r : Nat) (min max i : Int) : List Int :=
  [toInt32 (min + i), toInt32 (max - i)]
    ++ (if i ≥ min ∧ i ≤ max then [i] else [])
    ++ (if -i ≥ min ∧ -i ≤ max then [-i] else [])
    ++ [random_val RAND_MAX r min max]

/-- The sampling loop `for (int i = 0; i < test_range; i++)`: `n` more
iterations starting at `i`, the `k`-th call of `rand()` being next. -/
def sample_loop (RAND_MAX : Nat) (rand : Nat → Nat) (min max : Int) :
    Nat → Int → Nat → List Int → List Int × Nat
  | 0, _, k, test_vals => (test_vals, k)
  | n + 1, i, k, test_vals =>
    sample_loop RAND_MAX rand min max n (i + 1) (k + 1)
      (test_vals ++ sample_iter RAND_MAX (rand k) min max i)

/-- The function `gen_vals(test_vals, min, max, is_float_input, test_range)`.
The result is the sequence of values stored in `test_vals[0 .. test_count-1]`
(so the returned `test_count` is its length) and the new `rand()` counter. -/
def gen_vals (fuel : Nat) (RAND_MAX : Nat) (rand : Nat → Nat) (k : Nat)
    (min max : Int) (is_float_input : Bool) (test_range : Int) :
    Run (List Int × Nat) :=
  if is_float_input then
    let test_range := if test_range > 8388608 then 8388608 else test_range
    .done (float_loop test_range.toNat 0 [] ++ float_special, k)
  else if toInt32 (max - MAX_TEST_VALS) ≤ min then
    match exhaust_loop fuel min max [] with
    | some test_vals => .done (test_vals, k)
    | none => .nofuel
  else
    .done (sample_loop RAND_MAX rand min max test_range.toNat 0 k [])

/-- The value `gen_vals` returns: the number of stored test values. -/
def gen_count (r : Run (List Int × Nat)) : Option Int :=
  match r with
  | .done (test_vals, _) => some test_vals.length
  | _ => none

/-! ## Descriptors (`puzzle_spec.h`) -/

/-- The enumeration `returnType`; `OTHER_RET` stands for any other value
stored in a field of that type. -/
inductive returnType where
  | INT_RET
  | UNSIGNED_RET
  | OTHER_RET
  deriving DecidableEq

/-- The enumeration `argType`. -/
inductive argType where
  | INT_ARG
  | UNSIGNED_ARG
  | FLOAT_AS_UNSIGNED_ARG
  | UNUSED_ARG
  deriving DecidableEq

/-- An array of three elements, such as `arg_types[3]`. -/
structure Arr3 (α : Type) where
  x0 : α
  x1 : α
  x2 : α
  deriving DecidableEq

/-- Element `a[i]` of an array of three elements (`i < 3`). -/
def Arr3.get {α : Type} (a : Arr3 α) : Nat → α
  | 0 => a.x0
  | 1 => a.x1
  | _ => a.x2

/-- The structure `puzzle_spec_t`. A puzzle function, whatever its C
signature, is a map from the 32-bit patterns of its arguments to the 32-bit
pattern of its result (read modulo `2^32`). -/
structure puzzle_spec_t where
  name : String
  return_type : returnType
  num_args : Nat
  arg_types : Arr3 argType
  arg_min : Arr3 Int
  arg_max : Arr3 Int
  test_func : List Nat → Nat
  impl_func : List Nat → Nat

/-! ## `test_function` -/

/-- Floor of `b ^ (p / q)`: the conversion to `unsigned` of the value
`pow((double) b, p / q)`, the power being taken exactly. -/
def truncPow (b p q : Nat) : Nat := Nat.findGreatest (fun n => n ^ q ≤ b ^ p) b

/-- The first `switch (spec->num_args)` of `test_function`: the value given to
`test_range`, or `none` when the `default` label calls `exit(1)`. The
exponents are the literals `0.5` and `0.333`. -/
def test_range_of (num_args : Nat) : Option Nat :=
  match num_args with
  | 0 => some TEST_RANGE
  | 1 => some TEST_RANGE
  | 2 => some (truncPow TEST_RANGE 1 2)
  | 3 => some (truncPow TEST_RANGE 333 1000)
  | _ => none

/-- The `switch (spec->arg_types[i])` of the sampling loop: the value given
to `is_float_input`, or `none` when the `default` label calls `exit(1)`. -/
def is_float_of : argType → Option Bool
  | .INT_ARG => some false
  | .UNSIGNED_ARG => some false
  | .FLOAT_AS_UNSIGNED_ARG => some true
  | .UNUSED_ARG => none

/-- The loop `for (int i = 0; i < spec->num_args; i++)` that fills
`arg_test_vals[i][0 .. num_args[i]-1]`: `n` more slots starting at slot `i`.
`sets` holds the slots filled so far and `k` counts the calls of `rand()`. -/
def sample_args (fuel RAND_MAX : Nat) (rand : Nat → Nat) (spec : puzzle_spec_t)
    (input_args : Arr3 (Option Nat)) (test_range : Int) :
    Nat → Nat → Nat → List (List Int) → Run (List (List Int) × Nat)
  | 0, _, k, sets => .done (sets, k)
  | n + 1, i, k, sets =>
    match is_float_of (spec.arg_types.get i) with
    | none => .exit 1 []
    | some is_float_input =>
      match input_args.get i with
      | some v =>
        sample_args fuel RAND_MAX rand spec input_args test_range n (i + 1) k
          (sets ++ [[toInt32 v]])
      | none =>
        match gen_vals fuel RAND_MAX rand k (spec.arg_min.get i) (spec.arg_max.get i)
            is_float_input test_range with
        | .done (test_vals, k1) =>
          if (test_vals.length : Int) > MAX_TEST_VALS then .overrun
          else
            sample_args fuel RAND_MAX rand spec input_args test_range n (i + 1) k1
              (sets ++ [test_vals])
        | .exit s e => .exit s e
        | .overrun => .overrun
        | .nofuel => .nofuel

/-- The C type of a local variable of the comparison loops. -/
inductive CType where
  | int
  | unsigned
  deriving DecidableEq

/-- The labels of a `switch (spec->arg_types[..])` of the dispatch: `INT_ARG`
declares the argument variable as `int`, `FLOAT_AS_UNSIGNED_ARG` and
`UNSIGNED_ARG` as `unsigned`; every other value reaches `default`. -/
def arg_ctype : argType → Option CType
  | .INT_ARG => some .int
  | .FLOAT_AS_UNSIGNED_ARG => some .unsigned
  | .UNSIGNED_ARG => some .unsigned
  | .UNUSED_ARG => none

/-- The labels of a `switch (spec->return_type)` of the dispatch. -/
def ret_ctype : returnType → Option CType
  | .INT_RET => some .int
  | .UNSIGNED_RET => some .unsigned
  | .OTHER_RET => none

/-- Value of a variable of type `t` initialised from the `int` element `x`
of `arg_test_vals`. -/
def load_arg (t : CType) (x : Int) : Int :=
  match t with
  | .int => x
  | .unsigned => toUInt32 x

/-- Value of a variable of type `t` initialised from the word a puzzle
function returns. -/
def load_ret (t : CType) (w : Nat) : Int :=
  match t with
  | .int => toInt32 w
  | .unsigned => toUInt32 w

/-- The diagnostic printed on a mismatch: the 32-bit patterns (the `0x%x`
fields) of the arguments, of `actual` and of `expected`. -/
structure Report where
  inputs : List Nat
  actual : Nat
  expected : Nat
  deriving DecidableEq

/-- Body of the innermost comparison loop for the argument variables
`args`: both functions are called, and a mismatch yields the diagnostic.
The first component records the tuple the functions were called on. -/
def compare_at (spec : puzzle_spec_t) (rt : CType) (args : List Int) :
    List (List Nat) × Option Report :=
  let ws := args.map toUInt32
  let actual := load_ret rt (spec.impl_func ws)
  let expected := load_ret rt (spec.test_func ws)
  ([ws], if actual ≠ expected then some ⟨ws, toUInt32 actual, toUInt32 expected⟩ else none)

/-- A `for` loop over the elements `xs` whose body may execute `return -1`
(second component `some`): the loop stops there; the first component
accumulates the tuples evaluated. -/
def for_ret {α : Type} (body : α → List (List Nat) × Option Report) :
    List α → List (List Nat) × Option Report
  | [] => ([], none)
  | x :: xs =>
    match body x with
    | (ev, some r) => (ev, some r)
    | (ev, none) =>
      match for_ret body xs with
      | (ev1, res) => (ev ++ ev1, res)

/-- What `test_function` leaves when it returns: the returned code (`0` or
`-1`), the diagnostic printed, the tuples on which the puzzle functions
were called (in order) and the number of calls of `rand()` so far. -/
structure Outcome where
  code : Int
  report : Option Report
  evaluated : List (List Nat)
  rand_calls : Nat
  deriving DecidableEq

/-- The statements after the comparison loops: `return -1` inside the loop
on a mismatch, `return 0` after it. -/
def finish (k : Nat) : List (List Nat) × Option Report → Outcome
  | (ev, some r) => ⟨-1, some r, ev, k⟩
  | (ev, none) => ⟨0, none, ev, k⟩

/-- The second `switch (spec->num_args)` of `test_function`: the nested
switches on the return type and on the argument types select the C types of
`actual`, `expected` and `arg1 .. arg3`, and the selected block runs the
nested loops, first argument outermost. Every `default` label ends in
`exit(1)` before any call of a puzzle function: the one `default` that lacks
its `exit(1)` (argument 3 under `INT_RET`, `unsigned`, `int`) falls through
into the next case block, whose `switch` on the same argument type reaches a
`default` with `exit(1)`. The block for `INT_RET`, `unsigned`, `int`,
`unsigned` declares `arg1` as `int` and converts it at the calls; the word
passed is the same. -/
def dispatch (spec : puzzle_spec_t) (sets : List (List Int)) (k : Nat) : Run Outcome :=
  match spec.num_args with
  | 0 =>
    match ret_ctype spec.return_type with
    | none => .exit 1 []
    | some rt => .done (finish k (compare_at spec rt []))
  | 1 =>
    match ret_ctype spec.return_type with
    | none => .exit 1 []
    | some rt =>
      match arg_ctype (spec.arg_types.get 0) with
      | none => .exit 1 []
      | some t1 =>
        .done (finish k (for_ret (fun a1 => compare_at spec rt [load_arg t1 a1])
          (sets.getD 0 [])))
  | 2 =>
    match ret_ctype spec.return_type with
    | none => .exit 1 []
    | some rt =>
      match arg_ctype (spec.arg_types.get 0) with
      | none => .exit 1 []
      | some t1 =>
        match arg_ctype (spec.arg_types.get 1) with
        | none => .exit 1 []
        | some t2 =>
          .done (finish k (for_ret (fun a1 => for_ret (fun a2 =>
            compare_at spec rt [load_arg t1 a1, load_arg t2 a2])
            (sets.getD 1 [])) (sets.getD 0 [])))
  | 3 =>
    match ret_ctype spec.return_type with
    | none => .exit 1 []
    | some rt =>
      match arg_ctype (spec.arg_types.get 0) with
      | none => .exit 1 []
      | some t1 =>
        match arg_ctype (spec.arg_types.get 1) with
        | none => .exit 1 []
        | some t2 =>
          match arg_ctype (spec.arg_types.get 2) with
          | none => .exit 1 []
          | some t3 =>
            .done (finish k (for_ret (fun a1 => for_ret (fun a2 => for_ret (fun a3 =>
              compare_at spec rt [load_arg t1 a1, load_arg t2 a2, load_arg t3 a3])
              (sets.getD 2 [])) (sets.getD 1 [])) (sets.getD 0 [])))
  | _ => .exit 1 []

/-- The function `test_function(spec, input_args)`, started when `rand()`
has been called `k` times. -/
def test_function (fuel RAND_MAX : Nat) (rand : Nat → Nat) (k : Nat)
    (spec : puzzle_spec_t) (input_args : Arr3 (Option Nat)) : Run Outcome :=
  match test_range_of spec.num_args with
  | none => .exit 1 []
  | some test_range =>
    match sample_args fuel RAND_MAX rand spec input_args test_range spec.num_args 0 k [] with
    | .done (sets, k1) => dispatch spec sets k1
    | .exit s e => .exit s e
    | .overrun => .overrun
    | .nofuel => .nofuel

/-! ## The registry (`puzzle_spec.c`) -/

/-- The array `puzzle_specs` of `puzzle_spec.c`, without its final sentinel
(the entry whose `name` is `NULL`). The functions the entries point to are
defined in other translation units: `test name` stands for the oracle
`test_<name>` of `oracle.c` and `impl name` for the candidate `<name>` of
`bits.h`, both on 32-bit patterns. The initialiser `UINT_MAX` of an `int`
bound is converted to `int`. -/
def puzzle_specs (test impl : String → List Nat → Nat) : List puzzle_spec_t :=
  [ { name := "bitXor", return_type := .INT_RET, num_args := 2,
      arg_types := ⟨.INT_ARG, .INT_ARG, .UNUSED_ARG⟩,
      arg_min := ⟨INT_MIN, INT_MIN, 0⟩, arg_max := ⟨INT_MAX, INT_MAX, 0⟩,
      test_func := test "bitXor", impl_func := impl "bitXor" },
    { name := "bitAnd", return_type := .INT_RET, num_args := 2,
      arg_types := ⟨.INT_ARG, .INT_ARG, .UNUSED_ARG⟩,
      arg_min := ⟨INT_MIN, INT_MIN, 0⟩, arg_max := ⟨INT_MAX, INT_MAX, 0⟩,
      test_func := test "bitAnd", impl_func := impl "bitAnd" },
    { name := "allOddBits", return_type := .INT_RET, num_args := 1,
      arg_types := ⟨.INT_ARG, .UNUSED_ARG, .UNUSED_ARG⟩,
      arg_min := ⟨INT_MIN, 0, 0⟩, arg_max := ⟨INT_MAX, 0, 0⟩,
      test_func := test "allOddBits", impl_func := impl "allOddBits" },
    { name := "floatIsEqual", return_type := .UNSIGNED_RET, num_args := 2,
      arg_types := ⟨.FLOAT_AS_UNSIGNED_ARG, .FLOAT_AS_UNSIGNED_ARG, .UNUSED_ARG⟩,
      arg_min := ⟨0, 0, 0⟩, arg_max := ⟨toInt32 4294967295, toInt32 4294967295, 0⟩,
      test_func := test "floatIsEqual", impl_func := impl "floatIsEqual" },
    { name := "anyEvenBit", return_type := .INT_RET, num_args := 1,
      arg_types := ⟨.INT_ARG, .UNUSED_ARG, .UNUSED_ARG⟩,
      arg_min := ⟨INT_MIN, 0, 0⟩, arg_max := ⟨INT_MAX, 0, 0⟩,
      test_func := test "anyEvenBit", impl_func := impl "anyEvenBit" },
    { name := "isPositive", return_type := .INT_RET, num_args := 1,
      arg_types := ⟨.INT_ARG, .UNUSED_ARG, .UNUSED_ARG⟩,
      arg_min := ⟨INT_MIN, 0, 0⟩, arg_max := ⟨INT_MAX, 0, 0⟩,
      test_func := test "isPositive", impl_func := impl "isPositive" },
    { name := "replaceByte", return_type := .INT_RET, num_args := 3,
      arg_types := ⟨.INT_ARG, .INT_ARG, .INT_ARG⟩,
      arg_min := ⟨INT_MIN, 0, 0⟩, arg_max := ⟨INT_MAX, 3, 255⟩,
      test_func := test "replaceByte", impl_func := impl "replaceByte" },
    { name := "isLess", return_type := .INT_RET, num_args := 2,
      arg_types := ⟨.INT_ARG, .INT_ARG, .UNUSED_ARG⟩,
      arg_min := ⟨INT_MIN, INT_MIN, 0⟩, arg_max := ⟨INT_MAX, INT_MAX, 0⟩,
      test_func := test "isLess", impl_func := impl "isLess" },
    { name := "rotateLeft", return_type := .INT_RET, num_args := 2,
      arg_types := ⟨.INT_ARG, .INT_ARG, .UNUSED_ARG⟩,
      arg_min := ⟨INT_MIN, 0, 0⟩, arg_max := ⟨INT_MAX, 31, 0⟩,
      test_func := test "rotateLeft", impl_func := impl "rotateLeft" },
    { name := "bitMask", return_type := .INT_RET, num_args := 2,
      arg_types := ⟨.INT_ARG, .INT_ARG, .UNUSED_ARG⟩,
      arg_min := ⟨0, 0, 0⟩, arg_max := ⟨31, 31, 0⟩,
      test_func := test "bitMask", impl_func := impl "bitMask" },
    { name := "floatScale2", return_type := .UNSIGNED_RET, num_args := 1,
      arg_types := ⟨.FLOAT_AS_UNSIGNED_ARG, .UNUSED_ARG, .UNUSED_ARG⟩,
      arg_min := ⟨0, 0, 0⟩, arg_max := ⟨toInt32 4294967295, 0, 0⟩,
      test_func := test "floatScale2", impl_func := impl "floatScale2" },
    { name := "isPower2", return_type := .INT_RET, num_args := 1,
      arg_types := ⟨.INT_ARG, .UNUSED_ARG, .UNUSED_ARG⟩,
      arg_min := ⟨INT_MIN, 0, 0⟩, arg_max := ⟨INT_MAX, 0, 0⟩,
      test_func := test "isPower2", impl_func := impl "isPower2" } ]

/-! ## `get_num_val` -/

/-- The loop of `get_num_val` over the characters of `sval`: the final
values of `ishex` and `isfloat`. -/
def scan_kind : List Char → Bool → Bool → Bool × Bool
  | [], ishex, isfloat => (ishex, isfloat)
  | c :: cs, ishex, isfloat =>
    if c = 'x' ∨ c = 'X' then scan_kind cs true isfloat
    else if c = 'e' ∨ c = 'E' then scan_kind cs ishex (if !ishex then true else isfloat)
    else if c = '.' then scan_kind cs ishex true
    else scan_kind cs ishex isfloat

/-- The function `get_num_val(sval, valp)`: the returned code and the final
value of `*valp`. The libc functions are parameters: `strtol s` is the value
`strtol(s, &endp, 0)` (a 64-bit `long`) with the unparsed rest `endp`, and
`strtof s` is the bit pattern of `strtof(s, &endp)` with the rest `endp`. -/
def get_num_val (strtol : String → Int × String) (strtof : String → Nat × String)
    (sval : String) (valp : Nat) : Int × Nat :=
  match scan_kind sval.toList false false with
  | (_, true) =>
    match strtof sval with
    | (fval, endp) => if endp.toList = [] then (1, fval) else (0, valp)
  | (_, false) =>
    match strtol sval with
    | (llval, _) =>
      let upperbits : Int := llval >>> 31
      if valp = 0 ∧ (upperbits = 0 ∨ upperbits = -1 ∨ upperbits = 1) then (1, toUInt32 llval)
      else (0, valp)

/-! ## `main` -/

/-- The messages `main` prints. -/
inductive Msg where
  | usage
  | invalid_input (n : Nat) (token : String)
  | not_found (name : String)
  deriving DecidableEq

/-- How the process ends: `main` returns a status, `exit(status)` is called,
a store runs past a test-value array, or the fuel of the model ran out. -/
inductive MainEnd where
  | returned (status : Int)
  | exited (status : Int)
  | overrun
  | nofuel
  deriving DecidableEq

/-- What a run of `main` leaves: how it ended, the messages `main` printed,
the calls `test_function(current, args)` it made, in order, and what each
call did. -/
structure MainResult where
  ending : MainEnd
  messages : List Msg
  calls : List (puzzle_spec_t × Arr3 (Option Nat))
  results : List (Run Outcome)

/-- One `if (get_num_val(argv[n + 1], &arg) != 0)` of `main`, `arg` being
initialised to `0`: the pinned value, or `none` on the `else` branch. -/
def parse_pin (strtol : String → Int × String) (strtof : String → Nat × String)
    (token : String) : Option Nat :=
  match get_num_val strtol strtof token 0 with
  | (r, v) => if r ≠ 0 then some v else none

/-- The `switch (argc)` of `main` with its fall-through cases: the puzzle
name and the array `args`, or the message printed before `exit(1)`. The
last token is parsed first. -/
def main_args (strtol : String → Int × String) (strtof : String → Nat × String)
    (argv : List String) : Except Msg (Option String × Arr3 (Option Nat)) :=
  match argv with
  | [_] => .ok (none, ⟨none, none, none⟩)
  | [_, name] => .ok (some name, ⟨none, none, none⟩)
  | [_, name, a1] =>
    match parse_pin strtol strtof a1 with
    | none => .error (.invalid_input 1 a1)
    | some v1 => .ok (some name, ⟨some v1, none, none⟩)
  | [_, name, a1, a2] =>
    match parse_pin strtol strtof a2 with
    | none => .error (.invalid_input 2 a2)
    | some v2 =>
      match parse_pin strtol strtof a1 with
      | none => .error (.invalid_input 1 a1)
      | some v1 => .ok (some name, ⟨some v1, some v2, none⟩)
  | [_, name, a1, a2, a3] =>
    match parse_pin strtol strtof a3 with
    | none => .error (.invalid_input 3 a3)
    | some v3 =>
      match parse_pin strtol strtof a2 with
      | none => .error (.invalid_input 2 a2)
      | some v2 =>
        match parse_pin strtol strtof a1 with
        | none => .error (.invalid_input 1 a1)
        | some v1 => .ok (some name, ⟨some v1, some v2, some v3⟩)
  | _ => .error .usage

/-- How the process goes on after a call of `test_function` whose value
`main` ignores: `none` when the call returned. -/
def call_end : Run Outcome → Option MainEnd
  | .done _ => none
  | .exit status _ => some (.exited status)
  | .overrun => some .overrun
  | .nofuel => some .nofuel

/-- The loop of `main` for a named puzzle: the first entry whose name equals
`puzzle_name` is tested and `main` returns `0`; after the loop the
not-found message is printed and `main` returns `0`. -/
def run_named (fuel RAND_MAX : Nat) (rand : Nat → Nat) (args : Arr3 (Option Nat))
    (puzzle_name : String) : List puzzle_spec_t → MainResult
  | [] => ⟨.returned 0, [.not_found puzzle_name], [], []⟩
  | current :: rest =>
    if current.name = puzzle_name then
      let r := test_function fuel RAND_MAX rand 0 current args
      ⟨(call_end r).getD (.returned 0), [], [(current, args)], [r]⟩
    else run_named fuel RAND_MAX rand args puzzle_name rest

/-- The loop of `main` over all entries: `k` counts the calls of `rand()`,
`calls` and `results` the calls of `test_function` made so far. -/
def run_all (fuel RAND_MAX : Nat) (rand : Nat → Nat) (args : Arr3 (Option Nat)) :
    List puzzle_spec_t → Nat → List (puzzle_spec_t × Arr3 (Option Nat)) → List (Run Outcome) →
    MainResult
  | [], _, calls, results => ⟨.returned 0, [], calls, results⟩
  | current :: rest, k, calls, results =>
    match test_function fuel RAND_MAX rand k current args with
    | .done o =>
      run_all fuel RAND_MAX rand args rest o.rand_calls (calls ++ [(current, args)])
        (results ++ [.done o])
    | .exit status e =>
      ⟨.exited status, [], calls ++ [(current, args)], results ++ [.exit status e]⟩
    | .overrun => ⟨.overrun, [], calls ++ [(current, args)], results ++ [.overrun]⟩
    | .nofuel => ⟨.nofuel, [], calls ++ [(current, args)], results ++ [.nofuel]⟩

/-- The function `main(argc, argv)` over the registry `specs`, with
`argc = argv.length`. -/
def main (specs : List puzzle_spec_t) (strtol : String → Int × String)
    (strtof : String → Nat × String) (fuel RAND_MAX : Nat) (rand : Nat → Nat)
    (argv : List String) : MainResult :=
  match main_args strtol strtof argv with
  | .error msg => ⟨.exited 1, [msg], [], []⟩
  | .ok (some puzzle_name, args) => run_named fuel RAND_MAX rand args puzzle_name specs
  | .ok (none, args) => run_all fuel RAND_MAX rand args specs 0 [] []

/-! ## Auxiliary definitions used in the statements -/

/-- The `int` stored in `test_vals` for the `unsigned` value `w`. -/
def stored (w : Nat) : Int := toInt32 (w : Int)

/-- The twelve bit patterns the float loop produces for the offset `i`:
`i, S|i, N+i, N-i, S|(N+i), S|(N-i), O+i, O-i, S|(O+i), S|(O-i), L-i, S|(L-i)`
with `S = 0x80000000`, `N = 0x00800000`, `O = 0x3f800000`, `L = 0x7f000000`. -/
def float_patterns (i : Nat) : List Nat :=
  [ i, 0x80000000 ||| i,
    0x00800000 + i, 0x00800000 - i,
    0x80000000 ||| (0x00800000 + i), 0x80000000 ||| (0x00800000 - i),
    0x3f800000 + i, 0x3f800000 - i,
    0x80000000 ||| (0x3f800000 + i), 0x80000000 ||| (0x3f800000 - i),
    0x7f000000 - i, 0x80000000 ||| (0x7f000000 - i) ]

/-- The bit patterns of `+inf`, `-inf`, `NaN` and `-NaN`. -/
def float_sentinels : List Nat := [0x7f800000, 0xff800000, 0x7fc00000, 0xffc00000]

/-- The effective budget of the float-bits policy: `min(b, 2^23)`. -/
def float_budget (b : Nat) : Nat := min b 8388608


/-- The three sampling policies of `gen_vals`. -/
inductive Policy where
  | float_bits
  | exhaustive
  | boundary_random
  deriving DecidableEq

/-- The policy `gen_vals` follows: the outcome of its two tests
`if (is_float_input)` and `if (max - MAX_TEST_VALS <= min)`. -/
def policy_of (min max : Int) (is_float_input : Bool) : Policy :=
  if is_float_input then .float_bits
  else if toInt32 (max - MAX_TEST_VALS) ≤ min then .exhaustive
  else .boundary_random

/-- The cross product of the per-slot sample sets in nested-iteration order,
first slot outermost: the tuple at indices `(i, j, k)` precedes the one at
`(i1, j1, k1)` exactly when `(i, j, k)` is lexicographically smaller. -/
def cross : List (List Int) → List (List Int)
  | [] => [[]]
  | s :: rest => s.flatMap (fun a => (cross rest).map (fun t => a :: t))

/-- The 32-bit patterns of a tuple of test values. -/
def patterns (t : List Int) : List Nat := t.map toUInt32

/-- The candidate and the reference return equal 32-bit results on `t`. -/
def agree (spec : puzzle_spec_t) (t : List Int) : Prop :=
  spec.impl_func (patterns t) % 4294967296 = spec.test_func (patterns t) % 4294967296

instance (spec : puzzle_spec_t) (t : List Int) : Decidable (agree spec t) := by
  unfold agree; infer_instance

/-- The diagnostic for the tuple `t`: its patterns, `actual` (the candidate's
result) and `expected` (the reference's result). -/
def report_at (spec : puzzle_spec_t) (t : List Int) : Report :=
  ⟨patterns t, spec.impl_func (patterns t) % 4294967296,
    spec.test_func (patterns t) % 4294967296⟩

/-- The argument variables `arg1 ..` of a comparison block whose C types are
`ts`, for the tuple `t` of array elements. -/
def load_args (ts : List CType) (t : List Int) : List Int := List.zipWith load_arg ts t

/-- The oracle `test_bitAnd` of `oracle.c` on bit patterns: `x & y`. -/
def test_bitAnd (ws : List Nat) : Nat := ws.getD 0 0 &&& ws.getD 1 0

/-- The registry entry `bitAnd` of `puzzle_spec.c`; the candidate `bitAnd`
of `bits.h` is a parameter. -/
def bitAnd_spec (impl : List Nat → Nat) : puzzle_spec_t :=
  { name := "bitAnd", return_type := .INT_RET, num_args := 2,
    arg_types := ⟨.INT_ARG, .INT_ARG, .UNUSED_ARG⟩,
    arg_min := ⟨INT_MIN, INT_MIN, 0⟩, arg_max := ⟨INT_MAX, INT_MAX, 0⟩,
    test_func := test_bitAnd, impl_func := impl }

/-- A wrong candidate for `bitAnd`: bitwise OR. -/
def or_candidate (ws : List Nat) : Nat := ws.getD 0 0 ||| ws.getD 1 0

/-- A one-argument descriptor whose only slot has the bounds
`[INT_MAX, INT_MAX]` and whose candidate is its reference. -/
def int_max_spec : puzzle_spec_t :=
  { name := "identity", return_type := .INT_RET, num_args := 1,
    arg_types := ⟨.INT_ARG, .UNUSED_ARG, .UNUSED_ARG⟩,
    arg_min := ⟨INT_MAX, 0, 0⟩, arg_max := ⟨INT_MAX, 0, 0⟩,
    test_func := fun ws => ws.getD 0 0, impl_func := fun ws => ws.getD 0 0 }

/-- What the sampling loop of `test_function` leaves in slot `i`: the single
pinned value when `input_args[i]` is not `NULL`, otherwise the values some
call `gen_vals(arg_test_vals[i], arg_min[i], arg_max[i], is_float_input,
test_range)` has stored. -/
def slot_filled (fuel RAND_MAX : Nat) (rand : Nat → Nat) (spec : puzzle_spec_t)
    (input_args : Arr3 (Option Nat)) (test_range : Int) (i : Nat) (s : List Int) : Prop :=
  match input_args.get i with
  | some v => s = [toInt32 v]
  | none =>
    ∃ (f : Bool) (k0 k1 : Nat), is_float_of (spec.arg_types.get i) = some f
      ∧ gen_vals fuel RAND_MAX rand k0 (spec.arg_min.get i) (spec.arg_max.get i) f test_range
          = .done (s, k1)

/-- One iteration of the loop of `test_rotateLeft`: `u = (u << 1) | (u >> 31)`
on an `unsigned`. -/
def rotate_step (u : Nat) : Nat := ((u <<< 1) % 4294967296) ||| (u >>> 31)

/-- The oracle `test_rotateLeft` of `oracle.c` on bit patterns: `n` (read as
an `int`) iterations of `rotate_step` on `x`. -/
def test_rotateLeft (ws : List Nat) : Nat :=
  rotate_step^[(toInt32 (ws.getD 1 0 : Nat)).toNat] (ws.getD 0 0)

/-- The registry entry `rotateLeft` of `puzzle_spec.c`; the candidate
`rotateLeft` of `bits.h` is a parameter. -/
def rotateLeft_spec (impl : List Nat → Nat) : puzzle_spec_t :=
  { name := "rotateLeft", return_type := .INT_RET, num_args := 2,
    arg_types := ⟨.INT_ARG, .INT_ARG, .UNUSED_ARG⟩,
    arg_min := ⟨INT_MIN, 0, 0⟩, arg_max := ⟨INT_MAX, 31, 0⟩,
    test_func := test_rotateLeft, impl_func := impl }

/-- The value of the character `c` as a digit of `strtol` (letters count
from ten). -/
def digit_value (c : Char) : Option Nat :=
  if 48 ≤ c.toNat ∧ c.toNat ≤ 57 then some (c.toNat - 48)
  else if 97 ≤ c.toNat ∧ c.toNat ≤ 122 then some (c.toNat - 87)
  else if 65 ≤ c.toNat ∧ c.toNat ≤ 90 then some (c.toNat - 55)
  else none

/-- The longest run of digits of the base at the head of a string: its
value, its length and the rest. -/
def read_digits (base : Nat) : List Char → Nat → Nat → Nat × Nat × List Char
  | [], acc, n => (acc, n, [])
  | c :: cs, acc, n =>
    match digit_value c with
    | some d =>
      if d < base then read_digits base cs (acc * base + d) (n + 1) else (acc, n, c :: cs)
    | none => (acc, n, c :: cs)

/-- The string without its leading white space (`isspace`). -/
def skip_space : List Char → List Char
  | [] => []
  | c :: cs =>
    if c.toNat = 32 ∨ (9 ≤ c.toNat ∧ c.toNat ≤ 13) then skip_space cs else c :: cs

/-- The libc function `strtol(s, &endp, 0)` for a 64-bit `long`, after
ISO C 7.22.1.4: white space, an optional sign, the base taken from the
prefix (`0x` hexadecimal, `0` octal, else decimal), the longest run of
digits; without any digit the value is `0` and `endp` is `s`; the value is
clamped to `[LONG_MIN, LONG_MAX]`. -/
def strtol_c (s : String) : Int × String :=
  let cs := skip_space s.toList
  let signed : Bool × List Char :=
    match cs with
    | '-' :: r => (true, r)
    | '+' :: r => (false, r)
    | _ => (false, cs)
  let based : Nat × List Char :=
    match signed.2 with
    | '0' :: x :: h :: r =>
      if (x = 'x' ∨ x = 'X') ∧ (∃ d, digit_value h = some d ∧ d < 16) then (16, h :: r)
      else (8, signed.2)
    | '0' :: _ => (8, signed.2)
    | _ => (10, signed.2)
  match read_digits based.1 based.2 0 0 with
  | (v, n, rest) =>
    if n = 0 then (0, s)
    else
      let val : Int := if signed.1 then -(v : Int) else (v : Int)
      (max (-9223372036854775808) (min val 9223372036854775807), String.mk rest)

/-- A `strtof` for invocations without a float token (it is not called
then): it converts nothing. -/
def strtof_stub (s : String) : Nat × String := (0, s)

/-- A zero-argument descriptor whose candidate and reference both return `7`. -/
def zero_arity_spec : puzzle_spec_t :=
  { name := "seven", return_type := .INT_RET, num_args := 0,
    arg_types := ⟨.UNUSED_ARG, .UNUSED_ARG, .UNUSED_ARG⟩,
    arg_min := ⟨0, 0, 0⟩, arg_max := ⟨0, 0, 0⟩,
    test_func := fun _ => 7, impl_func := fun _ => 7 }

/-- A two-argument descriptor whose first slot has the bounds
`[INT_MAX, INT_MAX]` and whose second slot has the kind `UNUSED_ARG`. -/
def bad_kind_spec : puzzle_spec_t :=
  { name := "malformed", return_type := .INT_RET, num_args := 2,
    arg_types := ⟨.INT_ARG, .UNUSED_ARG, .UNUSED_ARG⟩,
    arg_min := ⟨INT_MAX, 0, 0⟩, arg_max := ⟨INT_MAX, 0, 0⟩,
    test_func := fun _ => 0, impl_func := fun _ => 0 }

/-- The oracle `test_isPositive` of `oracle.c` on bit patterns: `x > 0` for
the `int` `x`. -/
def test_isPositive (ws : List Nat) : Nat :=
  if toInt32 (ws.getD 0 0 : Nat) > 0 then 1 else 0

/-- A table of puzzle functions in which every name stands for
`test_isPositive`. -/
def isPositive_table (_ : String) : List Nat → Nat := test_isPositive

/-- The call `gen_vals(arg_test_vals[i], min, max, is_float_input,
test_range)` returns, whatever the state of `rand()`, and the values it
stores fit in a test-value array. -/
def slot_samples (fuel RAND_MAX : Nat) (rand : Nat → Nat) (min max : Int) (f : Bool)
    (test_range : Int) : Prop :=
  ∀ k, ∃ (test_vals : List Int) (k1 : Nat),
    gen_vals fuel RAND_MAX rand k min max f test_range = .done (test_vals, k1)
    ∧ (test_vals.length : Int) ≤ MAX_TEST_VALS

/-- The biased exponent field (bits 23 to 30) of a single-precision
bit pattern. -/
def biased_exponent (w : Nat) : Nat := (w >>> 23) % 256

/-- The mantissa field (bits 0 to 22) of a single-precision bit pattern. -/
def mantissa (w : Nat) : Nat := w % 8388608

/-- The stores of iteration `i` of the sampling loop that do not depend on
`rand()`: `min + i`, `max - i`, then `i` and `-i` when they lie in
`[min, max]`. -/
def sample_fixed (min max i : Int) : List Int :=
  [toInt32 (min + i), toInt32 (max - i)]
    ++ (if i ≥ min ∧ i ≤ max then [i] else [])
    ++ (if -i ≥ min ∧ -i ≤ max then [-i] else [])

/-- The sequence `gen_vals` has stored when it returns. -/
def gen_output (r : Run (List Int × Nat)) : Option (List Int) :=
  match r with
  | .done (test_vals, _) => some test_vals
  | _ => none

/-- Two argument kinds that are equal or differ only in `INT_ARG` versus
`UNSIGNED_ARG`. -/
def sign_variant (a b : argType) : Prop :=
  a = b ∨ (a = .INT_ARG ∧ b = .UNSIGNED_ARG) ∨ (a = .UNSIGNED_ARG ∧ b = .INT_ARG)

/-- Two return kinds that are equal or differ only in `INT_RET` versus
`UNSIGNED_RET`. -/
def ret_variant (a b : returnType) : Prop :=
  a = b ∨ (a = .INT_RET ∧ b = .UNSIGNED_RET) ∨ (a = .UNSIGNED_RET ∧ b = .INT_RET)


/-! ## The oracle `test_floatIsEqual`

`test_floatIsEqual` stores its two `unsigned` arguments in a union and
compares the `float` members with `==`. A `float` is an IEEE-754
single-precision number: sign bit 31, biased exponent in bits 23 to 30,
mantissa in bits 0 to 22. The value of a finite pattern is kept exactly as
an integer multiple of `2^-149`, the spacing of the denormal numbers. -/

/-- The value `x.f` of a union whose `unsigned` member holds a bit pattern. -/
inductive Float32 where
  | nan
  | inf (negative : Bool)
  | finite (scaled : Int)
  deriving DecidableEq, Repr

/-- The sign bit (bit 31) of a single-precision bit pattern. -/
def sign_bit (w : Nat) : Bool := (w >>> 31) % 2 = 1

/-- The magnitude of a finite pattern in units of `2^-149`: `m` for a
denormal number (`0.m * 2^-126`), `2^(e-1) * (2^23 + m)` for a normal one
(`1.m * 2^(e-127)`). -/
def magnitude (w : Nat) : Nat :=
  if biased_exponent w = 0 then mantissa w
  else 2 ^ (biased_exponent w - 1) * (8388608 + mantissa w)

/-- The `float` a bit pattern stands for: exponent field all ones is an
infinity (mantissa zero) or a NaN, anything else is finite. -/
def float_of_bits (w : Nat) : Float32 :=
  if biased_exponent w = 255 then
    if mantissa w = 0 then .inf (sign_bit w) else .nan
  else .finite (if sign_bit w then -(magnitude w : Int) else (magnitude w : Int))

/-- The C comparison `a == b` on `float`: false when either operand is a NaN,
otherwise equality of the values (so `+0 == -0`). -/
def float_eq : Float32 → Float32 → Bool
  | .nan, _ => false
  | _, .nan => false
  | .inf a, .inf b => a == b
  | .finite p, .finite q => p == q
  | _, _ => false

/-- The oracle `test_floatIsEqual` of `oracle.c` on bit patterns:
`x.u = uf; y.u = ug; return x.f == y.f;`. -/
def test_floatIsEqual (ws : List Nat) : Nat :=
  if float_eq (float_of_bits (ws.getD 0 0)) (float_of_bits (ws.getD 1 0)) then 1 else 0

/-- A NaN pattern: exponent field all ones, nonzero mantissa. -/
def is_nan_pattern (w : Nat) : Prop := biased_exponent w = 255 ∧ mantissa w ≠ 0

instance (w : Nat) : Decidable (is_nan_pattern w) := by
  unfold is_nan_pattern; infer_instance

/-- The number of test values stated for slot `i` of the registry entry
`name` with its arity-scaled budget: `6000004` for the argument of
`floatScale2`, `8488` for each argument of `floatIsEqual`, `32` for the
shift count of `rotateLeft` and each argument of `bitMask`, `395`, `4` and
`256` for the arguments of `replaceByte`, and for a full-range `int`
argument `2500000` in a 1-argument puzzle and `3535` in a 2-argument one. -/
def claimed_count (name : String) (i : Nat) : Nat :=
  if name = "floatScale2" then 6000004
  else if name = "floatIsEqual" then 8488
  else if name = "rotateLeft" then (if i = 0 then 3535 else 32)
  else if name = "bitMask" then 32
  else if name = "replaceByte" then (match i with | 0 => 395 | 1 => 4 | _ => 256)
  else if name = "allOddBits" ∨ name = "anyEvenBit" ∨ name = "isPositive" ∨ name = "isPower2"
    then 2500000
  else 3535

/-! ## The oracles `test_replaceByte`, `test_bitMask`, `test_allOddBits`, `test_isPower2`

An `int` argument arrives as its 32-bit pattern. A left shift of an `int`
that overflows is undefined in ISO C; the model keeps the low 32 bits of
the shifted pattern, the behaviour of the usual targets. -/

/-- The oracle `test_replaceByte` of `oracle.c` on bit patterns: the
`switch (n)` with the cases `0`, `1`, `2` and `default`, each masking one
byte of `x` out and OR-ing `c << 8 * n` in. -/
def test_replaceByte (ws : List Nat) : Nat :=
  let x := ws.getD 0 0
  let n := toInt32 (ws.getD 1 0 : Nat)
  let c := ws.getD 2 0
  if n = 0 then (x &&& 0xFFFFFF00) ||| c
  else if n = 1 then (x &&& 0xFFFF00FF) ||| ((c <<< 8) % 4294967296)
  else if n = 2 then (x &&& 0xFF00FFFF) ||| ((c <<< 16) % 4294967296)
  else (x &&& 0x00FFFFFF) ||| ((c <<< 24) % 4294967296)

/-- Byte `k` of a word, byte 0 being the least significant. -/
def byte_of (w k : Nat) : Nat := (w >>> (8 * k)) % 256

/-- The C expression `1 << i` for an `int` `i`, as a 32-bit pattern: `2^i`
for `0 <= i <= 31` (`1 << 31` is `INT_MIN`, whose pattern is `0x80000000`).
A count outside `0 .. 31` is undefined in ISO C; the model takes its low
five bits, as the x86 shift instructions do. -/
def shl_one (i : Int) : Nat := 1 <<< (toUInt32 i % 32)

/-- The loop `for (int i = lowbit; i <= highbit; i++) result |= 1 << i;` of
`test_bitMask`, `result` being kept as a bit pattern. The increment wraps at
`INT_MAX`, so the loop takes fuel. -/
def bitMask_loop : Nat → Int → Int → Nat → Option Nat
  | 0, _, _, _ => none
  | fuel + 1, i, highbit, result =>
    if i ≤ highbit then bitMask_loop fuel (toInt32 (i + 1)) highbit (result ||| shl_one i)
    else some result

/-- The oracle `test_bitMask(highbit, lowbit)` of `oracle.c` on bit patterns;
`none` when the fuel does not suffice. -/
def test_bitMask (fuel : Nat) (ws : List Nat) : Option Nat :=
  bitMask_loop fuel (toInt32 (ws.getD 1 0 : Nat)) (toInt32 (ws.getD 0 0 : Nat)) 0

/-- The loop `for (int i = 1; i < 32; i += 2)` of `test_allOddBits` started at
`i`: `return 0` at the first `i` with `(x & (1 << i)) == 0`, `return 1` after
the loop; `none` when the fuel does not suffice. -/
def allOddBits_loop (x : Nat) : Nat → Int → Option Nat
  | 0, _ => none
  | fuel + 1, i =>
    if i < 32 then
      if x &&& shl_one i = 0 then some 0 else allOddBits_loop x fuel (toInt32 (i + 2))
    else some 1

/-- The oracle `test_allOddBits` of `oracle.c` on bit patterns. -/
def test_allOddBits (fuel : Nat) (ws : List Nat) : Option Nat :=
  allOddBits_loop (ws.getD 0 0) fuel 1

/-- The loop `for (int i = 0; i < 31; i++)` of `test_isPower2` started at `i`:
`return 1` at the first `i` with `x == 1 << i`, `return 0` after the loop;
`none` when the fuel does not suffice. -/
def isPower2_loop (x : Int) : Nat → Int → Option Nat
  | 0, _ => none
  | fuel + 1, i =>
    if i < 31 then
      if x = toInt32 (shl_one i : Nat) then some 1 else isPower2_loop x fuel (toInt32 (i + 1))
    else some 0

/-- The oracle `test_isPower2` of `oracle.c`, its argument given as a bit
pattern and read as an `int`. -/
def test_isPower2 (fuel : Nat) (ws : List Nat) : Option Nat :=
  isPower2_loop (toInt32 (ws.getD 0 0 : Nat)) fuel 0

/-- The value of the `double` expression `min * (1 - weight) + max * weight`
of `random_val`, with `weight = rand() / (double) RAND_MAX`: the linear
interpolation between `min` and `max`, every operation rounded to double. -/
def interpolation (RAND_MAX r : Nat) (min max : Int) : ℚ :=
  let weight : ℚ := round_double ((r : ℚ) / (RAND_MAX : ℚ))
  round_double
    (round_double ((min : ℚ) * round_double (1 - weight)) + round_double ((max : ℚ) * weight))
/-! ## Machine integers: basic facts -/

theorem toInt32_of_range (x : Int) (h1 : -2147483648 ≤ x) (h2 : x ≤ 2147483647) :
    toInt32 x = x := by
  unfold toInt32; omega

theorem toInt32_range (x : Int) : -2147483648 ≤ toInt32 x ∧ toInt32 x ≤ 2147483647 := by
  unfold toInt32; omega

theorem toUInt32_cast (x : Int) : ((toUInt32 x : Nat) : Int) = x % 4294967296 := by
  unfold toUInt32; omega

theorem toUInt32_lt (x : Int) : toUInt32 x < 4294967296 := by
  have := toUInt32_cast x; omega

theorem toUInt32_of_nat (n : Nat) : toUInt32 (n : Int) = n % 4294967296 := by
  have := toUInt32_cast n; omega

theorem toUInt32_toInt32 (x : Int) : toUInt32 (toInt32 x) = toUInt32 x := by
  have h1 := toUInt32_cast (toInt32 x)
  have h2 := toUInt32_cast x
  unfold toInt32 at h1 ⊢
  omega

theorem toUInt32_toUInt32 (x : Int) : toUInt32 ((toUInt32 x : Nat) : Int) = toUInt32 x := by
  have h1 := toUInt32_cast ((toUInt32 x : Nat) : Int)
  have h2 := toUInt32_cast x
  omega

theorem toInt32_eq_iff (a b : Nat) :
    toInt32 (a : Int) = toInt32 (b : Int) ↔ a % 4294967296 = b % 4294967296 := by
  unfold toInt32; omega

/-- Setting the sign bit of a pattern below `2^31` adds `2^31`. -/
theorem sign_or (x : Nat) (h : x < 2147483648) : 2147483648 ||| x = 2147483648 + x := by
  have := Nat.mul_add_lt_is_or (i := 31) (b := x) (by simpa using h) 1
  simpa using this.symm

/-! ## The float-bits policy in closed form -/

theorem float_loop_eq (n : Nat) : ∀ (i : Int) (acc : List Int),
    float_loop n i acc = acc ++ (List.range n).flatMap (fun j => float_iter (i + (j : Int))) := by
  induction n with
  | zero => intro i acc; simp [float_loop]
  | succ n ih =>
    intro i acc
    rw [float_loop, ih, List.range_succ_eq_map]
    simp only [List.flatMap_cons, List.flatMap_map, List.append_assoc, Nat.cast_zero, add_zero]
    congr 2
    apply List.flatMap_congr
    intro j _
    simp only [Function.comp, Nat.succ_eq_add_one, Nat.cast_add, Nat.cast_one]
    congr 1
    ring

theorem toUInt32_add_nat (a j : Nat) (h : a + j < 4294967296) :
    toUInt32 ((a : Int) + (j : Int)) = a + j := by
  have := toUInt32_cast ((a : Int) + (j : Int)); omega

theorem toUInt32_sub_nat (a j : Nat) (h : j ≤ a) (h2 : a < 4294967296) :
    toUInt32 ((a : Int) - (j : Int)) = a - j := by
  have := toUInt32_cast ((a : Int) - (j : Int)); omega

/-- Below the cap `2^23` no offset wraps: iteration `i` stores the twelve
patterns of `float_patterns i`. -/
theorem float_iter_eq (j : Nat) (h : j < 8388608) :
    float_iter (j : Int) = (float_patterns j).map stored := by
  have e0 : toUInt32 (j : Int) = j := by
    have := toUInt32_cast (j : Int); omega
  have e1 := toUInt32_add_nat 0x00800000 j (by omega)
  have e2 := toUInt32_sub_nat 0x00800000 j (by omega) (by omega)
  have e3 := toUInt32_add_nat 0x3f800000 j (by omega)
  have e4 := toUInt32_sub_nat 0x3f800000 j (by omega) (by omega)
  have e5 := toUInt32_sub_nat 0x7f000000 j (by omega) (by omega)
  have e6 : toInt32 (j : Int) = j := toInt32_of_range _ (by omega) (by omega)
  simp only [float_iter, float_patterns, stored, List.map_cons, List.map_nil, e0, e1, e2, e3, e4,
    e5, e6]

theorem float_special_eq : float_special = float_sentinels.map stored := by
  decide

/-- Every pattern of the float loop has its low 31 bits at most `0x7f000000`. -/
theorem float_patterns_low (j : Nat) (h : j < 8388608) :
    ∀ w ∈ float_patterns j, w < 4294967296 ∧ w % 2147483648 ≤ 0x7f000000 := by
  intro w hw
  have s1 := sign_or j (by omega)
  have s2 := sign_or (0x00800000 + j) (by omega)
  have s3 := sign_or (0x00800000 - j) (by omega)
  have s4 := sign_or (0x3f800000 + j) (by omega)
  have s5 := sign_or (0x3f800000 - j) (by omega)
  have s6 := sign_or (0x7f000000 - j) (by omega)
  simp only [float_patterns, List.mem_cons, List.mem_singleton, List.not_mem_nil, or_false] at hw
  rcases hw with rfl | rfl | rfl | rfl | rfl | rfl | rfl | rfl | rfl | rfl | rfl | rfl <;> omega

/-- The output of `gen_vals` for a float-bits argument, in closed form. -/
theorem gen_vals_float (fuel RAND_MAX : Nat) (rand : Nat → Nat) (k : Nat) (min max : Int)
    (b : Int) :
    gen_vals fuel RAND_MAX rand k min max true b =
      .done (((List.range (float_budget b.toNat)).flatMap float_patterns ++ float_sentinels).map
        stored, k) := by
  have hb : (if b > 8388608 then (8388608 : Int) else b).toNat = float_budget b.toNat := by
    unfold float_budget
    split <;> omega
  have hl : (List.range (float_budget b.toNat)).flatMap (fun j => float_iter (0 + (j : Int))) =
      (List.range (float_budget b.toNat)).flatMap (fun j => (float_patterns j).map stored) := by
    apply List.flatMap_congr
    intro j hj
    have hj2 : j < 8388608 := by
      have := List.mem_range.mp hj
      unfold float_budget at this
      omega
    simpa using float_iter_eq j hj2
  simp only [gen_vals, if_true, hb, float_loop_eq, List.nil_append, List.map_append,
    float_special_eq, List.map_flatMap, hl]


theorem float_patterns_length_sum (n : Nat) :
    ((List.range n).flatMap float_patterns).length = 12 * n := by
  induction n with
  | zero => simp
  | succ n ih =>
    rw [List.range_succ, List.flatMap_append, List.length_append, ih]
    simp [float_patterns]
    omega

theorem mem_float_loop_patterns {n : Nat} (hn : n ≤ 8388608) {w : Nat}
    (hw : w ∈ (List.range n).flatMap float_patterns) :
    w < 4294967296 ∧ w % 2147483648 ≤ 0x7f000000 := by
  rcases List.mem_flatMap.mp hw with ⟨j, hj, hwj⟩
  exact float_patterns_low j (by have := List.mem_range.mp hj; omega) w hwj

theorem float_sentinels_high : ∀ s ∈ float_sentinels,
    s < 4294967296 ∧ 0x7f000000 < s % 2147483648 := by
  decide

theorem toUInt32_stored (w : Nat) (h : w < 4294967296) : toUInt32 (stored w) = w := by
  unfold stored
  rw [toUInt32_toInt32, toUInt32_of_nat]
  omega

theorem stored_inj {a b : Nat} (ha : a < 4294967296) (hb : b < 4294967296)
    (h : stored a = stored b) : a = b := by
  have := (toInt32_eq_iff a b).mp h
  omega

theorem float_budget_le (b : Nat) : float_budget b ≤ 8388608 := by
  unfold float_budget; omega

/-- No value stored by the float loop is one of the four sentinels. -/
theorem sentinel_not_in_loop (n : Nat) (hn : n ≤ 8388608) (s : Nat) (hs : s ∈ float_sentinels) :
    stored s ∉ ((List.range n).flatMap float_patterns).map stored := by
  intro hmem
  rcases List.mem_map.mp hmem with ⟨w, hw, hws⟩
  have h1 := mem_float_loop_patterns hn hw
  have h2 := float_sentinels_high s hs
  have := stored_inj h1.1 h2.1 hws
  omega

theorem sentinel_count_special : ∀ s ∈ float_sentinels,
    (float_sentinels.map stored).count (stored s) = 1 := by
  decide

theorem sentinel_count_plain : ∀ s ∈ float_sentinels, float_sentinels.count s = 1 := by
  decide

theorem map_toUInt32_stored (l : List Nat) (h : ∀ w ∈ l, w < 4294967296) :
    (l.map stored).map toUInt32 = l := by
  induction l with
  | nil => rfl
  | cons a l ih =>
    rw [List.map_cons, List.map_cons, toUInt32_stored a (h a (List.mem_cons_self a l)),
      ih (fun w hw => h w (List.mem_cons_of_mem a hw))]

theorem float_all_lt (n : Nat) (hn : n ≤ 8388608) :
    ∀ w ∈ (List.range n).flatMap float_patterns ++ float_sentinels, w < 4294967296 := by
  intro w hw
  rcases List.mem_append.mp hw with h | h
  · exact (mem_float_loop_patterns hn h).1
  · exact (float_sentinels_high w h).1

/-! ## The exhaustive and the boundary/random policy -/

/-- While the counter cannot wrap (`max < INT_MAX`) the loop stores
`i, i + 1, ..., max` and stops. -/
theorem exhaust_loop_ok (max : Int) (hmax : max < 2147483647) :
    ∀ (n fuel : Nat) (i : Int) (acc : List Int), -2147483648 ≤ i → max + 1 - i = (n : Int) →
      n < fuel →
      exhaust_loop fuel i max acc = some (acc ++ (List.range n).map (fun (j : Nat) => i + (j : Int))) := by
  intro n
  induction n with
  | zero =>
    intro fuel i acc _ hn hf
    obtain ⟨f, rfl⟩ : ∃ f, fuel = f + 1 := ⟨fuel - 1, by omega⟩
    have : ¬ i ≤ max := by omega
    simp [exhaust_loop, this]
  | succ n ih =>
    intro fuel i acc hi hn hf
    obtain ⟨f, rfl⟩ : ∃ f, fuel = f + 1 := ⟨fuel - 1, by omega⟩
    have hle : i ≤ max := by omega
    have hw : toInt32 (i + 1) = i + 1 := toInt32_of_range _ (by omega) (by omega)
    rw [exhaust_loop, if_pos hle, hw, ih f (i + 1) (acc ++ [i]) (by omega) (by omega) (by omega),
      List.range_succ_eq_map]
    simp only [List.map_cons, List.map_map, List.append_assoc, List.singleton_append,
      Nat.cast_zero, add_zero]
    congr 3
    apply List.map_congr_left
    intro j _
    simp only [Function.comp, Nat.succ_eq_add_one, Nat.cast_add, Nat.cast_one]
    ring

/-- With `max = INT_MAX` the test `i <= max` never fails: the loop does not
end, whatever the fuel. -/
theorem exhaust_loop_diverges (max : Int) (hmax : 2147483647 ≤ max) :
    ∀ (fuel : Nat) (i : Int) (acc : List Int), i ≤ 2147483647 →
      exhaust_loop fuel i max acc = none := by
  intro fuel
  induction fuel with
  | zero => intro i acc _; rfl
  | succ f ih =>
    intro i acc hi
    have hle : i ≤ max := by omega
    rw [exhaust_loop, if_pos hle]
    exact ih _ _ (toInt32_range _).2

theorem sample_loop_eq (RAND_MAX : Nat) (rand : Nat → Nat) (min max : Int) (n : Nat) :
    ∀ (i : Int) (k : Nat) (acc : List Int),
      sample_loop RAND_MAX rand min max n i k acc =
        (acc ++ (List.range n).flatMap
          (fun j => sample_iter RAND_MAX (rand (k + j)) min max (i + (j : Int))), k + n) := by
  induction n with
  | zero => intro i k acc; simp [sample_loop]
  | succ n ih =>
    intro i k acc
    rw [sample_loop, ih, List.range_succ_eq_map]
    simp only [List.flatMap_cons, List.flatMap_map, List.append_assoc, Nat.cast_zero, add_zero]
    refine Prod.ext ?_ (by simp only; omega)
    simp only
    congr 2
    apply List.flatMap_congr
    intro j _
    simp only [Function.comp, Nat.succ_eq_add_one, Nat.cast_add, Nat.cast_one]
    have e1 : k + 1 + j = k + (j + 1) := by omega
    have e2 : i + 1 + (j : Int) = i + ((j : Int) + 1) := by ring
    rw [e1, e2]

/-- The output of `gen_vals` under the boundary/random policy. -/
theorem gen_vals_sample (fuel RAND_MAX : Nat) (rand : Nat → Nat) (k : Nat) (min max b : Int)
    (h : policy_of min max false = .boundary_random) :
    gen_vals fuel RAND_MAX rand k min max false b =
      .done ((List.range b.toNat).flatMap
        (fun j => sample_iter RAND_MAX (rand (k + j)) min max (j : Int)), k + b.toNat) := by
  have hc : ¬ toInt32 (max - MAX_TEST_VALS) ≤ min := by
    intro hc
    simp [policy_of, hc] at h
  simp [gen_vals, hc, sample_loop_eq]

/-- The output of `gen_vals` under the exhaustive policy when no `int`
operation wraps. -/
theorem gen_vals_exhaustive (fuel RAND_MAX : Nat) (rand : Nat → Nat) (k : Nat) (min max b : Int)
    (n : Nat) (hmin : -2147483648 ≤ min) (hmax : max < 2147483647)
    (hlow : -2147483648 + 6500000 ≤ max) (hn : max + 1 - min = (n : Int))
    (hsmall : max - min ≤ 6500000) (hfuel : n < fuel) :
    gen_vals fuel RAND_MAX rand k min max false b =
      .done ((List.range n).map (fun (j : Nat) => min + (j : Int)), k) := by
  have hw : toInt32 (max - MAX_TEST_VALS) = max - 6500000 := by
    rw [show MAX_TEST_VALS = 6500000 from rfl]
    exact toInt32_of_range _ (by omega) (by omega)
  have hc : toInt32 (max - MAX_TEST_VALS) ≤ min := by rw [hw]; omega
  simp [gen_vals, hc, exhaust_loop_ok max hmax n fuel min [] hmin hn hfuel]

/-! ## The budget computed by `test_function` -/

theorem truncPow_eq (b p q m : Nat) (hm : m ≤ b) (h1 : m ^ q ≤ b ^ p)
    (h2 : b ^ p < (m + 1) ^ q) : truncPow b p q = m := by
  unfold truncPow
  rw [Nat.findGreatest_eq_iff]
  refine ⟨hm, fun _ => h1, ?_⟩
  intro n hn _ hle
  have : (m + 1) ^ q ≤ n ^ q := Nat.pow_le_pow_left hn q
  omega

theorem sqrt_budget : truncPow TEST_RANGE 1 2 = 707 := by
  apply truncPow_eq <;> norm_num [TEST_RANGE]

theorem cbrt_budget : truncPow TEST_RANGE 333 1000 = 79 := by
  apply truncPow_eq <;> norm_num [TEST_RANGE]

/-! ## The comparison loops -/

theorem for_ret_map {α β : Type} (body : β → List (List Nat) × Option Report) (f : α → β)
    (xs : List α) : for_ret body (xs.map f) = for_ret (fun x => body (f x)) xs := by
  induction xs with
  | nil => rfl
  | cons x xs ih => simp only [List.map_cons, for_ret, ih]

theorem for_ret_append {α : Type} (body : α → List (List Nat) × Option Report) (xs ys : List α) :
    for_ret body (xs ++ ys) =
      match for_ret body xs with
      | (ev, some r) => (ev, some r)
      | (ev, none) =>
        match for_ret body ys with
        | (ev1, res) => (ev ++ ev1, res) := by
  induction xs with
  | nil =>
    rcases hy : for_ret body ys with ⟨ev1, res⟩
    simp [for_ret, hy]
  | cons x xs ih =>
    rcases hb : body x with ⟨ev, _ | r⟩
    · rcases hx : for_ret body xs with ⟨ev1, _ | r1⟩
      · rcases hy : for_ret body ys with ⟨ev2, res⟩
        rw [hx, hy] at ih
        simp [for_ret, hb, hx, hy, ih]
      · rw [hx] at ih
        simp [for_ret, hb, hx, ih]
    · simp [for_ret, hb]

/-- Nested loops run the body over the concatenation of the inner ranges. -/
theorem for_ret_flatMap {α β : Type} (body : β → List (List Nat) × Option Report)
    (f : α → List β) (xs : List α) :
    for_ret body (xs.flatMap f) = for_ret (fun x => for_ret body (f x)) xs := by
  induction xs with
  | nil => rfl
  | cons x xs ih =>
    rw [List.flatMap_cons, for_ret_append, ih]
    simp only [for_ret]

/-- A loop whose body evaluates one tuple and finds no mismatch runs to the
end and evaluates every tuple. -/
theorem for_ret_all_ok {α : Type} (key : α → List Nat) (chk : α → Option Report)
    (xs : List α) (h : ∀ x ∈ xs, chk x = none) :
    for_ret (fun x => ([key x], chk x)) xs = (xs.map key, none) := by
  induction xs with
  | nil => rfl
  | cons x xs ih =>
    have hx := h x (List.mem_cons_self x xs)
    have ih1 := ih (fun y hy => h y (List.mem_cons_of_mem x hy))
    simp only [for_ret, hx, ih1, List.map_cons, List.singleton_append]

/-- A loop whose body evaluates one tuple stops at the first mismatch. -/
theorem for_ret_first {α : Type} (key : α → List Nat) (chk : α → Option Report)
    (pre post : List α) (x : α) (r : Report) (h : ∀ y ∈ pre, chk y = none) (hx : chk x = some r) :
    for_ret (fun x => ([key x], chk x)) (pre ++ x :: post) = ((pre ++ [x]).map key, some r) := by
  rw [for_ret_append, for_ret_all_ok key chk pre h]
  simp only [for_ret, hx, List.map_append, List.map_cons, List.map_nil]

/-- The first element of a list that satisfies `p`. -/
theorem exists_first {α : Type} (p : α → Prop) [DecidablePred p] (l : List α)
    (h : ∃ x ∈ l, p x) :
    ∃ pre x post, l = pre ++ x :: post ∧ (∀ y ∈ pre, ¬ p y) ∧ p x := by
  induction l with
  | nil => simp at h
  | cons a l ih =>
    by_cases ha : p a
    · exact ⟨[], a, l, rfl, by simp, ha⟩
    · have h1 : ∃ x ∈ l, p x := by
        rcases h with ⟨x, hx, hp⟩
        rcases List.mem_cons.mp hx with rfl | hx1
        · exact absurd hp ha
        · exact ⟨x, hx1, hp⟩
      rcases ih h1 with ⟨pre, x, post, rfl, hpre, hx⟩
      refine ⟨a :: pre, x, post, rfl, ?_, hx⟩
      intro y hy
      rcases List.mem_cons.mp hy with rfl | hy1
      · exact ha
      · exact hpre y hy1

theorem for_ret_singleton {α : Type} (body : α → List (List Nat) × Option Report) (x : α) :
    for_ret body [x] = body x := by
  rcases hb : body x with ⟨ev, _ | r⟩ <;> simp [for_ret, hb]

theorem toUInt32_load_arg (c : CType) (x : Int) : toUInt32 (load_arg c x) = toUInt32 x := by
  cases c
  · rfl
  · exact toUInt32_toUInt32 x

theorem patterns_load_args : ∀ (ts : List CType) (t : List Int), ts.length = t.length →
    (load_args ts t).map toUInt32 = patterns t := by
  intro ts
  induction ts with
  | nil =>
    intro t h
    cases t with
    | nil => rfl
    | cons a t => simp at h
  | cons c ts ih =>
    intro t h
    cases t with
    | nil => simp at h
    | cons a t =>
      have := ih t (by simpa using h)
      simp only [load_args, patterns, List.zipWith_cons_cons, List.map_cons,
        toUInt32_load_arg] at this ⊢
      rw [this]

theorem load_ret_ne_iff (rt : CType) (a b : Nat) :
    load_ret rt a ≠ load_ret rt b ↔ ¬ (a % 4294967296 = b % 4294967296) := by
  cases rt
  · simp only [load_ret, ne_eq, toInt32_eq_iff]
  · simp only [load_ret, ne_eq, toUInt32_of_nat]
    omega

theorem toUInt32_load_ret (rt : CType) (a : Nat) :
    toUInt32 (load_ret rt a) = a % 4294967296 := by
  cases rt
  · simp only [load_ret, toUInt32_toInt32, toUInt32_of_nat]
  · simp only [load_ret, toUInt32_toUInt32, toUInt32_of_nat, Nat.mod_mod]

/-- Whatever the C types selected by the dispatch, the body of the innermost
loop evaluates both functions on the patterns of the tuple and compares the
results as 32-bit words. -/
theorem compare_at_load (spec : puzzle_spec_t) (rt : CType) (ts : List CType) (t : List Int)
    (h : ts.length = t.length) :
    compare_at spec rt (load_args ts t) =
      ([patterns t], if agree spec t then none else some (report_at spec t)) := by
  unfold compare_at
  simp only [patterns_load_args ts t h, load_ret_ne_iff, toUInt32_load_ret, agree, report_at]
  by_cases hag : spec.impl_func (patterns t) % 4294967296 = spec.test_func (patterns t) % 4294967296
  · simp [hag]
  · simp [hag]

/-- The uniform body of the comparison loops. -/
theorem dispatch_eq (spec : puzzle_spec_t) (sets : List (List Int)) (k : Nat) (rt : CType)
    (hr : ret_ctype spec.return_type = some rt) (hlen : sets.length = spec.num_args)
    (hle : spec.num_args ≤ 3)
    (hk : ∀ i < spec.num_args, arg_ctype (spec.arg_types.get i) ≠ none) :
    dispatch spec sets k =
      .done (finish k (for_ret
        (fun t => ([patterns t], if agree spec t then none else some (report_at spec t)))
        (cross sets))) := by
  have hcases : spec.num_args = 0 ∨ spec.num_args = 1 ∨ spec.num_args = 2 ∨ spec.num_args = 3 := by
    omega
  rcases hcases with h0 | h1 | h2 | h3
  · rw [h0] at hlen
    obtain rfl : sets = [] := List.length_eq_zero.mp hlen
    simp only [dispatch, h0, hr, cross, for_ret_singleton]
    rw [← compare_at_load spec rt [] [] rfl]
    rfl
  · rw [h1] at hlen hk
    obtain ⟨s0, rfl⟩ := List.length_eq_one.mp hlen
    obtain ⟨t1, ht1⟩ := Option.ne_none_iff_exists'.mp (hk 0 (by omega))
    simp only [dispatch, h1, hr, ht1, cross, for_ret_flatMap, for_ret_map, for_ret_singleton,
      List.getD_cons_zero]
    congr 3
    funext a1
    exact compare_at_load spec rt [t1] [a1] rfl
  · rw [h2] at hlen hk
    obtain ⟨s0, s1, rfl⟩ := List.length_eq_two.mp hlen
    obtain ⟨t1, ht1⟩ := Option.ne_none_iff_exists'.mp (hk 0 (by omega))
    obtain ⟨t2, ht2⟩ := Option.ne_none_iff_exists'.mp (hk 1 (by omega))
    simp only [dispatch, h2, hr, ht1, ht2, cross, for_ret_flatMap, for_ret_map,
      for_ret_singleton, List.getD_cons_zero, List.getD_cons_succ]
    congr 3
    funext a1
    congr 1
    funext a2
    exact compare_at_load spec rt [t1, t2] [a1, a2] rfl
  · rw [h3] at hlen hk
    obtain ⟨s0, s1, s2, rfl⟩ := List.length_eq_three.mp hlen
    obtain ⟨t1, ht1⟩ := Option.ne_none_iff_exists'.mp (hk 0 (by omega))
    obtain ⟨t2, ht2⟩ := Option.ne_none_iff_exists'.mp (hk 1 (by omega))
    obtain ⟨t3, ht3⟩ := Option.ne_none_iff_exists'.mp (hk 2 (by omega))
    simp only [dispatch, h3, hr, ht1, ht2, ht3, cross, for_ret_flatMap, for_ret_map,
      for_ret_singleton, List.getD_cons_zero, List.getD_cons_succ]
    congr 3
    funext a1
    congr 1
    funext a2
    congr 1
    funext a3
    exact compare_at_load spec rt [t1, t2, t3] [a1, a2, a3] rfl

/-- The cross product of two sample sets: nested iteration, first slot
outermost. -/
theorem cross_pair (A B : List Int) :
    cross [A, B] = A.flatMap (fun a => B.map (fun b => [a, b])) := by
  simp [cross, List.map_eq_flatMap, List.flatMap_assoc]

/-- The cross product of three sample sets: nested iteration, first slot
outermost. -/
theorem cross_triple (A B C : List Int) :
    cross [A, B, C] = A.flatMap (fun a => B.flatMap (fun b => C.map (fun c => [a, b, c]))) := by
  simp [cross, List.map_eq_flatMap, List.flatMap_assoc]

/-! ## The sampling loop of `test_function` -/

theorem arg_ctype_of_is_float (a : argType) (h : is_float_of a ≠ none) : arg_ctype a ≠ none := by
  cases a <;> simp_all [is_float_of, arg_ctype]

theorem test_range_of_le (n tr : Nat) (h : test_range_of n = some tr) : n ≤ 3 := by
  match n, h with
  | 0, _ => omega
  | 1, _ => omega
  | 2, _ => omega
  | 3, _ => omega

/-- When the sampling loop completes, it has appended one sample set per
slot, every slot had a recognised kind, and each set is the pinned value
or the output of `gen_vals`. -/
theorem sample_args_spec (fuel RAND_MAX : Nat) (rand : Nat → Nat) (spec : puzzle_spec_t)
    (input_args : Arr3 (Option Nat)) (test_range : Int) (n : Nat) :
    ∀ (i k : Nat) (sets sets1 : List (List Int)) (k1 : Nat),
      sample_args fuel RAND_MAX rand spec input_args test_range n i k sets = .done (sets1, k1) →
      ∃ new : List (List Int), sets1 = sets ++ new ∧ new.length = n
        ∧ ∀ j < n, is_float_of (spec.arg_types.get (i + j)) ≠ none
            ∧ slot_filled fuel RAND_MAX rand spec input_args test_range (i + j) (new.getD j []) := by
  induction n with
  | zero =>
    intro i k sets sets1 k1 h
    simp only [sample_args, Run.done.injEq, Prod.mk.injEq] at h
    exact ⟨[], by simp [h.1], rfl, by intro j hj; omega⟩
  | succ n ih =>
    intro i k sets sets1 k1 h
    rcases hf : is_float_of (spec.arg_types.get i) with _ | f
    · simp [sample_args, hf] at h
    · rcases hin : input_args.get i with _ | v
      · rcases hg : gen_vals fuel RAND_MAX rand k (spec.arg_min.get i) (spec.arg_max.get i) f
            test_range with ⟨tv, k2⟩ | ⟨s, e⟩ | _ | _
        · simp only [sample_args, hf, hin, hg] at h
          split at h
          · simp at h
          · rcases ih (i + 1) k2 _ sets1 k1 h with ⟨new, hnew, hlen, hall⟩
            refine ⟨tv :: new, by simp [hnew], by simp [hlen], ?_⟩
            intro j hj
            cases j with
            | zero =>
              refine ⟨by simp [hf], ?_⟩
              simp only [slot_filled, add_zero, hin, List.getD_cons_zero]
              exact ⟨f, k, k2, hf, hg⟩
            | succ j =>
              have := hall j (by omega)
              have e : i + (j + 1) = i + 1 + j := by omega
              rw [e]
              simpa using this
        · simp [sample_args, hf, hin, hg] at h
        · simp [sample_args, hf, hin, hg] at h
        · simp [sample_args, hf, hin, hg] at h
      · simp only [sample_args, hf, hin] at h
        rcases ih (i + 1) k _ sets1 k1 h with ⟨new, hnew, hlen, hall⟩
        refine ⟨[toInt32 v] :: new, by simp [hnew], by simp [hlen], ?_⟩
        intro j hj
        cases j with
        | zero =>
          refine ⟨by simp [hf], ?_⟩
          simp only [slot_filled, add_zero, hin, List.getD_cons_zero]
        | succ j =>
          have := hall j (by omega)
          have e : i + (j + 1) = i + 1 + j := by omega
          rw [e]
          simpa using this

/-- Once the sampling loop has completed on a descriptor with a recognised
return type, `test_function` runs the comparison over the cross product. -/
theorem test_function_done (fuel RAND_MAX : Nat) (rand : Nat → Nat) (k : Nat)
    (spec : puzzle_spec_t) (input_args : Arr3 (Option Nat)) (tr : Nat)
    (sets : List (List Int)) (k1 : Nat) (rt : CType)
    (htr : test_range_of spec.num_args = some tr)
    (hs : sample_args fuel RAND_MAX rand spec input_args tr spec.num_args 0 k []
      = .done (sets, k1))
    (hr : ret_ctype spec.return_type = some rt) :
    test_function fuel RAND_MAX rand k spec input_args =
      .done (finish k1 (for_ret
        (fun t => ([patterns t], if agree spec t then none else some (report_at spec t)))
        (cross sets))) := by
  rcases sample_args_spec fuel RAND_MAX rand spec input_args tr spec.num_args 0 k [] sets k1 hs
    with ⟨new, hnew, hlen, hall⟩
  simp only [List.nil_append] at hnew
  subst hnew
  simp only [test_function, htr, hs]
  apply dispatch_eq spec sets k1 rt hr hlen (test_range_of_le _ _ htr)
  intro i hi
  have := (hall i hi).1
  rw [Nat.zero_add] at this
  exact arg_ctype_of_is_float _ this

/-- No mismatch on the cross product: every tuple is evaluated and
`test_function` returns `0`. -/
theorem test_function_pass (fuel RAND_MAX : Nat) (rand : Nat → Nat) (k : Nat)
    (spec : puzzle_spec_t) (input_args : Arr3 (Option Nat)) (tr : Nat)
    (sets : List (List Int)) (k1 : Nat) (rt : CType)
    (htr : test_range_of spec.num_args = some tr)
    (hs : sample_args fuel RAND_MAX rand spec input_args tr spec.num_args 0 k []
      = .done (sets, k1))
    (hr : ret_ctype spec.return_type = some rt)
    (hall : ∀ t ∈ cross sets, agree spec t) :
    test_function fuel RAND_MAX rand k spec input_args =
      .done ⟨0, none, (cross sets).map patterns, k1⟩ := by
  rw [test_function_done fuel RAND_MAX rand k spec input_args tr sets k1 rt htr hs hr,
    for_ret_all_ok patterns _ (cross sets) (fun t ht => by simp [hall t ht])]
  rfl

/-- A mismatch on the cross product: `test_function` stops at the first
mismatching tuple, reports it and returns `-1`. -/
theorem test_function_fail (fuel RAND_MAX : Nat) (rand : Nat → Nat) (k : Nat)
    (spec : puzzle_spec_t) (input_args : Arr3 (Option Nat)) (tr : Nat)
    (sets : List (List Int)) (k1 : Nat) (rt : CType)
    (htr : test_range_of spec.num_args = some tr)
    (hs : sample_args fuel RAND_MAX rand spec input_args tr spec.num_args 0 k []
      = .done (sets, k1))
    (hr : ret_ctype spec.return_type = some rt)
    (pre post : List (List Int)) (t : List Int) (hsplit : cross sets = pre ++ t :: post)
    (hpre : ∀ u ∈ pre, agree spec u) (ht : ¬ agree spec t) :
    test_function fuel RAND_MAX rand k spec input_args =
      .done ⟨-1, some (report_at spec t), (pre ++ [t]).map patterns, k1⟩ := by
  rw [test_function_done fuel RAND_MAX rand k spec input_args tr sets k1 rt htr hs hr, hsplit,
    for_ret_first patterns _ pre post t (report_at spec t) (fun u hu => by simp [hpre u hu])
      (by simp [ht])]
  rfl

/-- With `min = max = INT_MAX` the exhaustive policy is selected and its
loop does not end. -/
theorem gen_vals_int_max (fuel RAND_MAX : Nat) (rand : Nat → Nat) (k : Nat) (b : Int) :
    gen_vals fuel RAND_MAX rand k INT_MAX INT_MAX false b = .nofuel := by
  have hc : toInt32 (INT_MAX - MAX_TEST_VALS) ≤ INT_MAX := by decide
  simp [gen_vals, hc, exhaust_loop_diverges INT_MAX (le_refl _) fuel INT_MAX [] (le_refl _)]

/-! ## Selection of the policy -/

/-- The branch of `gen_vals` for a non-float argument, by policy. -/
theorem gen_vals_by_policy (fuel RAND_MAX : Nat) (rand : Nat → Nat) (k : Nat)
    (min max b : Int) :
    (policy_of min max false = .exhaustive →
      gen_vals fuel RAND_MAX rand k min max false b =
        match exhaust_loop fuel min max [] with
        | some test_vals => .done (test_vals, k)
        | none => .nofuel)
    ∧ (policy_of min max false = .boundary_random →
      gen_vals fuel RAND_MAX rand k min max false b =
        .done (sample_loop RAND_MAX rand min max b.toNat 0 k [])) := by
  by_cases hc : toInt32 (max - MAX_TEST_VALS) ≤ min
  · simp [policy_of, gen_vals, hc]
  · simp [policy_of, gen_vals, hc]

/-- Without overflow in `max - MAX_TEST_VALS`, the exhaustive policy is
selected exactly when `max - min ≤ 6500000`. -/
theorem policy_of_iff (min max : Int) (hlow : -2147483648 + 6500000 ≤ max)
    (hmax : max ≤ 2147483647) :
    policy_of min max false = .exhaustive ↔ max - min ≤ 6500000 := by
  have hw : toInt32 (max - MAX_TEST_VALS) = max - 6500000 := by
    rw [show MAX_TEST_VALS = 6500000 from rfl]
    exact toInt32_of_range _ (by omega) (by omega)
  by_cases hc : max - min ≤ 6500000
  · have : toInt32 (max - MAX_TEST_VALS) ≤ min := by rw [hw]; omega
    simp [policy_of, this, hc]
  · have : ¬ toInt32 (max - MAX_TEST_VALS) ≤ min := by rw [hw]; omega
    simp [policy_of, this, hc]

theorem policy_of_not_float (min max : Int) : policy_of min max false ≠ .float_bits := by
  unfold policy_of
  split
  · simp_all
  · split <;> simp

/-- With `max = INT_MAX` and a range of at most `6500001` values the
exhaustive policy is selected and its loop does not end. -/
theorem gen_vals_max_diverges (fuel RAND_MAX : Nat) (rand : Nat → Nat) (k : Nat) (min b : Int)
    (h1 : 2147483647 - 6500000 ≤ min) (h2 : min ≤ 2147483647) :
    gen_vals fuel RAND_MAX rand k min INT_MAX false b = .nofuel := by
  have hw : toInt32 (INT_MAX - MAX_TEST_VALS) = 2147483647 - 6500000 := by decide
  have hc : toInt32 (INT_MAX - MAX_TEST_VALS) ≤ min := by rw [hw]; exact h1
  simp [gen_vals, hc, exhaust_loop_diverges INT_MAX (le_refl _) fuel min [] h2]

/-! ## Malformed descriptors -/

theorem gen_vals_ne_exit (fuel RAND_MAX : Nat) (rand : Nat → Nat) (k : Nat) (min max : Int)
    (f : Bool) (b : Int) (s : Int) (e : List (List Nat)) :
    gen_vals fuel RAND_MAX rand k min max f b ≠ .exit s e := by
  unfold gen_vals
  split
  · simp
  · split
    · split <;> simp
    · simp

/-- The sampling loop calls `exit` only with status `1` and before any call
of a puzzle function. -/
theorem sample_args_exit (fuel RAND_MAX : Nat) (rand : Nat → Nat) (spec : puzzle_spec_t)
    (input_args : Arr3 (Option Nat)) (test_range : Int) (n : Nat) :
    ∀ (i k : Nat) (sets : List (List Int)) (s : Int) (e : List (List Nat)),
      sample_args fuel RAND_MAX rand spec input_args test_range n i k sets = .exit s e →
      s = 1 ∧ e = [] := by
  induction n with
  | zero => intro i k sets s e h; simp [sample_args] at h
  | succ n ih =>
    intro i k sets s e h
    rcases hf : is_float_of (spec.arg_types.get i) with _ | f
    · simp only [sample_args, hf, Run.exit.injEq] at h
      exact ⟨h.1.symm, h.2.symm⟩
    · rcases hin : input_args.get i with _ | v
      · rcases hg : gen_vals fuel RAND_MAX rand k (spec.arg_min.get i) (spec.arg_max.get i) f
            test_range with ⟨tv, k2⟩ | ⟨s1, e1⟩ | _ | _
        · simp only [sample_args, hf, hin, hg] at h
          split at h
          · simp at h
          · exact ih _ _ _ s e h
        · exact absurd hg (gen_vals_ne_exit _ _ _ _ _ _ _ _ _ _)
        · simp [sample_args, hf, hin, hg] at h
        · simp [sample_args, hf, hin, hg] at h
      · simp only [sample_args, hf, hin] at h
        exact ih _ _ _ s e h

/-- With an unrecognised return kind the dispatch calls `exit(1)` before any
call of a puzzle function. -/
theorem dispatch_bad_ret (spec : puzzle_spec_t) (sets : List (List Int)) (k : Nat)
    (hr : ret_ctype spec.return_type = none) : dispatch spec sets k = .exit 1 [] := by
  unfold dispatch
  split <;> simp [hr]

/-- A descriptor with an unrecognised kind in a slot below its arity, or with
an unrecognised return kind, never makes `test_function` return, and an
`exit` it reaches has status `1` and precedes every call of a puzzle
function. -/
theorem malformed_never_returns (fuel RAND_MAX : Nat) (rand : Nat → Nat) (k : Nat)
    (spec : puzzle_spec_t) (input_args : Arr3 (Option Nat))
    (hbad : (∃ i < spec.num_args, is_float_of (spec.arg_types.get i) = none)
      ∨ ret_ctype spec.return_type = none) :
    (∀ o, test_function fuel RAND_MAX rand k spec input_args ≠ .done o)
    ∧ (∀ s e, test_function fuel RAND_MAX rand k spec input_args = .exit s e → s = 1 ∧ e = []) := by
  rcases htr : test_range_of spec.num_args with _ | tr
  · simp [test_function, htr]
  · rcases hs : sample_args fuel RAND_MAX rand spec input_args tr spec.num_args 0 k []
      with ⟨sets, k1⟩ | ⟨s1, e1⟩ | _ | _
    · have hspec := sample_args_spec fuel RAND_MAX rand spec input_args tr spec.num_args 0 k []
        sets k1 hs
      rcases hspec with ⟨new, _, _, hall⟩
      have hret : ret_ctype spec.return_type = none := by
        rcases hbad with ⟨i, hi, hbadi⟩ | hret
        · have := (hall i hi).1
          rw [Nat.zero_add] at this
          exact absurd hbadi this
        · exact hret
      simp [test_function, htr, hs, dispatch_bad_ret spec sets k1 hret]
    · have := sample_args_exit fuel RAND_MAX rand spec input_args tr spec.num_args 0 k [] s1 e1 hs
      simp [test_function, htr, hs, this.1, this.2]
    · simp [test_function, htr, hs]
    · simp [test_function, htr, hs]

/-! ## `main` -/

/-- The named loop tests the first entry with the requested name, and only
that entry. -/
theorem run_named_first (fuel RAND_MAX : Nat) (rand : Nat → Nat) (args : Arr3 (Option Nat))
    (name : String) (pre post : List puzzle_spec_t) (d : puzzle_spec_t)
    (hpre : ∀ s ∈ pre, s.name ≠ name) (hd : d.name = name) :
    run_named fuel RAND_MAX rand args name (pre ++ d :: post) =
      ⟨(call_end (test_function fuel RAND_MAX rand 0 d args)).getD (.returned 0), [],
        [(d, args)], [test_function fuel RAND_MAX rand 0 d args]⟩ := by
  induction pre with
  | nil => simp [run_named, hd]
  | cons a pre ih =>
    have ha : a.name ≠ name := hpre a (List.mem_cons_self a pre)
    simp only [List.cons_append, run_named, ha, if_false]
    exact ih (fun s hs => hpre s (List.mem_cons_of_mem a hs))

/-- Without an entry of the requested name the named loop tests nothing,
prints the not-found message, and `main` returns `0`. -/
theorem run_named_none (fuel RAND_MAX : Nat) (rand : Nat → Nat) (args : Arr3 (Option Nat))
    (name : String) (specs : List puzzle_spec_t) (h : ∀ s ∈ specs, s.name ≠ name) :
    run_named fuel RAND_MAX rand args name specs = ⟨.returned 0, [.not_found name], [], []⟩ := by
  induction specs with
  | nil => rfl
  | cons a specs ih =>
    have ha : a.name ≠ name := h a (List.mem_cons_self a specs)
    simp only [run_named, ha, if_false]
    exact ih (fun s hs => h s (List.mem_cons_of_mem a hs))

/-- The sampling loop reads `input_args[i]` only for the slots it fills. -/
theorem sample_args_congr (fuel RAND_MAX : Nat) (rand : Nat → Nat) (spec : puzzle_spec_t)
    (args args1 : Arr3 (Option Nat)) (test_range : Int) (n : Nat) :
    ∀ (i k : Nat) (sets : List (List Int)), (∀ j < n, args.get (i + j) = args1.get (i + j)) →
      sample_args fuel RAND_MAX rand spec args test_range n i k sets =
        sample_args fuel RAND_MAX rand spec args1 test_range n i k sets := by
  induction n with
  | zero => intro i k sets _; rfl
  | succ n ih =>
    intro i k sets h
    have h0 : args.get i = args1.get i := by simpa using h 0 (by omega)
    have hrec : ∀ (k1 : Nat) (sets1 : List (List Int)),
        sample_args fuel RAND_MAX rand spec args test_range n (i + 1) k1 sets1 =
          sample_args fuel RAND_MAX rand spec args1 test_range n (i + 1) k1 sets1 := by
      intro k1 sets1
      apply ih
      intro j hj
      have := h (j + 1) (by omega)
      have e : i + (j + 1) = i + 1 + j := by omega
      rwa [e] at this
    simp only [sample_args, h0, hrec]

/-- The function `test_function` reads only the pinned values of the slots
below the arity. -/
theorem test_function_congr (fuel RAND_MAX : Nat) (rand : Nat → Nat) (k : Nat)
    (spec : puzzle_spec_t) (args args1 : Arr3 (Option Nat))
    (h : ∀ i < spec.num_args, args.get i = args1.get i) :
    test_function fuel RAND_MAX rand k spec args = test_function fuel RAND_MAX rand k spec args1 := by
  unfold test_function
  rcases test_range_of spec.num_args with _ | tr
  · rfl
  · simp only
    rw [sample_args_congr fuel RAND_MAX rand spec args args1 tr spec.num_args 0 k []
      (fun j hj => by simpa using h j hj)]

theorem registry_names (test impl : String → List Nat → Nat) :
    (puzzle_specs test impl).map (fun s => s.name) =
      ["bitXor", "bitAnd", "allOddBits", "floatIsEqual", "anyEvenBit", "isPositive",
        "replaceByte", "isLess", "rotateLeft", "bitMask", "floatScale2", "isPower2"] := by
  rfl

/-- The named loop depends on `args` only through the pinned values below
the arity of the entry it tests. -/
theorem run_named_congr (fuel RAND_MAX : Nat) (rand : Nat → Nat) (args args1 : Arr3 (Option Nat))
    (name : String) (specs : List puzzle_spec_t)
    (h : ∀ s ∈ specs, s.name = name → ∀ i < s.num_args, args.get i = args1.get i) :
    (run_named fuel RAND_MAX rand args name specs).ending
        = (run_named fuel RAND_MAX rand args1 name specs).ending
    ∧ (run_named fuel RAND_MAX rand args name specs).results
        = (run_named fuel RAND_MAX rand args1 name specs).results
    ∧ (run_named fuel RAND_MAX rand args name specs).messages
        = (run_named fuel RAND_MAX rand args1 name specs).messages
    ∧ (run_named fuel RAND_MAX rand args name specs).calls.map (fun c => c.1.name)
        = (run_named fuel RAND_MAX rand args1 name specs).calls.map (fun c => c.1.name) := by
  induction specs with
  | nil => simp [run_named]
  | cons a specs ih =>
    by_cases ha : a.name = name
    · have e := test_function_congr fuel RAND_MAX rand 0 a args args1
        (h a (List.mem_cons_self a specs) ha)
      simp [run_named, ha, e]
    · simp only [run_named, ha, if_false]
      exact ih (fun s hs => h s (List.mem_cons_of_mem a hs))

/-! ## Completion of the sampling on well-behaved slots -/

theorem sample_iter_length_le (RAND_MAX r : Nat) (min max i : Int) :
    (sample_iter RAND_MAX r min max i).length ≤ 5 := by
  unfold sample_iter
  simp only [List.length_append, List.length_cons, List.length_nil]
  split <;> split <;> simp

theorem flatMap_length_le {α β : Type} (f : α → List β) (c : Nat) (l : List α)
    (h : ∀ x ∈ l, (f x).length ≤ c) : (l.flatMap f).length ≤ c * l.length := by
  induction l with
  | nil => simp
  | cons a l ih =>
    have h1 := h a (List.mem_cons_self a l)
    have h2 := ih (fun x hx => h x (List.mem_cons_of_mem a hx))
    simp only [List.flatMap_cons, List.length_append, List.length_cons]
    rw [Nat.mul_succ]
    omega

/-- An `int` slot over the full range is sampled within the array for every
budget up to `TEST_RANGE`. -/
theorem slot_samples_full (fuel RAND_MAX : Nat) (rand : Nat → Nat) (tr : Int)
    (htr : tr ≤ 500000) : slot_samples fuel RAND_MAX rand INT_MIN INT_MAX false tr := by
  intro k
  refine ⟨_, _, gen_vals_sample fuel RAND_MAX rand k INT_MIN INT_MAX tr (by decide), ?_⟩
  have hlen := flatMap_length_le
    (fun (j : Nat) => sample_iter RAND_MAX (rand (k + j)) INT_MIN INT_MAX (j : Int)) 5
    (List.range tr.toNat) (fun j _ => sample_iter_length_le _ _ _ _ _)
  rw [List.length_range] at hlen
  have hM : MAX_TEST_VALS = 6500000 := rfl
  rw [hM]
  omega

/-- The sampling loop completes when every slot it fills has a recognised
kind and is pinned or sampled within its array. -/
theorem sample_args_total (fuel RAND_MAX : Nat) (rand : Nat → Nat) (spec : puzzle_spec_t)
    (input_args : Arr3 (Option Nat)) (test_range : Int) (n : Nat) :
    ∀ (i k : Nat) (sets : List (List Int)),
      (∀ j < n, ∃ f, is_float_of (spec.arg_types.get (i + j)) = some f
        ∧ (input_args.get (i + j) ≠ none
          ∨ slot_samples fuel RAND_MAX rand (spec.arg_min.get (i + j)) (spec.arg_max.get (i + j))
              f test_range)) →
      ∃ sets1 k1,
        sample_args fuel RAND_MAX rand spec input_args test_range n i k sets = .done (sets1, k1) := by
  induction n with
  | zero => intro i k sets _; exact ⟨sets, k, rfl⟩
  | succ n ih =>
    intro i k sets h
    have hrec : ∀ j < n, ∃ f, is_float_of (spec.arg_types.get (i + 1 + j)) = some f
        ∧ (input_args.get (i + 1 + j) ≠ none
          ∨ slot_samples fuel RAND_MAX rand (spec.arg_min.get (i + 1 + j))
              (spec.arg_max.get (i + 1 + j)) f test_range) := by
      intro j hj
      have := h (j + 1) (by omega)
      have e : i + (j + 1) = i + 1 + j := by omega
      rwa [e] at this
    rcases h 0 (by omega) with ⟨f, hf, hslot⟩
    rw [Nat.add_zero] at hf hslot
    rcases hin : input_args.get i with _ | v
    · rcases hslot with hne | hsamp
      · exact absurd hin hne
      · rcases hsamp k with ⟨tv, k2, hg, hlen⟩
        have hnot : ¬ (tv.length : Int) > MAX_TEST_VALS := by omega
        simp only [sample_args, hf, hin, hg, hnot, if_false]
        exact ih (i + 1) k2 _ hrec
    · simp only [sample_args, hf, hin]
      exact ih (i + 1) k _ hrec

theorem finish_code (k : Nat) (x : List (List Nat) × Option Report) :
    (finish k x).code = 0 ∨ (finish k x).code = -1 := by
  rcases x with ⟨ev, _ | r⟩
  · exact Or.inl rfl
  · exact Or.inr rfl

/-- On a descriptor of arity at most 3 with recognised kinds whose slots are
pinned or sampled within their arrays, `test_function` returns `0` or `-1`. -/
theorem test_function_total (fuel RAND_MAX : Nat) (rand : Nat → Nat) (k : Nat)
    (spec : puzzle_spec_t) (input_args : Arr3 (Option Nat)) (tr : Nat) (rt : CType)
    (htr : test_range_of spec.num_args = some tr)
    (hr : ret_ctype spec.return_type = some rt)
    (hslots : ∀ i < spec.num_args, ∃ f, is_float_of (spec.arg_types.get i) = some f
      ∧ (input_args.get i ≠ none
        ∨ slot_samples fuel RAND_MAX rand (spec.arg_min.get i) (spec.arg_max.get i) f tr)) :
    ∃ o, test_function fuel RAND_MAX rand k spec input_args = .done o
      ∧ (o.code = 0 ∨ o.code = -1) := by
  rcases sample_args_total fuel RAND_MAX rand spec input_args tr spec.num_args 0 k []
    (fun j hj => by simpa using hslots j hj) with ⟨sets, k1, hs⟩
  exact ⟨_, test_function_done fuel RAND_MAX rand k spec input_args tr sets k1 rt htr hs hr,
    finish_code _ _⟩

/-- With pairwise distinct names the named loop selects any entry by its
name. -/
theorem run_named_of_nodup (fuel RAND_MAX : Nat) (rand : Nat → Nat) (args : Arr3 (Option Nat))
    (specs : List puzzle_spec_t) (d : puzzle_spec_t)
    (hnd : (specs.map (fun s => s.name)).Nodup) (hd : d ∈ specs) :
    run_named fuel RAND_MAX rand args d.name specs =
      ⟨(call_end (test_function fuel RAND_MAX rand 0 d args)).getD (.returned 0), [],
        [(d, args)], [test_function fuel RAND_MAX rand 0 d args]⟩ := by
  rcases List.append_of_mem hd with ⟨pre, post, rfl⟩
  apply run_named_first fuel RAND_MAX rand args d.name pre post d _ rfl
  intro s hs heq
  rw [List.map_append, List.map_cons, List.nodup_append] at hnd
  exact hnd.2.2 (List.mem_map.mpr ⟨s, hs, heq⟩) (List.mem_cons_self _ _)

theorem registry_nodup (test impl : String → List Nat → Nat) :
    ((puzzle_specs test impl).map (fun s => s.name)).Nodup := by
  rw [registry_names]
  decide

/-! ## The integer branch of `get_num_val` -/

/-- The arithmetic shift `v >> 31` is the floor of `v / 2^31`. -/
theorem shiftRight_31 (v : Int) : v >>> (31 : Int) = v / 2147483648 := by
  have e : (31 : Int) = ((31 : Nat) : Int) := rfl
  rw [e]
  cases v with
  | ofNat m =>
    rw [Int.ofNat_eq_coe, Int.shiftRight_coe_nat, Nat.shiftRight_eq_div_pow]
    norm_num
  | negSucc m =>
    rw [Int.shiftRight_negSucc, Nat.shiftRight_eq_div_pow]
    have h2 : (2 : Nat) ^ 31 = 2147483648 := by norm_num
    rw [h2, Int.negSucc_eq, Int.negSucc_eq]
    omega

theorem upperbits_iff (v : Int) :
    (v >>> 31 = 0 ∨ v >>> 31 = -1 ∨ v >>> 31 = 1) ↔ (-2147483648 ≤ v ∧ v ≤ 4294967295) := by
  rw [shiftRight_31]
  omega

/-! ## Shape of the sampled sequence -/

theorem sample_iter_eq (RAND_MAX r : Nat) (min max i : Int) :
    sample_iter RAND_MAX r min max i = sample_fixed min max i ++ [random_val RAND_MAX r min max] := by
  rfl

theorem sample_fixed_length (min max i : Int) :
    2 ≤ (sample_fixed min max i).length ∧ (sample_fixed min max i).length ≤ 4 := by
  unfold sample_fixed
  simp only [List.length_append, List.length_cons, List.length_nil]
  split <;> split <;> simp

theorem sample_fixed_length_full (i : Int) (h0 : 0 ≤ i) (h1 : i ≤ 2147483647) :
    (sample_fixed INT_MIN INT_MAX i).length = 4 := by
  have a1 : i ≥ INT_MIN ∧ i ≤ INT_MAX := by
    constructor
    · show (-2147483648 : Int) ≤ i
      omega
    · exact h1
  have a2 : -i ≥ INT_MIN ∧ -i ≤ INT_MAX := by
    constructor
    · show (-2147483648 : Int) ≤ -i
      omega
    · show -i ≤ (2147483647 : Int)
      omega
  simp [sample_fixed, a1, a2]

theorem flatMap_length_ge {α β : Type} (f : α → List β) (c : Nat) (l : List α)
    (h : ∀ x ∈ l, c ≤ (f x).length) : c * l.length ≤ (l.flatMap f).length := by
  induction l with
  | nil => simp
  | cons a l ih =>
    have h1 := h a (List.mem_cons_self a l)
    have h2 := ih (fun x hx => h x (List.mem_cons_of_mem a hx))
    simp only [List.flatMap_cons, List.length_append, List.length_cons]
    rw [Nat.mul_succ]
    omega

theorem flatMap_length_eq {α β : Type} (f : α → List β) (c : Nat) (l : List α)
    (h : ∀ x ∈ l, (f x).length = c) : (l.flatMap f).length = c * l.length := by
  have h1 := flatMap_length_le f c l (fun x hx => le_of_eq (h x hx))
  have h2 := flatMap_length_ge f c l (fun x hx => le_of_eq (h x hx).symm)
  omega

/-! ## `random_val` truncates -/

/-- The conversion to `int` is the floor of a non-negative value and the
ceiling of a negative one. -/
theorem truncToInt_eq (q : ℚ) : truncToInt q = if 0 ≤ q then ⌊q⌋ else ⌈q⌉ := by
  have hden : (0 : Int) ≤ (q.den : Int) := Int.ofNat_nonneg _
  unfold truncToInt
  split
  · rename_i h
    have hnum : 0 ≤ q.num := Rat.num_nonneg.mpr h
    rw [Int.tdiv_eq_ediv hnum hden, Rat.floor_def]
  · rename_i h
    have hnum : q.num < 0 := by
      rcases lt_or_le q.num 0 with h1 | h1
      · exact h1
      · exact absurd (Rat.num_nonneg.mp h1) h
    have hc : ⌈q⌉ = -⌊-q⌋ := by rw [Int.floor_neg, neg_neg]
    rw [hc, Rat.floor_def, Rat.neg_num, Rat.neg_den,
      ← Int.tdiv_eq_ediv (by omega : (0 : Int) ≤ -q.num) hden, Int.neg_tdiv, neg_neg]

/-! ## Rounding to double -/

theorem round_half_even_bounds (x : ℚ) :
    ⌊x⌋ ≤ round_half_even x ∧ round_half_even x ≤ ⌊x⌋ + 1 := by
  unfold round_half_even
  split_ifs <;> omega

theorem round_half_even_eq (x : ℚ) (n : Int) (h : |x - (n : ℚ)| < 1 / 2) :
    round_half_even x = n := by
  rw [abs_lt] at h
  have hf1 : (⌊x⌋ : ℚ) ≤ x := Int.floor_le x
  have hf2 : x < (⌊x⌋ : ℚ) + 1 := Int.lt_floor_add_one x
  unfold round_half_even
  split_ifs with h1 h2 h3
  · have : (⌊x⌋ : ℚ) - 1 < n ∧ (n : ℚ) < ⌊x⌋ + 1 := by constructor <;> linarith
    have h4 : ⌊x⌋ - 1 < n := by exact_mod_cast this.1
    have h5 : n < ⌊x⌋ + 1 := by exact_mod_cast this.2
    omega
  · have : (⌊x⌋ : ℚ) < n ∧ (n : ℚ) < ⌊x⌋ + 2 := by constructor <;> linarith
    have h4 : ⌊x⌋ < n := by exact_mod_cast this.1
    have h5 : n < ⌊x⌋ + 2 := by exact_mod_cast this.2
    omega
  · exfalso
    have he : x - (⌊x⌋ : ℚ) = 1 / 2 := le_antisymm (not_lt.mp h2) (not_lt.mp h1)
    have : (⌊x⌋ : ℚ) < n ∧ (n : ℚ) < ⌊x⌋ + 1 := by constructor <;> linarith
    have h4 : ⌊x⌋ < n := by exact_mod_cast this.1
    have h5 : n < ⌊x⌋ + 1 := by exact_mod_cast this.2
    omega
  · exfalso
    have he : x - (⌊x⌋ : ℚ) = 1 / 2 := le_antisymm (not_lt.mp h2) (not_lt.mp h1)
    have : (⌊x⌋ : ℚ) < n ∧ (n : ℚ) < ⌊x⌋ + 1 := by constructor <;> linarith
    have h4 : ⌊x⌋ < n := by exact_mod_cast this.1
    have h5 : n < ⌊x⌋ + 1 := by exact_mod_cast this.2
    omega

theorem abs_eq_natAbs_div (q : ℚ) : |q| = (q.num.natAbs : ℚ) / (q.den : ℚ) := by
  have h := Rat.num_div_den q
  have hd : (0 : ℚ) < (q.den : ℚ) := by exact_mod_cast q.den_pos
  conv_lhs => rw [← h]
  rw [abs_div, abs_of_pos hd, Nat.cast_natAbs, Int.cast_abs]

theorem binade_spec (q : ℚ) (hq : q ≠ 0) :
    (2 : ℚ) ^ binade q ≤ |q| ∧ |q| < 2 ^ (binade q + 1) := by
  have ha0 : q.num.natAbs ≠ 0 := by
    intro h
    exact hq (Rat.num_eq_zero.mp (Int.natAbs_eq_zero.mp h))
  have hb0 : q.den ≠ 0 := q.den_nz
  have ha1 : 2 ^ q.num.natAbs.log2 ≤ q.num.natAbs := Nat.log2_self_le ha0
  have ha2 : q.num.natAbs < 2 ^ (q.num.natAbs.log2 + 1) := Nat.lt_log2_self
  have hb1 : 2 ^ q.den.log2 ≤ q.den := Nat.log2_self_le hb0
  have hb2 : q.den < 2 ^ (q.den.log2 + 1) := Nat.lt_log2_self
  have ha1q : (2 : ℚ) ^ q.num.natAbs.log2 ≤ (q.num.natAbs : ℚ) := by exact_mod_cast ha1
  have ha2q : (q.num.natAbs : ℚ) < 2 ^ (q.num.natAbs.log2 + 1) := by exact_mod_cast ha2
  have hb1q : (2 : ℚ) ^ q.den.log2 ≤ (q.den : ℚ) := by exact_mod_cast hb1
  have hb2q : (q.den : ℚ) < 2 ^ (q.den.log2 + 1) := by exact_mod_cast hb2
  have hbq : (0 : ℚ) < (q.den : ℚ) := by exact_mod_cast q.den_pos
  have hpa : (0 : ℚ) < 2 ^ q.num.natAbs.log2 := by positivity
  have hpb : (0 : ℚ) < 2 ^ q.den.log2 := by positivity
  have habs := abs_eq_natAbs_div q
  have e0 : (2 : ℚ) ^ ((q.num.natAbs.log2 : Int) - (q.den.log2 : Int))
      = 2 ^ q.num.natAbs.log2 / 2 ^ q.den.log2 := by
    rw [zpow_sub₀ (by norm_num), zpow_natCast, zpow_natCast]
  have e1 : (2 : ℚ) ^ ((q.num.natAbs.log2 : Int) - (q.den.log2 : Int) + 1)
      = 2 ^ (q.num.natAbs.log2 + 1) / 2 ^ q.den.log2 := by
    rw [zpow_add₀ (by norm_num), e0, zpow_one, pow_succ]
    ring
  have em : (2 : ℚ) ^ ((q.num.natAbs.log2 : Int) - (q.den.log2 : Int) - 1)
      = 2 ^ q.num.natAbs.log2 / 2 ^ (q.den.log2 + 1) := by
    rw [zpow_sub₀ (by norm_num), e0, zpow_one, pow_succ]
    field_simp
  unfold binade
  simp only
  split_ifs with h
  · refine ⟨h, ?_⟩
    rw [e1, habs, div_lt_div_iff₀ hbq hpb]
    calc (q.num.natAbs : ℚ) * 2 ^ q.den.log2
        < 2 ^ (q.num.natAbs.log2 + 1) * 2 ^ q.den.log2 := by
          exact mul_lt_mul_of_pos_right ha2q hpb
      _ ≤ 2 ^ (q.num.natAbs.log2 + 1) * (q.den : ℚ) := by
          exact mul_le_mul_of_nonneg_left hb1q (by positivity)
  · constructor
    · rw [em, habs, div_le_div_iff₀ (by positivity) hbq]
      calc (2 : ℚ) ^ q.num.natAbs.log2 * (q.den : ℚ)
          ≤ 2 ^ q.num.natAbs.log2 * 2 ^ (q.den.log2 + 1) := by
            exact mul_le_mul_of_nonneg_left (le_of_lt hb2q) (le_of_lt hpa)
        _ ≤ (q.num.natAbs : ℚ) * 2 ^ (q.den.log2 + 1) := by
            exact mul_le_mul_of_nonneg_right ha1q (by positivity)
    · have : (q.num.natAbs.log2 : Int) - (q.den.log2 : Int) - 1 + 1
          = (q.num.natAbs.log2 : Int) - (q.den.log2 : Int) := by ring
      rw [this]
      exact not_le.mp h

theorem binade_eq (q : ℚ) (e : Int) (h1 : (2 : ℚ) ^ e ≤ |q|) (h2 : |q| < 2 ^ (e + 1)) :
    binade q = e := by
  have hq : q ≠ 0 := by
    intro h0
    rw [h0, abs_zero] at h1
    have : (0 : ℚ) < 2 ^ e := by positivity
    linarith
  obtain ⟨s1, s2⟩ := binade_spec q hq
  have a1 : (2 : ℚ) ^ e < 2 ^ (binade q + 1) := lt_of_le_of_lt h1 s2
  have a2 : (2 : ℚ) ^ binade q < 2 ^ (e + 1) := lt_of_le_of_lt s1 h2
  have b1 := (zpow_lt_zpow_iff_right₀ (by norm_num : (1 : ℚ) < 2)).mp a1
  have b2 := (zpow_lt_zpow_iff_right₀ (by norm_num : (1 : ℚ) < 2)).mp a2
  omega

theorem round_double_of (q : ℚ) (e n : Int) (h1 : (2 : ℚ) ^ e ≤ |q|) (h2 : |q| < 2 ^ (e + 1))
    (h3 : |q / 2 ^ (e - 52) - (n : ℚ)| < 1 / 2) :
    round_double q = (n : ℚ) * 2 ^ (e - 52) := by
  have hq : q ≠ 0 := by
    intro h0
    rw [h0, abs_zero] at h1
    have : (0 : ℚ) < 2 ^ e := by positivity
    linarith
  unfold round_double
  rw [if_neg hq, binade_eq q e h1 h2, round_half_even_eq _ n h3]

theorem round_double_zero : round_double 0 = 0 := by
  unfold round_double
  rw [if_pos rfl]

theorem round_double_nonneg (q : ℚ) (h : 0 ≤ q) : 0 ≤ round_double q := by
  unfold round_double
  split_ifs with h0
  · exact le_refl 0
  · have hu : (0 : ℚ) < 2 ^ (binade q - 52) := by positivity
    have hx : 0 ≤ q / 2 ^ (binade q - 52) := div_nonneg h (le_of_lt hu)
    have hf : 0 ≤ ⌊q / 2 ^ (binade q - 52)⌋ := Int.floor_nonneg.mpr hx
    have hr := (round_half_even_bounds (q / 2 ^ (binade q - 52))).1
    have hn : (0 : ℚ) ≤ (round_half_even (q / 2 ^ (binade q - 52)) : ℚ) := by
      exact_mod_cast le_trans hf hr
    exact mul_nonneg hn (le_of_lt hu)

theorem round_double_le_one (q : ℚ) (h0 : 0 ≤ q) (h1 : q ≤ 1) : round_double q ≤ 1 := by
  by_cases hq : q = 0
  · rw [hq, round_double_zero]
    norm_num
  by_cases hq1 : q = 1
  · rw [hq1, round_double_of 1 0 4503599627370496 (by norm_num) (by norm_num) (by norm_num)]
    norm_num
  have hlt : q < 1 := lt_of_le_of_ne h1 hq1
  obtain ⟨s1, s2⟩ := binade_spec q hq
  rw [abs_of_nonneg h0] at s1 s2
  have he : binade q < 0 := by
    have a : (2 : ℚ) ^ binade q < 2 ^ (0 : Int) := by
      rw [zpow_zero]
      exact lt_of_le_of_lt s1 hlt
    exact (zpow_lt_zpow_iff_right₀ (by norm_num : (1 : ℚ) < 2)).mp a
  have hu : (0 : ℚ) < 2 ^ (binade q - 52) := by positivity
  have hx : q / 2 ^ (binade q - 52) < 2 ^ (53 : Int) := by
    rw [div_lt_iff₀ hu, ← zpow_add₀ (by norm_num)]
    have : (53 : Int) + (binade q - 52) = binade q + 1 := by ring
    rw [this]
    exact s2
  have hf : ⌊q / 2 ^ (binade q - 52)⌋ < 2 ^ 53 := by
    rw [Int.floor_lt]
    have : (((2 : Int) ^ 53 : Int) : ℚ) = (2 : ℚ) ^ (53 : Int) := by norm_num
    rw [this]
    exact hx
  have hr := (round_half_even_bounds (q / 2 ^ (binade q - 52))).2
  have hn : round_half_even (q / 2 ^ (binade q - 52)) ≤ 2 ^ 53 := by omega
  have hnq : (round_half_even (q / 2 ^ (binade q - 52)) : ℚ) ≤ 2 ^ (53 : Int) := by
    have : ((round_half_even (q / 2 ^ (binade q - 52)) : Int) : ℚ) ≤ (((2 : Int) ^ 53 : Int) : ℚ) := by
      exact_mod_cast hn
    have e : (((2 : Int) ^ 53 : Int) : ℚ) = (2 : ℚ) ^ (53 : Int) := by norm_num
    rw [e] at this
    exact this
  unfold round_double
  rw [if_neg hq]
  calc (round_half_even (q / 2 ^ (binade q - 52)) : ℚ) * 2 ^ (binade q - 52)
      ≤ 2 ^ (53 : Int) * 2 ^ (binade q - 52) := mul_le_mul_of_nonneg_right hnq (le_of_lt hu)
    _ = 2 ^ (binade q + 1) := by
        rw [← zpow_add₀ (by norm_num)]
        congr 1
        ring
    _ ≤ 2 ^ (0 : Int) := by
        apply zpow_le_zpow_right₀ (by norm_num)
        omega
    _ = 1 := zpow_zero 2

theorem interpolation_nonneg (RAND_MAX r : Nat) (min max : Int) (hr : r ≤ RAND_MAX)
    (hmin : 0 ≤ min) (hmax : 0 ≤ max) : 0 ≤ interpolation RAND_MAX r min max := by
  have hw0 : (0 : ℚ) ≤ (r : ℚ) / (RAND_MAX : ℚ) := by positivity
  have hw1 : (r : ℚ) / (RAND_MAX : ℚ) ≤ 1 := by
    apply div_le_one_of_le₀
    · exact_mod_cast hr
    · positivity
  have h1 := round_double_nonneg _ hw0
  have h2 := round_double_le_one _ hw0 hw1
  have h3 : 0 ≤ round_double (1 - round_double ((r : ℚ) / (RAND_MAX : ℚ))) :=
    round_double_nonneg _ (by linarith)
  have hminq : (0 : ℚ) ≤ (min : ℚ) := by exact_mod_cast hmin
  have hmaxq : (0 : ℚ) ≤ (max : ℚ) := by exact_mod_cast hmax
  unfold interpolation
  apply round_double_nonneg
  apply add_nonneg
  · exact round_double_nonneg _ (mul_nonneg hminq h3)
  · exact round_double_nonneg _ (mul_nonneg hmaxq h1)

/-- The computed interpolation for `min = -3`, `max = 0`, `rand() = 1` and
`RAND_MAX = 2147483647`. -/
theorem interpolation_at_m3 :
    interpolation 2147483647 1 (-3) 0 = -6442450941 / 2147483648 := by
  have hw : round_double (((1 : Nat) : ℚ) / ((2147483647 : Nat) : ℚ))
      = (4503599629467648 : Int) * 2 ^ ((-31 : Int) - 52) :=
    round_double_of _ (-31) 4503599629467648 (by norm_num [abs_of_pos]) (by norm_num [abs_of_pos])
      (by norm_num [abs_lt])
  have ha : round_double (1 - (4503599629467648 : Int) * 2 ^ ((-31 : Int) - 52))
      = (9007199250546688 : Int) * 2 ^ ((-1 : Int) - 52) :=
    round_double_of _ (-1) 9007199250546688 (by norm_num [abs_of_pos]) (by norm_num [abs_of_pos])
      (by norm_num [abs_lt])
  have hp : round_double (((-3 : Int) : ℚ) * ((9007199250546688 : Int) * 2 ^ ((-1 : Int) - 52)))
      = (-6755399437910016 : Int) * 2 ^ ((1 : Int) - 52) :=
    round_double_of _ 1 (-6755399437910016) (by norm_num [abs_of_neg]) (by norm_num [abs_of_neg])
      (by norm_num [abs_lt])
  have hz : round_double (((0 : Int) : ℚ) * ((4503599629467648 : Int) * 2 ^ ((-31 : Int) - 52)))
      = 0 := by
    rw [Int.cast_zero, zero_mul, round_double_zero]
  have hs : round_double ((-6755399437910016 : Int) * 2 ^ ((1 : Int) - 52) + 0)
      = (-6755399437910016 : Int) * 2 ^ ((1 : Int) - 52) :=
    round_double_of _ 1 (-6755399437910016) (by norm_num [abs_of_neg]) (by norm_num [abs_of_neg])
      (by norm_num [abs_lt])
  unfold interpolation
  simp only [hw, ha, hp, hz, hs]
  norm_num

/-- The computed interpolation over the full `int` range for `rand() = 1` and
`RAND_MAX = 2147483647`: the rounding of `1 - weight` and of the sum makes it
the integer `-2147483646`, where the interpolation in real numbers is
`-2147483646 + 1 / 2147483647`. -/
theorem interpolation_full_range :
    interpolation 2147483647 1 INT_MIN INT_MAX = -2147483646 := by
  have hw : round_double (((1 : Nat) : ℚ) / ((2147483647 : Nat) : ℚ))
      = (4503599629467648 : Int) * 2 ^ ((-31 : Int) - 52) :=
    round_double_of _ (-31) 4503599629467648 (by norm_num [abs_of_pos]) (by norm_num [abs_of_pos])
      (by norm_num [abs_lt])
  have ha : round_double (1 - (4503599629467648 : Int) * 2 ^ ((-31 : Int) - 52))
      = (9007199250546688 : Int) * 2 ^ ((-1 : Int) - 52) :=
    round_double_of _ (-1) 9007199250546688 (by norm_num [abs_of_pos]) (by norm_num [abs_of_pos])
      (by norm_num [abs_lt])
  have hp : round_double (((-2147483648 : Int) : ℚ)
        * ((9007199250546688 : Int) * 2 ^ ((-1 : Int) - 52)))
      = (-9007199250546688 : Int) * 2 ^ ((30 : Int) - 52) :=
    round_double_of _ 30 (-9007199250546688) (by norm_num [abs_of_neg]) (by norm_num [abs_of_neg])
      (by norm_num [abs_lt])
  have hm : round_double (((2147483647 : Int) : ℚ)
        * ((4503599629467648 : Int) * 2 ^ ((-31 : Int) - 52)))
      = (9007199254740992 : Int) * 2 ^ ((-1 : Int) - 52) :=
    round_double_of _ (-1) 9007199254740992 (by norm_num [abs_of_pos]) (by norm_num [abs_of_pos])
      (by norm_num [abs_lt])
  have hs : round_double ((-9007199250546688 : Int) * 2 ^ ((30 : Int) - 52)
        + (9007199254740992 : Int) * 2 ^ ((-1 : Int) - 52))
      = (-9007199246352384 : Int) * 2 ^ ((30 : Int) - 52) :=
    round_double_of _ 30 (-9007199246352384) (by norm_num [abs_of_neg]) (by norm_num [abs_of_neg])
      (by norm_num [abs_lt])
  unfold interpolation
  simp only [INT_MIN, INT_MAX, hw, ha, hp, hm, hs]
  norm_num

/-- The computed interpolation over the full `int` range for `rand() = 2`. -/
theorem interpolation_full_range_two :
    interpolation 2147483647 2 INT_MIN INT_MAX = -2147483644 := by
  have hw : round_double (((2 : Nat) : ℚ) / ((2147483647 : Nat) : ℚ))
      = (4503599629467648 : Int) * 2 ^ ((-30 : Int) - 52) :=
    round_double_of _ (-30) 4503599629467648 (by norm_num [abs_of_pos]) (by norm_num [abs_of_pos])
      (by norm_num [abs_lt])
  have ha : round_double (1 - (4503599629467648 : Int) * 2 ^ ((-30 : Int) - 52))
      = (9007199246352384 : Int) * 2 ^ ((-1 : Int) - 52) :=
    round_double_of _ (-1) 9007199246352384 (by norm_num [abs_of_pos]) (by norm_num [abs_of_pos])
      (by norm_num [abs_lt])
  have hp : round_double (((-2147483648 : Int) : ℚ)
        * ((9007199246352384 : Int) * 2 ^ ((-1 : Int) - 52)))
      = (-9007199246352384 : Int) * 2 ^ ((30 : Int) - 52) :=
    round_double_of _ 30 (-9007199246352384) (by norm_num [abs_of_neg]) (by norm_num [abs_of_neg])
      (by norm_num [abs_lt])
  have hm : round_double (((2147483647 : Int) : ℚ)
        * ((4503599629467648 : Int) * 2 ^ ((-30 : Int) - 52)))
      = (9007199254740992 : Int) * 2 ^ ((0 : Int) - 52) :=
    round_double_of _ 0 9007199254740992 (by norm_num [abs_of_pos]) (by norm_num [abs_of_pos])
      (by norm_num [abs_lt])
  have hs : round_double ((-9007199246352384 : Int) * 2 ^ ((30 : Int) - 52)
        + (9007199254740992 : Int) * 2 ^ ((0 : Int) - 52))
      = (-9007199237963776 : Int) * 2 ^ ((30 : Int) - 52) :=
    round_double_of _ 30 (-9007199237963776) (by norm_num [abs_of_neg]) (by norm_num [abs_of_neg])
      (by norm_num [abs_lt])
  unfold interpolation
  simp only [INT_MIN, INT_MAX, hw, ha, hp, hm, hs]
  norm_num

/-- The value `random_val` returns is the conversion to `int` of the computed
interpolation. -/
theorem random_val_eq (RAND_MAX r : Nat) (min max : Int) :
    random_val RAND_MAX r min max = truncToInt (interpolation RAND_MAX r min max) := rfl

/-- Over the full `int` range `random_val` returns `-2147483646` for
`rand() = 1` and `-2147483644` for `rand() = 2`. -/
theorem random_val_full_range :
    random_val 2147483647 1 INT_MIN INT_MAX = -2147483646
    ∧ random_val 2147483647 2 INT_MIN INT_MAX = -2147483644 := by
  have e1 : truncToInt (-2147483646 : ℚ) = -2147483646 := by
    rw [truncToInt_eq, if_neg (by norm_num), Int.ceil_eq_iff]
    norm_num
  have e2 : truncToInt (-2147483644 : ℚ) = -2147483644 := by
    rw [truncToInt_eq, if_neg (by norm_num), Int.ceil_eq_iff]
    norm_num
  rw [random_val_eq, random_val_eq, interpolation_full_range, interpolation_full_range_two]
  exact ⟨e1, e2⟩

/-- A ceiling equals the floor only at an integer. -/
theorem ceil_eq_floor_iff (v : ℚ) : ⌈v⌉ = ⌊v⌋ ↔ ((⌊v⌋ : Int) : ℚ) = v := by
  constructor
  · intro h
    have h1 : ((⌊v⌋ : Int) : ℚ) ≤ v := Int.floor_le v
    have h2 : v ≤ ((⌈v⌉ : Int) : ℚ) := Int.le_ceil v
    rw [h] at h2
    exact le_antisymm h1 h2
  · intro h
    rw [← h, Int.ceil_intCast, Int.floor_intCast]

/-! ## Descriptors that differ in signedness only -/

theorem is_float_of_variant (a b : argType) (h : sign_variant a b) :
    is_float_of a = is_float_of b := by
  rcases h with rfl | ⟨rfl, rfl⟩ | ⟨rfl, rfl⟩ <;> rfl

theorem ret_ctype_variant (a b : returnType) (h : ret_variant a b) :
    ret_ctype a = none ↔ ret_ctype b = none := by
  rcases h with rfl | ⟨rfl, rfl⟩ | ⟨rfl, rfl⟩ <;> simp [ret_ctype]

/-- The sampling loop reads a descriptor only through `is_float_input` and
the bounds of its slots. -/
theorem sample_args_spec_congr (fuel RAND_MAX : Nat) (rand : Nat → Nat)
    (spec spec1 : puzzle_spec_t) (args : Arr3 (Option Nat)) (test_range : Int)
    (hk : ∀ i, is_float_of (spec.arg_types.get i) = is_float_of (spec1.arg_types.get i))
    (hmin : spec.arg_min = spec1.arg_min) (hmax : spec.arg_max = spec1.arg_max) (n : Nat) :
    ∀ (i k : Nat) (sets : List (List Int)),
      sample_args fuel RAND_MAX rand spec args test_range n i k sets =
        sample_args fuel RAND_MAX rand spec1 args test_range n i k sets := by
  induction n with
  | zero => intro i k sets; rfl
  | succ n ih =>
    intro i k sets
    simp only [sample_args, hk i, hmin, hmax, ih]

/-- The comparison depends on a descriptor only through its two functions. -/
theorem compare_body_congr (spec spec1 : puzzle_spec_t)
    (htest : spec.test_func = spec1.test_func) (himpl : spec.impl_func = spec1.impl_func) :
    (fun t => ([patterns t], if agree spec t then none else some (report_at spec t)))
      = (fun t => ([patterns t], if agree spec1 t then none else some (report_at spec1 t))) := by
  funext t
  have hr : report_at spec t = report_at spec1 t := by simp only [report_at, htest, himpl]
  have ha : agree spec t ↔ agree spec1 t := by simp only [agree, htest, himpl]
  by_cases h : agree spec t
  · have h1 := ha.mp h
    simp only [h, h1, if_true]
  · have h1 : ¬ agree spec1 t := fun h2 => h (ha.mpr h2)
    simp only [h, h1, if_false, hr]

/-! ## The registry entry `rotateLeft` -/

/-- The only registry entry named `rotateLeft`. -/
theorem registry_rotateLeft (test impl : String → List Nat → Nat) (s : puzzle_spec_t)
    (hs : s ∈ puzzle_specs test impl) (hname : s.name = "rotateLeft") :
    s = { name := "rotateLeft", return_type := .INT_RET, num_args := 2,
          arg_types := ⟨.INT_ARG, .INT_ARG, .UNUSED_ARG⟩,
          arg_min := ⟨INT_MIN, 0, 0⟩, arg_max := ⟨INT_MAX, 31, 0⟩,
          test_func := test "rotateLeft", impl_func := impl "rotateLeft" } := by
  simp only [puzzle_specs, List.mem_cons, List.mem_singleton, List.not_mem_nil, or_false] at hs
  rcases hs with h | h | h | h | h | h | h | h | h | h | h | h <;> subst h <;>
    first
      | rfl
      | exact absurd hname (by simp)

/-- A mapped range split at the index `n`. -/
theorem map_range_split {α : Type} (f : Nat → α) (m n : Nat) (h : n < m) :
    (List.range m).map f
      = (List.range n).map f ++ f n :: (List.range (m - n - 1)).map (fun j => f (n + 1 + j)) := by
  obtain ⟨p, rfl⟩ : ∃ p, m = n + (p + 1) := ⟨m - n - 1, by omega⟩
  rw [List.range_add, List.map_append, List.range_succ_eq_map]
  have : n + (p + 1) - n - 1 = p := by omega
  rw [this]
  simp only [List.map_cons, List.map_map, Nat.add_zero]
  congr 2
  apply List.map_congr_left
  intro j _
  simp only [Function.comp, Nat.succ_eq_add_one]
  congr 1
  omega

/-- With its first argument pinned to `v`, the sample sets of `rotateLeft` are
`[v]` and `0, 1, .., 31`. -/
theorem rotateLeft_sets (test impl : String → List Nat → Nat) (fuel RAND_MAX : Nat)
    (rand : Nat → Nat) (k : Nat) (s : puzzle_spec_t) (hs : s ∈ puzzle_specs test impl)
    (hname : s.name = "rotateLeft") (v : Nat) (tr : Int) (hfuel : 32 < fuel) :
    sample_args fuel RAND_MAX rand s ⟨some v, none, none⟩ tr s.num_args 0 k []
      = .done ([[toInt32 v], (List.range 32).map (fun (j : Nat) => (j : Int))], k) := by
  rw [registry_rotateLeft test impl s hs hname]
  have hg := gen_vals_exhaustive fuel RAND_MAX rand k 0 31 tr 32 (by norm_num) (by norm_num)
    (by norm_num) (by norm_num) (by norm_num) hfuel
  have hmap : (List.range 32).map (fun (j : Nat) => (0 : Int) + (j : Int))
      = (List.range 32).map (fun (j : Nat) => (j : Int)) := by
    apply List.map_congr_left
    intro j _
    simp
  rw [hmap] at hg
  have hM : MAX_TEST_VALS = 6500000 := rfl
  simp [sample_args, is_float_of, Arr3.get, hg, hM]

/-! ## Single-precision bit patterns -/

/-- A 32-bit pattern is determined by its three fields. -/
theorem pattern_fields (w : Nat) (h : w < 4294967296) :
    w = (w >>> 31) % 2 * 2147483648 + biased_exponent w * 8388608 + mantissa w := by
  simp only [biased_exponent, mantissa, Nat.shiftRight_eq_div_pow]
  norm_num
  omega

theorem pattern_ext (a b : Nat) (ha : a < 4294967296) (hb : b < 4294967296)
    (hs : sign_bit a = sign_bit b) (he : biased_exponent a = biased_exponent b)
    (hm : mantissa a = mantissa b) : a = b := by
  have hs1 : (a >>> 31) % 2 = (b >>> 31) % 2 := by
    simp only [sign_bit, decide_eq_decide] at hs
    have h1 := Nat.mod_two_eq_zero_or_one (a >>> 31)
    have h2 := Nat.mod_two_eq_zero_or_one (b >>> 31)
    omega
  rw [pattern_fields a ha, pattern_fields b hb, hs1, he, hm]

theorem mantissa_lt (w : Nat) : mantissa w < 8388608 := Nat.mod_lt _ (by norm_num)

theorem magnitude_lt (w : Nat) : magnitude w < 2 ^ biased_exponent w * 8388608 := by
  have hm := mantissa_lt w
  unfold magnitude
  split
  · next h => rw [h]; omega
  · next h =>
    obtain ⟨e, he⟩ : ∃ e, biased_exponent w = e + 1 := ⟨biased_exponent w - 1, by omega⟩
    rw [he, Nat.add_sub_cancel, pow_succ]
    have hp : 0 < 2 ^ e := Nat.pow_pos (by norm_num)
    nlinarith

theorem magnitude_ge (w : Nat) (h : biased_exponent w ≠ 0) :
    2 ^ (biased_exponent w - 1) * 8388608 ≤ magnitude w := by
  unfold magnitude
  rw [if_neg h]
  exact Nat.mul_le_mul_left _ (by omega)

/-- Two finite patterns of the same magnitude have the same exponent and
mantissa fields. -/
theorem magnitude_inj (a b : Nat) (h : magnitude a = magnitude b) :
    biased_exponent a = biased_exponent b ∧ mantissa a = mantissa b := by
  have key : ∀ x y : Nat, magnitude x = magnitude y → ¬ biased_exponent x < biased_exponent y := by
    intro x y hxy hlt
    have h1 := magnitude_lt x
    have h2 := magnitude_ge y (by omega)
    have h3 : 2 ^ biased_exponent x ≤ 2 ^ (biased_exponent y - 1) :=
      Nat.pow_le_pow_right (by norm_num) (by omega)
    have h4 := Nat.mul_le_mul_right 8388608 h3
    omega
  have he : biased_exponent a = biased_exponent b := by
    have h1 := key a b h
    have h2 := key b a h.symm
    omega
  refine ⟨he, ?_⟩
  unfold magnitude at h
  rw [he] at h
  by_cases h0 : biased_exponent b = 0
  · simpa [h0] using h
  · rw [if_neg h0, if_neg h0] at h
    have := Nat.eq_of_mul_eq_mul_left (Nat.pow_pos (by norm_num)) h
    omega

theorem magnitude_eq_zero (w : Nat) (h : magnitude w = 0) :
    biased_exponent w = 0 ∧ mantissa w = 0 := by
  unfold magnitude at h
  by_cases h0 : biased_exponent w = 0
  · rw [if_pos h0] at h; exact ⟨h0, h⟩
  · rw [if_neg h0] at h
    have hp : 0 < 2 ^ (biased_exponent w - 1) := Nat.pow_pos (by norm_num)
    have := Nat.mul_eq_zero.mp h
    omega

/-- The only patterns of magnitude zero are `+0` and `-0`. -/
theorem zero_patterns (w : Nat) (hw : w < 4294967296) (h : magnitude w = 0) :
    w = 0 ∨ w = 2147483648 := by
  have ⟨he, hm⟩ := magnitude_eq_zero w h
  have hf := pattern_fields w hw
  rw [he, hm] at hf
  have h2 := Nat.mod_two_eq_zero_or_one (w >>> 31)
  omega

/-- The comparison of two finite patterns other than the pair of zeros. -/
theorem finite_eq_iff (a b : Nat) (ha : a < 4294967296) (hb : b < 4294967296)
    (hz : ¬ (a = 0 ∧ b = 2147483648)) (hz1 : ¬ (a = 2147483648 ∧ b = 0)) :
    (if sign_bit a then -(magnitude a : Int) else (magnitude a : Int))
        = (if sign_bit b then -(magnitude b : Int) else (magnitude b : Int))
      ↔ a = b := by
  constructor
  · intro h
    have hmag : magnitude a = magnitude b := by
      cases hsa : sign_bit a <;> cases hsb : sign_bit b <;> simp only [hsa, hsb] at h <;>
        simp at h <;> omega
    have ⟨he, hm⟩ := magnitude_inj a b hmag
    by_cases h0 : magnitude a = 0
    · have h0b : magnitude b = 0 := by rw [← hmag]; exact h0
      rcases zero_patterns a ha h0 with h1 | h1 <;> rcases zero_patterns b hb h0b with h2 | h2
      · rw [h1, h2]
      · exact absurd ⟨h1, h2⟩ hz
      · exact absurd ⟨h1, h2⟩ hz1
      · rw [h1, h2]
    · have hs : sign_bit a = sign_bit b := by
        cases hsa : sign_bit a <;> cases hsb : sign_bit b <;> simp only [hsa, hsb] at h <;>
          first
            | rfl
            | (exfalso; simp at h; omega)
      exact pattern_ext a b ha hb hs he hm
  · intro h
    rw [h]

theorem float_eq_nan_right (x : Float32) : float_eq x .nan = false := by
  cases x <;> rfl

/-! ## The sample counts of the registry -/

/-- A float-bits slot with a budget `tr` of at most `2^23` stores
`12 * tr + 4` values. -/
theorem slot_count_float (fuel RAND_MAX : Nat) (rand : Nat → Nat) (k : Nat) (min max : Int)
    (tr : Nat) (htr : tr ≤ 8388608) :
    ∃ (vals : List Int) (k1 : Nat),
      gen_vals fuel RAND_MAX rand k min max true (tr : Int) = .done (vals, k1)
      ∧ vals.length = 12 * tr + 4 := by
  refine ⟨_, _, gen_vals_float fuel RAND_MAX rand k min max tr, ?_⟩
  have hb : float_budget ((tr : Int)).toNat = tr := by
    unfold float_budget
    simp only [Int.toNat_ofNat]
    omega
  simp only [List.length_map, List.length_append, float_patterns_length_sum, hb]
  rfl

/-- A full-range `int` slot with the budget `tr` stores `5 * tr` values. -/
theorem slot_count_full (fuel RAND_MAX : Nat) (rand : Nat → Nat) (k : Nat) (tr : Nat)
    (htr : tr ≤ 2147483647) :
    ∃ (vals : List Int) (k1 : Nat),
      gen_vals fuel RAND_MAX rand k INT_MIN INT_MAX false (tr : Int) = .done (vals, k1)
      ∧ vals.length = 5 * tr := by
  refine ⟨_, _, gen_vals_sample fuel RAND_MAX rand k INT_MIN INT_MAX tr (by decide), ?_⟩
  have hlen := flatMap_length_eq
    (fun (j : Nat) => sample_iter RAND_MAX (rand (k + j)) INT_MIN INT_MAX (j : Int)) 5
    (List.range ((tr : Int)).toNat) (fun j hj => by
      have hj1 : j < tr := by simpa using hj
      beta_reduce
      rw [sample_iter_eq, List.length_append,
        sample_fixed_length_full (j : Int) (by omega) (by omega)]
      rfl)
  rw [hlen, List.length_range, Int.toNat_ofNat]

/-- An enumerated slot `[0, max]` with `max <= 255` stores `max + 1` values. -/
theorem slot_count_small (fuel RAND_MAX : Nat) (rand : Nat → Nat) (k : Nat) (max tr : Int)
    (n : Nat) (h0 : 0 ≤ max) (h255 : max ≤ 255) (hn : max + 1 = (n : Int)) (hfuel : 256 < fuel) :
    ∃ (vals : List Int) (k1 : Nat),
      gen_vals fuel RAND_MAX rand k 0 max false tr = .done (vals, k1)
      ∧ vals.length = n := by
  refine ⟨_, _, gen_vals_exhaustive fuel RAND_MAX rand k 0 max tr n (by omega) (by omega)
    (by omega) (by omega) (by omega) (by omega), ?_⟩
  simp only [List.length_map, List.length_range]

/-- Every slot below the arity of a registry entry has a recognised kind,
and `gen_vals`, called with the entry's budget, returns the stated number of
values for it, whatever the state of `rand()`. -/
theorem registry_slot_count (test impl : String → List Nat → Nat) (fuel RAND_MAX : Nat)
    (rand : Nat → Nat) (hfuel : 256 < fuel) :
    ∀ s ∈ puzzle_specs test impl, ∃ (tr : Nat) (rt : CType),
      test_range_of s.num_args = some tr ∧ ret_ctype s.return_type = some rt
      ∧ (tr = 500000 ∨ tr = 707 ∨ tr = 79)
      ∧ ∀ i < s.num_args, ∃ f, is_float_of (s.arg_types.get i) = some f
        ∧ ∀ k, ∃ (vals : List Int) (k1 : Nat),
          gen_vals fuel RAND_MAX rand k (s.arg_min.get i) (s.arg_max.get i) f (tr : Int)
            = .done (vals, k1)
          ∧ vals.length = claimed_count s.name i := by
  have h1 : test_range_of 1 = some 500000 := rfl
  have h2 : test_range_of 2 = some 707 := by simp only [test_range_of, sqrt_budget]
  have h3 : test_range_of 3 = some 79 := by simp only [test_range_of, cbrt_budget]
  have full := fun (tr : Nat) (htr : tr ≤ 2147483647) (k : Nat) =>
    slot_count_full fuel RAND_MAX rand k tr htr
  have flt := fun (max : Int) (tr : Nat) (htr : tr ≤ 8388608) (k : Nat) =>
    slot_count_float fuel RAND_MAX rand k 0 max tr htr
  have small := fun (max tr : Int) (n : Nat) (h0 : 0 ≤ max) (h255 : max ≤ 255)
      (hn : max + 1 = (n : Int)) (k : Nat) =>
    slot_count_small fuel RAND_MAX rand k max tr n h0 h255 hn hfuel
  intro s hs
  simp only [puzzle_specs, List.mem_cons, List.mem_singleton, List.not_mem_nil, or_false] at hs
  rcases hs with rfl | rfl | rfl | rfl | rfl | rfl | rfl | rfl | rfl | rfl | rfl | rfl
  · refine ⟨707, .int, h2, rfl, by omega, ?_⟩
    intro i hi
    have hi2 : i = 0 ∨ i = 1 := by simp only at hi; omega
    rcases hi2 with rfl | rfl
    · exact ⟨false, rfl, fun k => by
      obtain ⟨vals, k1, hg, hl⟩ := full 707 (by omega) k
      exact ⟨vals, k1, hg, hl.trans (by simp [claimed_count])⟩⟩
    · exact ⟨false, rfl, fun k => by
      obtain ⟨vals, k1, hg, hl⟩ := full 707 (by omega) k
      exact ⟨vals, k1, hg, hl.trans (by simp [claimed_count])⟩⟩
  · refine ⟨707, .int, h2, rfl, by omega, ?_⟩
    intro i hi
    have hi2 : i = 0 ∨ i = 1 := by simp only at hi; omega
    rcases hi2 with rfl | rfl
    · exact ⟨false, rfl, fun k => by
      obtain ⟨vals, k1, hg, hl⟩ := full 707 (by omega) k
      exact ⟨vals, k1, hg, hl.trans (by simp [claimed_count])⟩⟩
    · exact ⟨false, rfl, fun k => by
      obtain ⟨vals, k1, hg, hl⟩ := full 707 (by omega) k
      exact ⟨vals, k1, hg, hl.trans (by simp [claimed_count])⟩⟩
  · refine ⟨500000, .int, h1, rfl, by omega, ?_⟩
    intro i hi
    have hi2 : i = 0 := by simp only at hi; omega
    subst hi2
    exact ⟨false, rfl, fun k => by
      obtain ⟨vals, k1, hg, hl⟩ := full 500000 (by omega) k
      exact ⟨vals, k1, hg, hl.trans (by simp [claimed_count])⟩⟩
  · refine ⟨707, .unsigned, h2, rfl, by omega, ?_⟩
    intro i hi
    have hi2 : i = 0 ∨ i = 1 := by simp only at hi; omega
    rcases hi2 with rfl | rfl
    · exact ⟨true, rfl, fun k => by
      obtain ⟨vals, k1, hg, hl⟩ := flt _ 707 (by omega) k
      exact ⟨vals, k1, hg, hl.trans (by simp [claimed_count])⟩⟩
    · exact ⟨true, rfl, fun k => by
      obtain ⟨vals, k1, hg, hl⟩ := flt _ 707 (by omega) k
      exact ⟨vals, k1, hg, hl.trans (by simp [claimed_count])⟩⟩
  · refine ⟨500000, .int, h1, rfl, by omega, ?_⟩
    intro i hi
    have hi2 : i = 0 := by simp only at hi; omega
    subst hi2
    exact ⟨false, rfl, fun k => by
      obtain ⟨vals, k1, hg, hl⟩ := full 500000 (by omega) k
      exact ⟨vals, k1, hg, hl.trans (by simp [claimed_count])⟩⟩
  · refine ⟨500000, .int, h1, rfl, by omega, ?_⟩
    intro i hi
    have hi2 : i = 0 := by simp only at hi; omega
    subst hi2
    exact ⟨false, rfl, fun k => by
      obtain ⟨vals, k1, hg, hl⟩ := full 500000 (by omega) k
      exact ⟨vals, k1, hg, hl.trans (by simp [claimed_count])⟩⟩
  · refine ⟨79, .int, h3, rfl, by omega, ?_⟩
    intro i hi
    have hi2 : i = 0 ∨ i = 1 ∨ i = 2 := by simp only at hi; omega
    rcases hi2 with rfl | rfl | rfl
    · exact ⟨false, rfl, fun k => by
      obtain ⟨vals, k1, hg, hl⟩ := full 79 (by omega) k
      exact ⟨vals, k1, hg, hl.trans (by simp [claimed_count])⟩⟩
    · exact ⟨false, rfl, fun k => by
      obtain ⟨vals, k1, hg, hl⟩ := small 3 79 4 (by omega) (by omega) (by omega) k
      exact ⟨vals, k1, hg, hl.trans (by simp [claimed_count])⟩⟩
    · exact ⟨false, rfl, fun k => by
      obtain ⟨vals, k1, hg, hl⟩ := small 255 79 256 (by omega) (by omega) (by omega) k
      exact ⟨vals, k1, hg, hl.trans (by simp [claimed_count])⟩⟩
  · refine ⟨707, .int, h2, rfl, by omega, ?_⟩
    intro i hi
    have hi2 : i = 0 ∨ i = 1 := by simp only at hi; omega
    rcases hi2 with rfl | rfl
    · exact ⟨false, rfl, fun k => by
      obtain ⟨vals, k1, hg, hl⟩ := full 707 (by omega) k
      exact ⟨vals, k1, hg, hl.trans (by simp [claimed_count])⟩⟩
    · exact ⟨false, rfl, fun k => by
      obtain ⟨vals, k1, hg, hl⟩ := full 707 (by omega) k
      exact ⟨vals, k1, hg, hl.trans (by simp [claimed_count])⟩⟩
  · refine ⟨707, .int, h2, rfl, by omega, ?_⟩
    intro i hi
    have hi2 : i = 0 ∨ i = 1 := by simp only at hi; omega
    rcases hi2 with rfl | rfl
    · exact ⟨false, rfl, fun k => by
      obtain ⟨vals, k1, hg, hl⟩ := full 707 (by omega) k
      exact ⟨vals, k1, hg, hl.trans (by simp [claimed_count])⟩⟩
    · exact ⟨false, rfl, fun k => by
      obtain ⟨vals, k1, hg, hl⟩ := small 31 707 32 (by omega) (by omega) (by omega) k
      exact ⟨vals, k1, hg, hl.trans (by simp [claimed_count])⟩⟩
  · refine ⟨707, .int, h2, rfl, by omega, ?_⟩
    intro i hi
    have hi2 : i = 0 ∨ i = 1 := by simp only at hi; omega
    rcases hi2 with rfl | rfl
    · exact ⟨false, rfl, fun k => by
      obtain ⟨vals, k1, hg, hl⟩ := small 31 707 32 (by omega) (by omega) (by omega) k
      exact ⟨vals, k1, hg, hl.trans (by simp [claimed_count])⟩⟩
    · exact ⟨false, rfl, fun k => by
      obtain ⟨vals, k1, hg, hl⟩ := small 31 707 32 (by omega) (by omega) (by omega) k
      exact ⟨vals, k1, hg, hl.trans (by simp [claimed_count])⟩⟩
  · refine ⟨500000, .unsigned, h1, rfl, by omega, ?_⟩
    intro i hi
    have hi2 : i = 0 := by simp only at hi; omega
    subst hi2
    exact ⟨true, rfl, fun k => by
      obtain ⟨vals, k1, hg, hl⟩ := flt _ 500000 (by omega) k
      exact ⟨vals, k1, hg, hl.trans (by simp [claimed_count])⟩⟩
  · refine ⟨500000, .int, h1, rfl, by omega, ?_⟩
    intro i hi
    have hi2 : i = 0 := by simp only at hi; omega
    subst hi2
    exact ⟨false, rfl, fun k => by
      obtain ⟨vals, k1, hg, hl⟩ := full 500000 (by omega) k
      exact ⟨vals, k1, hg, hl.trans (by simp [claimed_count])⟩⟩

theorem claimed_count_le (name : String) (i : Nat) : claimed_count name i ≤ 6000004 := by
  unfold claimed_count
  split_ifs <;> first
    | omega
    | (split <;> omega)

/-! ## An empty range -/

/-- With `min > max` and no overflow in `max - MAX_TEST_VALS`, `gen_vals`
takes the exhaustive branch and its loop body is never entered. -/
theorem gen_vals_empty (fuel RAND_MAX : Nat) (rand : Nat → Nat) (k : Nat) (min max b : Int)
    (hfuel : 0 < fuel) (hempty : max < min) (hlow : -2147483648 + 6500000 ≤ max)
    (hmax : max ≤ 2147483647) :
    gen_vals fuel RAND_MAX rand k min max false b = .done ([], k) := by
  have hw : toInt32 (max - MAX_TEST_VALS) = max - 6500000 := by
    rw [show MAX_TEST_VALS = 6500000 from rfl]
    exact toInt32_of_range _ (by omega) (by omega)
  have hc : toInt32 (max - MAX_TEST_VALS) ≤ min := by rw [hw]; omega
  obtain ⟨f, rfl⟩ : ∃ f, fuel = f + 1 := ⟨fuel - 1, by omega⟩
  have hnot : ¬ min ≤ max := by omega
  simp [gen_vals, hc, exhaust_loop, hnot]

/-- The cross product is empty as soon as one sample set is. -/
theorem cross_empty (sets : List (List Int)) (h : [] ∈ sets) : cross sets = [] := by
  induction sets with
  | nil => simp at h
  | cons s rest ih =>
    rcases List.mem_cons.mp h with h1 | h1
    · rw [← h1]
      rfl
    · simp [cross, ih h1]

/-! ## The oracle `test_rotateLeft` -/

theorem testBit_high (u i : Nat) (hu : u < 4294967296) (hi : 32 ≤ i) : u.testBit i = false := by
  apply Nat.testBit_lt_two_pow
  have h : (2 : Nat) ^ 32 ≤ 2 ^ i := Nat.pow_le_pow_right (by norm_num) hi
  have h32 : (2 : Nat) ^ 32 = 4294967296 := by norm_num
  omega

theorem rotate_step_lt (u : Nat) (hu : u < 4294967296) : rotate_step u < 4294967296 := by
  have h32 : (4294967296 : Nat) = 2 ^ 32 := by norm_num
  unfold rotate_step
  rw [h32]
  apply Nat.or_lt_two_pow
  · exact Nat.mod_lt _ (by norm_num)
  · rw [Nat.shiftRight_eq_div_pow]
    have : u / 2 ^ 31 < 2 := by
      rw [Nat.div_lt_iff_lt_mul (by norm_num)]
      omega
    omega

/-- One step of the loop moves bit 31 to bit 0 and every other bit one
position up. -/
theorem rotate_step_testBit (u : Nat) (hu : u < 4294967296) (j : Nat) :
    (rotate_step u).testBit j
      = if j = 0 then u.testBit 31 else (decide (j < 32) && u.testBit (j - 1)) := by
  have h32 : (4294967296 : Nat) = 2 ^ 32 := by norm_num
  unfold rotate_step
  rw [h32, Nat.testBit_or, Nat.testBit_mod_two_pow, Nat.testBit_shiftLeft,
    Nat.testBit_shiftRight]
  by_cases hj : j = 0
  · subst hj
    simp
  · have hhi : u.testBit (31 + j) = false := testBit_high u _ hu (by omega)
    have hge : j ≥ 1 := by omega
    simp [hj, hhi, hge]

theorem rotate_iter_lt (n u : Nat) (hu : u < 4294967296) : rotate_step^[n] u < 4294967296 := by
  induction n with
  | zero => exact hu
  | succ n ih =>
    rw [Function.iterate_succ_apply']
    exact rotate_step_lt _ ih

/-- After `n` steps bit `j` has moved to bit `(j + n) mod 32`. -/
theorem rotate_iter_testBit (n u : Nat) (hu : u < 4294967296) (j : Nat) (hj : j < 32) :
    (rotate_step^[n] u).testBit ((j + n) % 32) = u.testBit j := by
  induction n with
  | zero =>
    rw [Nat.add_zero, Nat.mod_eq_of_lt hj]
    rfl
  | succ n ih =>
    rw [Function.iterate_succ_apply', rotate_step_testBit _ (rotate_iter_lt n u hu)]
    have hm : (j + n) % 32 < 32 := Nat.mod_lt _ (by norm_num)
    by_cases h31 : (j + n) % 32 = 31
    · have h0 : (j + (n + 1)) % 32 = 0 := by omega
      rw [h0, if_pos rfl, ← h31, ih]
    · have h1 : (j + (n + 1)) % 32 = (j + n) % 32 + 1 := by omega
      rw [h1, if_neg (by omega)]
      have hlt : (j + n) % 32 + 1 < 32 := by omega
      simp only [hlt, decide_True, Bool.true_and, Nat.add_sub_cancel]
      exact ih

/-- The loop of `test_rotateLeft` computes the rotation formula. -/
theorem rotate_iter_eq (n u : Nat) (hu : u < 4294967296) (hn : n ≤ 31) :
    rotate_step^[n] u = ((u <<< n) ||| (u >>> (32 - n))) % 4294967296 := by
  have h32 : (4294967296 : Nat) = 2 ^ 32 := by norm_num
  apply Nat.eq_of_testBit_eq
  intro i
  by_cases hi : i < 32
  · have hrot := rotate_iter_testBit n u hu ((i + 32 - n) % 32) (Nat.mod_lt _ (by norm_num))
    have hidx : ((i + 32 - n) % 32 + n) % 32 = i := by omega
    rw [hidx] at hrot
    rw [hrot, h32, Nat.testBit_mod_two_pow, Nat.testBit_or, Nat.testBit_shiftLeft,
      Nat.testBit_shiftRight]
    by_cases hge : i ≥ n
    · have hj : (i + 32 - n) % 32 = i - n := by omega
      have hhi : u.testBit (32 - n + i) = false := testBit_high u _ hu (by omega)
      simp [hi, hge, hj, hhi]
    · have hj : (i + 32 - n) % 32 = 32 - n + i := by omega
      simp [hi, hge, hj]
  · have h1 := testBit_high _ i (rotate_iter_lt n u hu) (by omega)
    rw [h1, h32, Nat.testBit_mod_two_pow]
    simp [hi]

/-! ## The oracle `test_replaceByte` -/

theorem testBit_mod32 (a i : Nat) :
    (a % 4294967296).testBit i = (decide (i < 32) && a.testBit i) := by
  have h32 : (4294967296 : Nat) = 2 ^ 32 := by norm_num
  rw [h32, Nat.testBit_mod_two_pow]

theorem byte_testBit (w k i : Nat) :
    (byte_of w k).testBit i = (decide (i < 8) && w.testBit (8 * k + i)) := by
  have h8 : (256 : Nat) = 2 ^ 8 := by norm_num
  unfold byte_of
  rw [h8, Nat.testBit_mod_two_pow, Nat.testBit_shiftRight]

theorem mask0_testBit (t : Nat) :
    (0xFFFFFF00 : Nat).testBit t = (decide (8 ≤ t) && decide (t < 32)) := by
  by_cases h : t < 32
  · interval_cases t <;> decide
  · rw [testBit_high _ t (by norm_num) (by omega)]
    simp [h]

theorem mask1_testBit (t : Nat) :
    (0xFFFF00FF : Nat).testBit t
      = (decide (t < 8) || (decide (16 ≤ t) && decide (t < 32))) := by
  by_cases h : t < 32
  · interval_cases t <;> decide
  · rw [testBit_high _ t (by norm_num) (by omega)]
    have h8 : ¬ t < 8 := by omega
    simp [h, h8]

theorem mask2_testBit (t : Nat) :
    (0xFF00FFFF : Nat).testBit t
      = (decide (t < 16) || (decide (24 ≤ t) && decide (t < 32))) := by
  by_cases h : t < 32
  · interval_cases t <;> decide
  · rw [testBit_high _ t (by norm_num) (by omega)]
    have h8 : ¬ t < 16 := by omega
    simp [h, h8]

theorem mask3_testBit (t : Nat) : (0x00FFFFFF : Nat).testBit t = decide (t < 24) := by
  by_cases h : t < 32
  · interval_cases t <;> decide
  · rw [testBit_high _ t (by norm_num) (by omega)]
    have h8 : ¬ t < 24 := by omega
    simp [h8]

theorem testBit_byte_high (c i : Nat) (hc : c < 256) (hi : 8 ≤ i) : c.testBit i = false := by
  apply Nat.testBit_lt_two_pow
  have h : (2 : Nat) ^ 8 ≤ 2 ^ i := Nat.pow_le_pow_right (by norm_num) hi
  have h8 : (2 : Nat) ^ 8 = 256 := by norm_num
  omega

theorem replaceByte_eval (x n c : Nat) (hn : n ≤ 3) :
    test_replaceByte [x, n, c] =
      if n = 0 then (x &&& 0xFFFFFF00) ||| c
      else if n = 1 then (x &&& 0xFFFF00FF) ||| ((c <<< 8) % 4294967296)
      else if n = 2 then (x &&& 0xFF00FFFF) ||| ((c <<< 16) % 4294967296)
      else (x &&& 0x00FFFFFF) ||| ((c <<< 24) % 4294967296) := by
  have hnn : toInt32 ((n : Nat) : Int) = (n : Int) := toInt32_of_range _ (by omega) (by omega)
  simp only [test_replaceByte, List.getD_cons_zero, List.getD_cons_succ, hnn]
  have e0 : ((n : Int) = 0) ↔ n = 0 := by omega
  have e1 : ((n : Int) = 1) ↔ n = 1 := by omega
  have e2 : ((n : Int) = 2) ↔ n = 2 := by omega
  simp only [e0, e1, e2]

theorem replaceByte_byte (x n c k : Nat) (hc : c < 256) (hn : n ≤ 3)
    (hk : k < 4) :
    byte_of (test_replaceByte [x, n, c]) k = if k = n then c else byte_of x k := by
  rw [replaceByte_eval x n c hn]
  apply Nat.eq_of_testBit_eq
  intro i
  rw [byte_testBit]
  have hch : ∀ t, 8 ≤ t → c.testBit t = false := fun t ht => testBit_byte_high c t hc ht
  by_cases hi : i < 8
  · interval_cases n <;> interval_cases k <;> interval_cases i <;>
      simp [-Nat.testBit_zero, byte_testBit, Nat.testBit_or, Nat.testBit_and, testBit_mod32,
        Nat.testBit_shiftLeft, mask0_testBit, mask1_testBit, mask2_testBit, mask3_testBit, hch]
  · have hci : c.testBit i = false := hch i (by omega)
    interval_cases n <;> interval_cases k <;>
      simp [-Nat.testBit_zero, byte_testBit, hi, hci]

theorem replaceByte_lt (x n c : Nat) (hc : c < 256) (hn : n ≤ 3) :
    test_replaceByte [x, n, c] < 4294967296 := by
  have h32 : (4294967296 : Nat) = 2 ^ 32 := by norm_num
  have hm : ∀ a : Nat, a % 4294967296 < 2 ^ 32 := fun a => by
    rw [← h32]
    exact Nat.mod_lt _ (by norm_num)
  rw [replaceByte_eval x n c hn, h32]
  split_ifs
  · exact Nat.or_lt_two_pow (Nat.and_lt_two_pow x (by norm_num)) (by omega)
  · exact Nat.or_lt_two_pow (Nat.and_lt_two_pow x (by norm_num)) (hm _)
  · exact Nat.or_lt_two_pow (Nat.and_lt_two_pow x (by norm_num)) (hm _)
  · exact Nat.or_lt_two_pow (Nat.and_lt_two_pow x (by norm_num)) (hm _)

/-! ## The oracle `test_bitMask` -/

theorem shl_one_eq (i : Nat) (hi : i ≤ 31) : shl_one (i : Int) = 2 ^ i := by
  unfold shl_one
  rw [toUInt32_of_nat]
  have : i % 4294967296 % 32 = i := by omega
  rw [this, Nat.one_shiftLeft]

/-- The loop of `test_bitMask` from `i` up to `highbit <= 31` sets the bits
`i .. highbit` of `result`. -/
theorem bitMask_loop_spec (h : Nat) (hh : h ≤ 31) :
    ∀ (n fuel i r : Nat), i + n = h + 1 → n < fuel →
      ∃ r1, bitMask_loop fuel (i : Int) (h : Int) r = some r1
        ∧ ∀ j, r1.testBit j = (r.testBit j || decide (i ≤ j ∧ j ≤ h)) := by
  intro n
  induction n with
  | zero =>
    intro fuel i r hn hf
    obtain ⟨f, rfl⟩ : ∃ f, fuel = f + 1 := ⟨fuel - 1, by omega⟩
    have hnot : ¬ ((i : Int) ≤ (h : Int)) := by omega
    refine ⟨r, by simp only [bitMask_loop, hnot, if_false], ?_⟩
    intro j
    have : ¬ (i ≤ j ∧ j ≤ h) := by omega
    simp [this]
  | succ n ih =>
    intro fuel i r hn hf
    obtain ⟨f, rfl⟩ : ∃ f, fuel = f + 1 := ⟨fuel - 1, by omega⟩
    have hle : (i : Int) ≤ (h : Int) := by omega
    have hnext : toInt32 ((i : Int) + 1) = ((i + 1 : Nat) : Int) := by
      rw [toInt32_of_range _ (by omega) (by omega)]
      omega
    obtain ⟨r1, hr1, hbits⟩ := ih f (i + 1) (r ||| shl_one (i : Int)) (by omega) (by omega)
    refine ⟨r1, ?_, ?_⟩
    · simp only [bitMask_loop, hle, if_true, hnext]
      exact hr1
    · intro j
      rw [hbits j, Nat.testBit_or, shl_one_eq i (by omega), Nat.testBit_two_pow]
      by_cases hij : i = j
      · subst hij
        have : i ≤ i ∧ i ≤ h := by omega
        simp [this]
      · have e : (i + 1 ≤ j ∧ j ≤ h) ↔ (i ≤ j ∧ j ≤ h) := by omega
        simp [hij, e]

/-- The result of `test_bitMask` on bounds in `0 .. 31`. -/
theorem bitMask_spec (h l fuel : Nat) (hh : h ≤ 31) (hl : l ≤ 31) (hfuel : 32 < fuel) :
    ∃ r, test_bitMask fuel [h, l] = some r
      ∧ ∀ j, r.testBit j = decide (l ≤ j ∧ j ≤ h) := by
  have e1 : toInt32 ((l : Nat) : Int) = (l : Int) := toInt32_of_range _ (by omega) (by omega)
  have e2 : toInt32 ((h : Nat) : Int) = (h : Int) := toInt32_of_range _ (by omega) (by omega)
  simp only [test_bitMask, List.getD_cons_zero, List.getD_cons_succ, e1, e2]
  by_cases hlh : l ≤ h + 1
  · obtain ⟨r1, hr1, hbits⟩ := bitMask_loop_spec h hh (h + 1 - l) fuel l 0 (by omega) (by omega)
    refine ⟨r1, hr1, ?_⟩
    intro j
    rw [hbits j]
    simp
  · obtain ⟨f, rfl⟩ : ∃ f, fuel = f + 1 := ⟨fuel - 1, by omega⟩
    have hnot : ¬ ((l : Int) ≤ (h : Int)) := by omega
    refine ⟨0, by simp only [bitMask_loop, hnot, if_false], ?_⟩
    intro j
    have : ¬ (l ≤ j ∧ j ≤ h) := by omega
    simp [this]

/-! ## The oracle `test_allOddBits` -/

theorem and_two_pow_eq_zero (x i : Nat) : x &&& 2 ^ i = 0 ↔ x.testBit i = false := by
  rw [Nat.and_two_pow]
  have hp : 0 < 2 ^ i := Nat.pow_pos (by norm_num)
  cases h : x.testBit i
  · simp
  · simp

theorem odd_mask_testBit (t : Nat) :
    (0xAAAAAAAA : Nat).testBit t = decide (t < 32 ∧ t % 2 = 1) := by
  by_cases h : t < 32
  · interval_cases t <;> decide
  · rw [testBit_high _ t (by norm_num) (by omega)]
    simp [h]

/-- The loop of `test_allOddBits` from `i = 2 t + 1`: it returns 1 when the
bits `2 j + 1` with `t <= j < 16` are all set, and 0 when one of them is
clear. -/
theorem allOddBits_loop_spec (x : Nat) :
    ∀ (n fuel t : Nat), t + n = 16 → n < fuel →
      (allOddBits_loop x fuel ((2 * t + 1 : Nat) : Int) = some 1
        ∧ ∀ j, t ≤ j → j < 16 → x.testBit (2 * j + 1) = true)
      ∨ (allOddBits_loop x fuel ((2 * t + 1 : Nat) : Int) = some 0
        ∧ ∃ j, t ≤ j ∧ j < 16 ∧ x.testBit (2 * j + 1) = false) := by
  intro n
  induction n with
  | zero =>
    intro fuel t hn hf
    obtain ⟨f, rfl⟩ : ∃ f, fuel = f + 1 := ⟨fuel - 1, by omega⟩
    have hnot : ¬ (((2 * t + 1 : Nat) : Int) < 32) := by omega
    refine Or.inl ⟨by simp only [allOddBits_loop, hnot, if_false], ?_⟩
    intro j h1 h2
    omega
  | succ n ih =>
    intro fuel t hn hf
    obtain ⟨f, rfl⟩ : ∃ f, fuel = f + 1 := ⟨fuel - 1, by omega⟩
    have hlt : ((2 * t + 1 : Nat) : Int) < 32 := by omega
    have hshl : shl_one ((2 * t + 1 : Nat) : Int) = 2 ^ (2 * t + 1) := shl_one_eq _ (by omega)
    have hnext : toInt32 (((2 * t + 1 : Nat) : Int) + 2) = ((2 * (t + 1) + 1 : Nat) : Int) := by
      rw [toInt32_of_range _ (by omega) (by omega)]
      omega
    cases hbit : x.testBit (2 * t + 1)
    · have hz : x &&& 2 ^ (2 * t + 1) = 0 := (and_two_pow_eq_zero x _).mpr hbit
      refine Or.inr ⟨by simp only [allOddBits_loop, hlt, if_true, hshl, hz], t, le_refl t,
        by omega, hbit⟩
    · have hz : ¬ x &&& 2 ^ (2 * t + 1) = 0 := by
        intro h0
        rw [(and_two_pow_eq_zero x _).mp h0] at hbit
        exact absurd hbit (by simp)
      have hstep : allOddBits_loop x (f + 1) ((2 * t + 1 : Nat) : Int)
          = allOddBits_loop x f ((2 * (t + 1) + 1 : Nat) : Int) := by
        simp only [allOddBits_loop, hlt, if_true, hshl, hz, if_false, hnext]
      rw [hstep]
      rcases ih f (t + 1) (by omega) (by omega) with ⟨h1, hall⟩ | ⟨h0, j, hj1, hj2, hj3⟩
      · refine Or.inl ⟨h1, ?_⟩
        intro j hj1 hj2
        by_cases hjt : j = t
        · rw [hjt]; exact hbit
        · exact hall j (by omega) hj2
      · exact Or.inr ⟨h0, j, by omega, hj2, hj3⟩

/-- All sixteen odd-numbered bits are set exactly when the word contains the
mask `0xAAAAAAAA`. -/
theorem odd_mask_iff (x : Nat) :
    x &&& 0xAAAAAAAA = 0xAAAAAAAA ↔ ∀ j, j < 16 → x.testBit (2 * j + 1) = true := by
  constructor
  · intro h j hj
    have hb : (x &&& 0xAAAAAAAA).testBit (2 * j + 1) = (0xAAAAAAAA : Nat).testBit (2 * j + 1) := by
      rw [h]
    rw [Nat.testBit_and, odd_mask_testBit] at hb
    have hc : 2 * j + 1 < 32 ∧ (2 * j + 1) % 2 = 1 := by omega
    simpa [hc] using hb
  · intro h
    apply Nat.eq_of_testBit_eq
    intro i
    rw [Nat.testBit_and, odd_mask_testBit]
    by_cases hc : i < 32 ∧ i % 2 = 1
    · have hi : i = 2 * (i / 2) + 1 := by omega
      have hx := h (i / 2) (by omega)
      rw [← hi] at hx
      simp [hc, hx]
    · simp [hc]

/-! ## The oracle `test_isPower2` -/

/-- A number in `[2^k, 2^(k+1))` has bit `k` set. -/
theorem testBit_top (y k : Nat) (h1 : 2 ^ k ≤ y) (h2 : y < 2 ^ (k + 1)) :
    y.testBit k = true := by
  rw [Nat.testBit_to_div_mod]
  have hd : y / 2 ^ k = 1 := by
    apply Nat.div_eq_of_lt_le
    · omega
    · rw [pow_succ] at h2
      omega
  simp [hd]

/-- A positive number shares no bit with its predecessor exactly when it is
a power of two. -/
theorem and_pred_eq_zero_iff (m : Nat) (hm : 0 < m) :
    m &&& (m - 1) = 0 ↔ ∃ i, m = 2 ^ i := by
  constructor
  · intro h
    refine ⟨m.log2, ?_⟩
    by_contra hne
    have h1 : 2 ^ m.log2 ≤ m := Nat.log2_self_le (by omega)
    have h2 : m < 2 ^ (m.log2 + 1) := Nat.lt_log2_self
    have hb1 := testBit_top m m.log2 h1 h2
    have hb2 := testBit_top (m - 1) m.log2 (by omega) (by omega)
    have hb : (m &&& (m - 1)).testBit m.log2 = true := by
      rw [Nat.testBit_and, hb1, hb2]
      rfl
    rw [h, Nat.zero_testBit] at hb
    exact absurd hb (by simp)
  · rintro ⟨i, rfl⟩
    rw [Nat.and_pow_two_sub_one_eq_mod, Nat.mod_self]

theorem two_pow_le_30 (j : Nat) (hj : j ≤ 30) : 2 ^ j ≤ 1073741824 := by
  have h : (2 : Nat) ^ j ≤ 2 ^ 30 := Nat.pow_le_pow_right (by norm_num) hj
  have h30 : (2 : Nat) ^ 30 = 1073741824 := by norm_num
  omega

/-- The loop of `test_isPower2` from `i`: it returns 1 when `x` is one of
`2^i, .., 2^30` and 0 otherwise. -/
theorem isPower2_loop_spec (x : Int) :
    ∀ (n fuel i : Nat), i + n = 31 → n < fuel →
      (isPower2_loop x fuel (i : Int) = some 1
        ∧ ∃ j, i ≤ j ∧ j ≤ 30 ∧ x = ((2 ^ j : Nat) : Int))
      ∨ (isPower2_loop x fuel (i : Int) = some 0
        ∧ ∀ j, i ≤ j → j ≤ 30 → x ≠ ((2 ^ j : Nat) : Int)) := by
  intro n
  induction n with
  | zero =>
    intro fuel i hn hf
    obtain ⟨f, rfl⟩ : ∃ f, fuel = f + 1 := ⟨fuel - 1, by omega⟩
    have hnot : ¬ ((i : Int) < 31) := by omega
    refine Or.inr ⟨by simp only [isPower2_loop, hnot, if_false], ?_⟩
    intro j h1 h2
    omega
  | succ n ih =>
    intro fuel i hn hf
    obtain ⟨f, rfl⟩ : ∃ f, fuel = f + 1 := ⟨fuel - 1, by omega⟩
    have hlt : (i : Int) < 31 := by omega
    have hp := two_pow_le_30 i (by omega)
    have hpi : ((2 ^ i : Nat) : Int) ≤ 1073741824 := by exact_mod_cast hp
    have hp0 : (0 : Int) ≤ ((2 ^ i : Nat) : Int) := Int.ofNat_nonneg _
    have hshl : toInt32 ((shl_one (i : Int) : Nat) : Int) = ((2 ^ i : Nat) : Int) := by
      rw [shl_one_eq i (by omega)]
      exact toInt32_of_range _ (by omega) (by omega)
    have hnext : toInt32 ((i : Int) + 1) = ((i + 1 : Nat) : Int) := by
      rw [toInt32_of_range _ (by omega) (by omega)]
      omega
    by_cases hx : x = ((2 ^ i : Nat) : Int)
    · refine Or.inl ⟨?_, i, le_refl i, by omega, hx⟩
      simp only [isPower2_loop, hlt, if_true, hshl, hx]
    · have hstep : isPower2_loop x (f + 1) (i : Int) = isPower2_loop x f ((i + 1 : Nat) : Int) := by
        simp only [isPower2_loop, hlt, if_true, hshl, hx, if_false, hnext]
      rw [hstep]
      rcases ih f (i + 1) (by omega) (by omega) with ⟨h1, j, hj1, hj2, hj3⟩ | ⟨h0, hall⟩
      · exact Or.inl ⟨h1, j, by omega, hj2, hj3⟩
      · refine Or.inr ⟨h0, ?_⟩
        intro j hj1 hj2
        by_cases hji : j = i
        · rw [hji]; exact hx
        · exact hall j (by omega) hj2

/-- The test `x > 0 && (x & (x - 1)) == 0` on the pattern `w` of `x` singles
out the powers of two up to `2^30`. -/
theorem power2_test_iff (w : Nat) (hw : w < 4294967296) :
    (0 < toInt32 (w : Int) ∧ w &&& toUInt32 ((w : Int) - 1) = 0) ↔ ∃ i, i ≤ 30 ∧ w = 2 ^ i := by
  constructor
  · rintro ⟨hpos, hand⟩
    have hw1 : 0 < w ∧ w < 2147483648 := by
      unfold toInt32 at hpos
      omega
    have hpred : toUInt32 ((w : Int) - 1) = w - 1 := by
      have := toUInt32_cast ((w : Int) - 1)
      omega
    rw [hpred] at hand
    obtain ⟨i, hi⟩ := (and_pred_eq_zero_iff w hw1.1).mp hand
    refine ⟨i, ?_, hi⟩
    have h31 : (2 : Nat) ^ i < 2 ^ 31 := by
      rw [← hi]
      have : (2 : Nat) ^ 31 = 2147483648 := by norm_num
      omega
    have := (Nat.pow_lt_pow_iff_right (by norm_num : 1 < 2)).mp h31
    omega
  · rintro ⟨i, hi, rfl⟩
    have hp := two_pow_le_30 i hi
    have hpos : 0 < 2 ^ i := Nat.pow_pos (by norm_num)
    have hz : 2 ^ i &&& (2 ^ i - 1) = 0 := (and_pred_eq_zero_iff _ hpos).mpr ⟨i, rfl⟩
    generalize 2 ^ i = p at hp hpos hz ⊢
    have hpred : toUInt32 ((p : Int) - 1) = p - 1 := by
      have := toUInt32_cast ((p : Int) - 1)
      omega
    refine ⟨?_, ?_⟩
    · rw [toInt32_of_range _ (by omega) (by omega)]
      omega
    · rw [hpred]
      exact hz

/-! ## The claims -/

/-- C6: for a float-bits argument and every budget, the sequence `gen_vals`
emits is the loop values followed by the four sentinels; each of the
sentinel patterns `0x7f800000`, `0xff800000`, `0x7fc00000`, `0xffc00000`
occurs in it exactly once, and no value stored inside the loop equals a
sentinel. -/
theorem C6_float_sentinels_once (fuel RAND_MAX : Nat) (rand : Nat → Nat) (k : Nat)
    (min max b : Int) :
    ∃ loop_vals : List Int,
      gen_vals fuel RAND_MAX rand k min max true b
        = .done (loop_vals ++ float_sentinels.map stored, k)
      ∧ loop_vals = ((List.range (float_budget b.toNat)).flatMap float_patterns).map stored
      ∧ (∀ s ∈ float_sentinels, stored s ∉ loop_vals)
      ∧ (∀ s ∈ float_sentinels,
          (loop_vals ++ float_sentinels.map stored).count (stored s) = 1)
      ∧ (∀ s ∈ float_sentinels,
          ((loop_vals ++ float_sentinels.map stored).map toUInt32).count s = 1) := by
  refine ⟨((List.range (float_budget b.toNat)).flatMap float_patterns).map stored,
    ?_, rfl, ?_, ?_, ?_⟩
  · rw [gen_vals_float, List.map_append]
  · intro s hs
    exact sentinel_not_in_loop _ (float_budget_le _) s hs
  · intro s hs
    rw [List.count_append, sentinel_count_special s hs,
      List.count_eq_zero.mpr (sentinel_not_in_loop _ (float_budget_le _) s hs)]
  · intro s hs
    have hmap : (((List.range (float_budget b.toNat)).flatMap float_patterns).map stored
        ++ float_sentinels.map stored).map toUInt32
        = (List.range (float_budget b.toNat)).flatMap float_patterns ++ float_sentinels := by
      rw [← List.map_append]
      exact map_toUInt32_stored _ (float_all_lt _ (float_budget_le _))
    rw [hmap, List.count_append]
    have h0 : ((List.range (float_budget b.toNat)).flatMap float_patterns).count s = 0 := by
      rw [List.count_eq_zero]
      intro hmem
      have h1 := mem_float_loop_patterns (float_budget_le _) hmem
      have h2 := float_sentinels_high s hs
      omega
    rw [h0, sentinel_count_plain s hs]

/-- C7: for a float-bits argument and a budget `b ≥ 0`, `gen_vals` returns
exactly `12 * min(b, 2^23) + 4` values: for each `i` from `0` to
`min(b, 2^23) - 1`, in order, the twelve patterns `i, S|i, N+i, N-i, S|(N+i),
S|(N-i), O+i, O-i, S|(O+i), S|(O-i), L-i, S|(L-i)` (`float_patterns i`),
followed by `+inf, -inf, NaN, -NaN` as the last four elements. -/
theorem C7_float_sequence (fuel RAND_MAX : Nat) (rand : Nat → Nat) (k : Nat)
    (min max : Int) (b : Nat) :
    ∃ vals : List Int,
      gen_vals fuel RAND_MAX rand k min max true (b : Int) = .done (vals, k)
      ∧ gen_count (gen_vals fuel RAND_MAX rand k min max true (b : Int))
          = some (12 * (Nat.min b (2 ^ 23) : Nat) + 4 : Int)
      ∧ vals.map toUInt32
          = (List.range (Nat.min b (2 ^ 23))).flatMap
              (fun i =>
                [ i, 0x80000000 ||| i,
                  0x00800000 + i, 0x00800000 - i,
                  0x80000000 ||| (0x00800000 + i), 0x80000000 ||| (0x00800000 - i),
                  0x3f800000 + i, 0x3f800000 - i,
                  0x80000000 ||| (0x3f800000 + i), 0x80000000 ||| (0x3f800000 - i),
                  0x7f000000 - i, 0x80000000 ||| (0x7f000000 - i) ])
            ++ [0x7f800000, 0xff800000, 0x7fc00000, 0xffc00000]
      ∧ (∀ v ∈ vals, INT_MIN ≤ v ∧ v ≤ INT_MAX) := by
  have hb : float_budget ((b : Int).toNat) = Nat.min b (2 ^ 23) := by
    simp [float_budget]
  refine ⟨((List.range (float_budget ((b : Int).toNat))).flatMap float_patterns
      ++ float_sentinels).map stored, gen_vals_float _ _ _ _ _ _ _, ?_, ?_, ?_⟩
  · rw [gen_vals_float, gen_count]
    simp only [List.length_map, List.length_append, float_patterns_length_sum, hb]
    simp [float_sentinels]
  · rw [map_toUInt32_stored _ (float_all_lt _ (float_budget_le _)), hb]
    rfl
  · intro v hv
    rcases List.mem_map.mp hv with ⟨w, _, rfl⟩
    exact toInt32_range _

/-- C8: for a float-bits argument the output of `gen_vals` depends only on
the budget: any two pairs of bounds (and any fuel and random source) give
the same sequence, so neither the exhaustive nor the boundary/random policy
is ever used. -/
theorem C8_float_ignores_bounds (fuel fuel1 RAND_MAX RAND_MAX1 : Nat) (rand rand1 : Nat → Nat)
    (k : Nat) (min max min1 max1 b : Int) :
    gen_vals fuel RAND_MAX rand k min max true b
      = gen_vals fuel1 RAND_MAX1 rand1 k min1 max1 true b := by
  rw [gen_vals_float, gen_vals_float]

/-- C10: with the base budget `TEST_RANGE = 500000`, the per-argument budget
`test_function` computes is `500000` for one argument, `707` for two
(`707^2 ≤ 500000 < 708^2`) and `79` for three (`79^3 ≤ 500000 < 80^3`). -/
theorem C10_budget_by_arity :
    TEST_RANGE = 500000
    ∧ test_range_of 1 = some 500000
    ∧ test_range_of 2 = some 707
    ∧ test_range_of 3 = some 79
    ∧ 707 ^ 2 ≤ TEST_RANGE ∧ TEST_RANGE < 708 ^ 2
    ∧ 79 ^ 3 ≤ TEST_RANGE ∧ TEST_RANGE < 80 ^ 3 := by
  refine ⟨rfl, rfl, ?_, ?_, ?_, ?_, ?_, ?_⟩
  · simp only [test_range_of, sqrt_budget]
  · simp only [test_range_of, cbrt_budget]
  all_goals norm_num [TEST_RANGE]

/-- C3: the claim holds while no `int` operation wraps (`gen_vals_exhaustive`)
but not for every pair of 32-bit bounds with `min ≤ max` and
`max - min ≤ 6500000`. For `min = max = INT_MAX` the exhaustive loop is
entered, its test `i <= max` can never fail, and `gen_vals` does not return
with any fuel; for `min = max = INT_MIN` the subtraction
`max - MAX_TEST_VALS` wraps and the exhaustive policy is not selected. -/
theorem C3_exhaustive_fails_at_extremes (fuel RAND_MAX : Nat) (rand : Nat → Nat) (k : Nat)
    (b : Int) :
    policy_of INT_MAX INT_MAX false = .exhaustive
    ∧ gen_vals fuel RAND_MAX rand k INT_MAX INT_MAX false b = .nofuel
    ∧ policy_of INT_MIN INT_MIN false = .boundary_random := by
  refine ⟨by decide, ?_, by decide⟩
  have hc : toInt32 (INT_MAX - MAX_TEST_VALS) ≤ INT_MAX := by decide
  simp [gen_vals, hc, exhaust_loop_diverges INT_MAX (le_refl _) fuel INT_MAX [] (le_refl _)]

/-- C4: for `min = max = INT_MIN` the subtraction `max - MAX_TEST_VALS` wraps,
so the boundary/random policy is used on a one-value range; with the budget
`79` of a 3-argument puzzle the stores `min + 1 = INT_MIN + 1` and
`max - 1 = INT_MAX` (wrapped) lie outside `[min, max]`. -/
theorem C4_sample_outside_range (fuel RAND_MAX : Nat) (rand : Nat → Nat) (k : Nat) :
    policy_of INT_MIN INT_MIN false = .boundary_random
    ∧ ∃ vals k1, gen_vals fuel RAND_MAX rand k INT_MIN INT_MIN false 79 = .done (vals, k1)
        ∧ (INT_MIN + 1) ∈ vals ∧ INT_MAX ∈ vals
        ∧ ¬ (INT_MIN + 1 ≤ INT_MIN) ∧ ¬ (INT_MAX ≤ INT_MIN) := by
  refine ⟨by decide, _, _, gen_vals_sample fuel RAND_MAX rand k INT_MIN INT_MIN 79 (by decide),
    ?_, ?_, by decide, by decide⟩
  · refine List.mem_flatMap.mpr ⟨1, by simp, ?_⟩
    have e : INT_MIN + 1 = toInt32 (INT_MIN + 1) := by decide
    simp only [sample_iter, Nat.cast_one, List.cons_append, List.mem_cons]
    exact Or.inl e
  · refine List.mem_flatMap.mpr ⟨1, by simp, ?_⟩
    have e : INT_MAX = toInt32 (INT_MIN - 1) := by decide
    simp only [sample_iter, Nat.cast_one, List.cons_append, List.mem_cons]
    exact Or.inr (Or.inl e)

/-- C5: whenever `gen_vals` uses the boundary/random policy with a budget of
at least `1`, the emitted sequence starts with `min` and then `max`. -/
theorem C5_sample_starts_min_max (fuel RAND_MAX : Nat) (rand : Nat → Nat) (k : Nat)
    (min max b : Int) (hmin : INT_MIN ≤ min ∧ min ≤ INT_MAX) (hmax : INT_MIN ≤ max ∧ max ≤ INT_MAX)
    (hp : policy_of min max false = .boundary_random) (hb : 1 ≤ b) :
    ∃ rest k1, gen_vals fuel RAND_MAX rand k min max false b = .done (min :: max :: rest, k1) := by
  obtain ⟨n, hn⟩ : ∃ n : Nat, b.toNat = n + 1 := ⟨b.toNat - 1, by omega⟩
  have e1 : toInt32 (min + ((0 : Nat) : Int)) = min := by
    simp only [Nat.cast_zero, add_zero]
    exact toInt32_of_range _ hmin.1 hmin.2
  have e2 : toInt32 (max - ((0 : Nat) : Int)) = max := by
    simp only [Nat.cast_zero, sub_zero]
    exact toInt32_of_range _ hmax.1 hmax.2
  rw [gen_vals_sample fuel RAND_MAX rand k min max b hp, hn, List.range_succ_eq_map,
    List.flatMap_cons]
  simp only [sample_iter, e1, e2, List.cons_append, List.nil_append]
  exact ⟨_, _, rfl⟩

/-- Witness for C5: the full `int` range with the budget `500000`. -/
theorem C5_sample_starts_min_max_witness :
    ∃ rest k1, gen_vals 0 2147483647 (fun _ => 0) 0 INT_MIN INT_MAX false 500000
      = .done (INT_MIN :: INT_MAX :: rest, k1) :=
  C5_sample_starts_min_max 0 2147483647 (fun _ => 0) 0 INT_MIN INT_MAX 500000
    (by decide) (by decide) (by decide) (by decide)

/-- C1: the claim holds whenever the sampling loop completes
(`test_function_pass`, `test_function_fail`), but not for every well-formed
descriptor. The descriptor `int_max_spec` has arity 1, recognised kinds and a
candidate equal to its reference on every input; its slot is sampled by the
exhaustive loop of `gen_vals` with `max = INT_MAX`, which never ends, so
`test_function` returns neither `0` nor `-1`, whatever the fuel. -/
theorem C1_no_pass_at_int_max (fuel RAND_MAX : Nat) (rand : Nat → Nat) (k : Nat) :
    int_max_spec.num_args = 1
    ∧ is_float_of (int_max_spec.arg_types.get 0) = some false
    ∧ ret_ctype int_max_spec.return_type = some .int
    ∧ (∀ t, agree int_max_spec t)
    ∧ test_function fuel RAND_MAX rand k int_max_spec ⟨none, none, none⟩ = .nofuel := by
  refine ⟨rfl, rfl, rfl, fun t => rfl, ?_⟩
  have hg := gen_vals_int_max fuel RAND_MAX rand k ((TEST_RANGE : Nat) : Int)
  simp only [test_function, test_range_of, int_max_spec, sample_args, Arr3.get, is_float_of, hg]

/-- C2: when the sampling loop has completed and some tuple of the cross
product mismatches, `test_function` returns `-1` and reports the first
mismatching tuple in nested-iteration order (every tuple before it agrees),
with `actual` the candidate's and `expected` the reference's 32-bit result on
that tuple; the evaluated tuples are exactly those up to it. -/
theorem C2_first_mismatch_reported (fuel RAND_MAX : Nat) (rand : Nat → Nat) (k : Nat)
    (spec : puzzle_spec_t) (input_args : Arr3 (Option Nat)) (tr : Nat)
    (sets : List (List Int)) (k1 : Nat) (rt : CType)
    (htr : test_range_of spec.num_args = some tr)
    (hs : sample_args fuel RAND_MAX rand spec input_args tr spec.num_args 0 k []
      = .done (sets, k1))
    (hr : ret_ctype spec.return_type = some rt)
    (hm : ∃ t ∈ cross sets, ¬ agree spec t) :
    ∃ pre t post, cross sets = pre ++ t :: post
      ∧ (∀ u ∈ pre, agree spec u) ∧ ¬ agree spec t
      ∧ test_function fuel RAND_MAX rand k spec input_args =
          .done ⟨-1,
            some ⟨patterns t, spec.impl_func (patterns t) % 4294967296,
              spec.test_func (patterns t) % 4294967296⟩,
            (pre ++ [t]).map patterns, k1⟩ := by
  rcases exists_first (fun t => ¬ agree spec t) (cross sets) hm with ⟨pre, t, post, hsplit, hpre, ht⟩
  refine ⟨pre, t, post, hsplit, fun u hu => not_not.mp (hpre u hu), ht, ?_⟩
  exact test_function_fail fuel RAND_MAX rand k spec input_args tr sets k1 rt htr hs hr
    pre post t hsplit (fun u hu => not_not.mp (hpre u hu)) ht

/-- Witness for C2: `bitAnd` with both arguments pinned to `(5, 3)` and a
bitwise-OR candidate reports the inputs `(5, 3)`, expected `1`, actual `7`. -/
theorem C2_first_mismatch_reported_witness :
    (∃ pre t post, cross [[5], [3]] = pre ++ t :: post
      ∧ (∀ u ∈ pre, agree (bitAnd_spec or_candidate) u) ∧ ¬ agree (bitAnd_spec or_candidate) t
      ∧ test_function 0 2147483647 (fun _ => 0) 0 (bitAnd_spec or_candidate)
          ⟨some 5, some 3, none⟩ =
          .done ⟨-1,
            some ⟨patterns t, (bitAnd_spec or_candidate).impl_func (patterns t) % 4294967296,
              (bitAnd_spec or_candidate).test_func (patterns t) % 4294967296⟩,
            (pre ++ [t]).map patterns, 0⟩)
    ∧ test_function 0 2147483647 (fun _ => 0) 0 (bitAnd_spec or_candidate)
          ⟨some 5, some 3, none⟩ = .done ⟨-1, some ⟨[5, 3], 7, 1⟩, [[5, 3]], 0⟩ :=
  ⟨C2_first_mismatch_reported 0 2147483647 (fun _ => 0) 0 (bitAnd_spec or_candidate)
      ⟨some 5, some 3, none⟩ 707 [[5], [3]] 0 .int
      (by simp only [bitAnd_spec, test_range_of, sqrt_budget]) (by decide) (by decide)
      ⟨[5, 3], by decide, by decide⟩,
    by decide⟩

/-- C11 (as stated, refuted): with the budget `707` of a 2-argument puzzle the
range `[0, 9191]` holds `9192 > 707 * 13` values and is still enumerated. -/
theorem C11_budget_threshold_counterexample :
    707 * 13 < 9192
    ∧ policy_of 0 9191 false = .exhaustive
    ∧ gen_vals 9193 2147483647 (fun _ => 0) 0 0 9191 false 707
        = .done ((List.range 9192).map (fun (j : Nat) => (0 : Int) + (j : Int)), 0) := by
  refine ⟨by decide, by decide, ?_⟩
  exact gen_vals_exhaustive 9193 2147483647 (fun _ => 0) 0 0 9191 707 9192 (by decide) (by decide)
    (by decide) (by decide) (by decide) (by decide)

/-- C11 (amended): for a non-float argument with `INT_MIN + 6500000 ≤ max`,
`gen_vals` runs the exhaustive loop whenever `[min, max]` holds at most
`13 * TEST_RANGE = 6500000` values and the sampling loop whenever it holds
more than `6500001`, whatever the budget `b` passed to it. -/
theorem C11_fixed_threshold (fuel RAND_MAX : Nat) (rand : Nat → Nat) (k : Nat)
    (min max b : Int) (hlow : INT_MIN + 6500000 ≤ max) (hmax : max ≤ INT_MAX) :
    (max - min + 1 ≤ 13 * (TEST_RANGE : Int) →
      policy_of min max false = .exhaustive
      ∧ gen_vals fuel RAND_MAX rand k min max false b =
          match exhaust_loop fuel min max [] with
          | some test_vals => .done (test_vals, k)
          | none => .nofuel)
    ∧ (13 * (TEST_RANGE : Int) + 1 < max - min + 1 →
      policy_of min max false = .boundary_random
      ∧ gen_vals fuel RAND_MAX rand k min max false b =
          .done (sample_loop RAND_MAX rand min max b.toNat 0 k [])) := by
  have hiff := policy_of_iff min max hlow hmax
  have hby := gen_vals_by_policy fuel RAND_MAX rand k min max b
  have ht : (TEST_RANGE : Int) = 500000 := rfl
  constructor
  · intro h
    have hp : policy_of min max false = .exhaustive := hiff.mpr (by omega)
    exact ⟨hp, hby.1 hp⟩
  · intro h
    have hne : policy_of min max false ≠ .exhaustive := fun hp => by
      have := hiff.mp hp
      omega
    have hp : policy_of min max false = .boundary_random := by
      have := policy_of_not_float min max
      cases hq : policy_of min max false <;> simp_all
    exact ⟨hp, hby.2 hp⟩

/-- Witness for C11 (amended): the range `[0, 9191]` with the budget `707`. -/
theorem C11_fixed_threshold_witness :
    policy_of 0 9191 false = .exhaustive
    ∧ gen_vals 9193 2147483647 (fun _ => 0) 0 0 9191 false 707 =
        match exhaust_loop 9193 0 9191 [] with
        | some test_vals => .done (test_vals, 0)
        | none => .nofuel :=
  (C11_fixed_threshold 9193 2147483647 (fun _ => 0) 0 0 9191 707 (by decide) (by decide)).1
    (by decide)

/-- C12: for every descriptor whose arity is greater than `3`, `test_function`
calls `exit(1)` in its first `switch`, before any sampling and before any call
of a puzzle function; it returns no outcome. -/
theorem C12_arity_above_three_exits (fuel RAND_MAX : Nat) (rand : Nat → Nat) (k : Nat)
    (spec : puzzle_spec_t) (input_args : Arr3 (Option Nat)) (h : 3 < spec.num_args) :
    test_function fuel RAND_MAX rand k spec input_args = .exit 1 [] := by
  obtain ⟨m, hm⟩ : ∃ m, spec.num_args = m + 4 := ⟨spec.num_args - 4, by omega⟩
  simp [test_function, hm, test_range_of]

/-- Witness for C12: the arity `4`. -/
theorem C12_arity_above_three_exits_witness :
    test_function 0 2147483647 (fun _ => 0) 0 { zero_arity_spec with num_args := 4 }
      ⟨none, none, none⟩ = .exit 1 [] :=
  C12_arity_above_three_exits 0 2147483647 (fun _ => 0) 0 { zero_arity_spec with num_args := 4 }
    ⟨none, none, none⟩ (by decide)

/-- C13 (as stated, refuted): a zero-argument descriptor whose candidate and
reference both return `7` is not rejected: `test_function` calls both once
and returns `0`. -/
theorem C13_arity_zero_counterexample :
    zero_arity_spec.num_args = 0
    ∧ test_function 0 2147483647 (fun _ => 0) 0 zero_arity_spec ⟨none, none, none⟩
        = .done ⟨0, none, [[]], 0⟩ := by
  decide

/-- C13 (amended): for a descriptor of arity `0` with a recognised return kind,
`test_function` calls the candidate and the reference once, without
arguments, and returns `0` when their 32-bit results are equal and `-1`
(with the diagnostic) otherwise. -/
theorem C13_arity_zero_runs (fuel RAND_MAX : Nat) (rand : Nat → Nat) (k : Nat)
    (spec : puzzle_spec_t) (input_args : Arr3 (Option Nat)) (rt : CType)
    (h0 : spec.num_args = 0) (hr : ret_ctype spec.return_type = some rt) :
    test_function fuel RAND_MAX rand k spec input_args =
      .done ⟨if agree spec [] then 0 else -1,
        if agree spec [] then none else some (report_at spec []), [[]], k⟩ := by
  have htr : test_range_of spec.num_args = some TEST_RANGE := by rw [h0]; rfl
  have hs : sample_args fuel RAND_MAX rand spec input_args (TEST_RANGE : Nat) spec.num_args 0 k []
      = .done ([], k) := by rw [h0]; rfl
  by_cases hag : agree spec []
  · rw [test_function_pass fuel RAND_MAX rand k spec input_args TEST_RANGE [] k rt htr hs hr
      (by intro t ht; simp only [cross, List.mem_singleton] at ht; rw [ht]; exact hag)]
    simp [hag, cross, patterns]
  · rw [test_function_fail fuel RAND_MAX rand k spec input_args TEST_RANGE [] k rt htr hs hr
      [] [] [] rfl (by simp) hag]
    simp [hag, patterns]

/-- Witness for C13 (amended): the descriptor `zero_arity_spec`. -/
theorem C13_arity_zero_runs_witness :
    test_function 0 2147483647 (fun _ => 0) 0 zero_arity_spec ⟨none, none, none⟩ =
      .done ⟨if agree zero_arity_spec [] then 0 else -1,
        if agree zero_arity_spec [] then none else some (report_at zero_arity_spec []),
        [[]], 0⟩ :=
  C13_arity_zero_runs 0 2147483647 (fun _ => 0) 0 zero_arity_spec ⟨none, none, none⟩ .int rfl rfl

/-- C14: a malformed descriptor never makes `test_function` return an outcome
or call a puzzle function (`malformed_never_returns`), but it does not
always end in `exit(1)`: the kind of a slot is examined only after the
slots before it have been sampled. In `bad_kind_spec` (arity 2) slot 1 has
the kind `UNUSED_ARG` and slot 0 the bounds `[INT_MAX, INT_MAX]`; the
exhaustive loop of `gen_vals` for slot 0 never ends, so the `exit(1)` for
slot 1 is never reached, whatever the fuel. -/
theorem C14_malformed_not_reached (fuel RAND_MAX : Nat) (rand : Nat → Nat) (k : Nat) :
    bad_kind_spec.num_args = 2
    ∧ is_float_of (bad_kind_spec.arg_types.get 1) = none
    ∧ test_function fuel RAND_MAX rand k bad_kind_spec ⟨none, none, none⟩ = .nofuel := by
  refine ⟨rfl, rfl, ?_⟩
  have hg := gen_vals_int_max fuel RAND_MAX rand k ((truncPow TEST_RANGE 1 2 : Nat) : Int)
  simp only [test_function, test_range_of, bad_kind_spec, sample_args, Arr3.get, is_float_of, hg]

/-- C15: `gen_vals` does not return for every pair of 32-bit bounds. For
`min = 2147483640`, `max = INT_MAX` and every budget the exhaustive loop
`for (int i = min; i <= max; i++)` is entered and its test never fails, so
`gen_vals` returns with no fuel; `test_function` then does not return either
on the one-argument descriptor `int_max_spec` with these bounds. -/
theorem C15_sampling_diverges (fuel RAND_MAX : Nat) (rand : Nat → Nat) (k : Nat) (b : Int) :
    policy_of 2147483640 INT_MAX false = .exhaustive
    ∧ gen_vals fuel RAND_MAX rand k 2147483640 INT_MAX false b = .nofuel
    ∧ test_function fuel RAND_MAX rand k
        { int_max_spec with arg_min := ⟨2147483640, 0, 0⟩ } ⟨none, none, none⟩ = .nofuel := by
  refine ⟨by decide, gen_vals_max_diverges fuel RAND_MAX rand k 2147483640 b (by decide)
    (by decide), ?_⟩
  have hg := gen_vals_max_diverges fuel RAND_MAX rand k 2147483640 ((TEST_RANGE : Nat) : Int)
    (by decide) (by decide)
  simp only [test_function, test_range_of, int_max_spec, sample_args, Arr3.get, is_float_of, hg]

/-- C16: in named mode (the `switch (argc)` has produced a puzzle name and
the array `args`) `main` calls `test_function` on the first registry entry
whose name equals the requested name, with `args`, and on no other entry;
when no entry has that name it prints the not-found message and never calls
`test_function`. -/
theorem C16_named_mode (specs : List puzzle_spec_t) (strtol : String → Int × String)
    (strtof : String → Nat × String) (fuel RAND_MAX : Nat) (rand : Nat → Nat)
    (argv : List String) (name : String) (args : Arr3 (Option Nat))
    (hargs : main_args strtol strtof argv = .ok (some name, args)) :
    (∀ (pre post : List puzzle_spec_t) (d : puzzle_spec_t), specs = pre ++ d :: post →
        (∀ s ∈ pre, s.name ≠ name) → d.name = name →
        (main specs strtol strtof fuel RAND_MAX rand argv).calls = [(d, args)]
        ∧ (main specs strtol strtof fuel RAND_MAX rand argv).results
            = [test_function fuel RAND_MAX rand 0 d args]
        ∧ (main specs strtol strtof fuel RAND_MAX rand argv).messages = [])
    ∧ ((∀ s ∈ specs, s.name ≠ name) →
        (main specs strtol strtof fuel RAND_MAX rand argv).calls = []
        ∧ (main specs strtol strtof fuel RAND_MAX rand argv).results = []
        ∧ (main specs strtol strtof fuel RAND_MAX rand argv).messages = [.not_found name]) := by
  constructor
  · intro pre post d hsplit hpre hd
    simp only [main, hargs, hsplit, run_named_first fuel RAND_MAX rand args name pre post d hpre hd,
      and_self]
  · intro hnone
    simp only [main, hargs, run_named_none fuel RAND_MAX rand args name specs hnone, and_self]

/-- Witness for C16: the registry `[bitAnd, rotateLeft]` and the command line
`btest rotateLeft 1`. -/
theorem C16_named_mode_witness :
    (main [bitAnd_spec or_candidate, rotateLeft_spec test_rotateLeft] strtol_c strtof_stub 40
        2147483647 (fun _ => 0) ["btest", "rotateLeft", "1"]).calls
      = [(rotateLeft_spec test_rotateLeft, ⟨some 1, none, none⟩)]
    ∧ (main [bitAnd_spec or_candidate, rotateLeft_spec test_rotateLeft] strtol_c strtof_stub 40
        2147483647 (fun _ => 0) ["btest", "rotateLeft", "1"]).results
      = [test_function 40 2147483647 (fun _ => 0) 0 (rotateLeft_spec test_rotateLeft)
          ⟨some 1, none, none⟩]
    ∧ (main [bitAnd_spec or_candidate, rotateLeft_spec test_rotateLeft] strtol_c strtof_stub 40
        2147483647 (fun _ => 0) ["btest", "rotateLeft", "1"]).messages = [] :=
  (C16_named_mode [bitAnd_spec or_candidate, rotateLeft_spec test_rotateLeft] strtol_c strtof_stub
    40 2147483647 (fun _ => 0) ["btest", "rotateLeft", "1"] "rotateLeft" ⟨some 1, none, none⟩
    rfl).1 [bitAnd_spec or_candidate] [] (rotateLeft_spec test_rotateLeft) rfl
    (by decide) rfl

/-- C17: for a name that matches no entry of the registry, `main` prints the
not-found message, calls nothing and returns the status `0`. -/
theorem C17_not_found_returns_zero (test impl : String → List Nat → Nat)
    (strtol : String → Int × String) (strtof : String → Nat × String) (fuel RAND_MAX : Nat)
    (rand : Nat → Nat) :
    (∀ s ∈ puzzle_specs test impl, s.name ≠ "noSuchPuzzle")
    ∧ (main (puzzle_specs test impl) strtol strtof fuel RAND_MAX rand
        ["btest", "noSuchPuzzle"]).ending = .returned 0
    ∧ (main (puzzle_specs test impl) strtol strtof fuel RAND_MAX rand
        ["btest", "noSuchPuzzle"]).messages = [.not_found "noSuchPuzzle"]
    ∧ (main (puzzle_specs test impl) strtol strtof fuel RAND_MAX rand
        ["btest", "noSuchPuzzle"]).calls = [] := by
  have hnone : ∀ s ∈ puzzle_specs test impl, s.name ≠ "noSuchPuzzle" := by
    intro s hs
    have hmem : s.name ∈ (puzzle_specs test impl).map (fun s => s.name) :=
      List.mem_map.mpr ⟨s, hs, rfl⟩
    rw [registry_names] at hmem
    intro heq
    rw [heq] at hmem
    revert hmem
    decide
  refine ⟨hnone, ?_, ?_, ?_⟩ <;>
    simp only [main, main_args,
      run_named_none fuel RAND_MAX rand ⟨none, none, none⟩ "noSuchPuzzle" _ hnone]

/-- C18 (as stated, refuted): `btest isPositive 1 2` gives two values to the
one-argument puzzle `isPositive`; `main` prints nothing, runs the puzzle
with its argument pinned to `1` and returns `0`. -/
theorem C18_extra_args_counterexample :
    ("isPositive", 1) ∈ (puzzle_specs isPositive_table isPositive_table).map
        (fun s => (s.name, s.num_args))
    ∧ (main (puzzle_specs isPositive_table isPositive_table) strtol_c strtof_stub 0 2147483647
        (fun _ => 0) ["btest", "isPositive", "1", "2"]).ending = .returned 0
    ∧ (main (puzzle_specs isPositive_table isPositive_table) strtol_c strtof_stub 0 2147483647
        (fun _ => 0) ["btest", "isPositive", "1", "2"]).messages = []
    ∧ (main (puzzle_specs isPositive_table isPositive_table) strtol_c strtof_stub 0 2147483647
        (fun _ => 0) ["btest", "isPositive", "1", "2"]).calls.map (fun c => (c.1.name, c.2))
        = [("isPositive", ⟨some 1, some 2, none⟩)]
    ∧ (main (puzzle_specs isPositive_table isPositive_table) strtol_c strtof_stub 0 2147483647
        (fun _ => 0) ["btest", "isPositive", "1", "2"]).results
        = [.done ⟨0, none, [[1]], 0⟩] := by
  decide

/-- C18 (amended): with more than three trailing arguments (`argc > 5`) `main`
prints the usage message and calls `exit(1)` without calling
`test_function`. Trailing arguments beyond the arity of the named puzzle are
not rejected: `test_function` reads `input_args` only below the arity, so
two accepted command lines for the same name whose pinned values agree below
the arity of the entries of that name end the same way, with the same test
results and messages. -/
theorem C18_extra_args_ignored (specs : List puzzle_spec_t) (strtol : String → Int × String)
    (strtof : String → Nat × String) (fuel RAND_MAX : Nat) (rand : Nat → Nat)
    (argv argv1 : List String) (name : String) (args args1 : Arr3 (Option Nat)) :
    (5 < argv.length →
      (main specs strtol strtof fuel RAND_MAX rand argv).ending = .exited 1
      ∧ (main specs strtol strtof fuel RAND_MAX rand argv).messages = [.usage]
      ∧ (main specs strtol strtof fuel RAND_MAX rand argv).calls = [])
    ∧ (main_args strtol strtof argv = .ok (some name, args) →
       main_args strtol strtof argv1 = .ok (some name, args1) →
       (∀ s ∈ specs, s.name = name → ∀ i < s.num_args, args.get i = args1.get i) →
        (main specs strtol strtof fuel RAND_MAX rand argv).ending
          = (main specs strtol strtof fuel RAND_MAX rand argv1).ending
        ∧ (main specs strtol strtof fuel RAND_MAX rand argv).results
          = (main specs strtol strtof fuel RAND_MAX rand argv1).results
        ∧ (main specs strtol strtof fuel RAND_MAX rand argv).messages
          = (main specs strtol strtof fuel RAND_MAX rand argv1).messages
        ∧ (main specs strtol strtof fuel RAND_MAX rand argv).calls.map (fun c => c.1.name)
          = (main specs strtol strtof fuel RAND_MAX rand argv1).calls.map (fun c => c.1.name)) := by
  constructor
  · intro hlen
    have hargs : main_args strtol strtof argv = .error .usage := by
      match argv, hlen with
      | _ :: _ :: _ :: _ :: _ :: _ :: _, _ => rfl
    simp only [main, hargs, and_self]
  · intro h1 h2 hagree
    simp only [main, h1, h2]
    exact run_named_congr fuel RAND_MAX rand args args1 name specs hagree

/-- Witness for C18 (amended): six command-line words, and `btest isPositive
1 2` against `btest isPositive 1`. -/
theorem C18_extra_args_ignored_witness :
    ((main (puzzle_specs isPositive_table isPositive_table) strtol_c strtof_stub 0 2147483647
        (fun _ => 0) ["btest", "isPositive", "1", "2", "3", "4"]).ending = .exited 1
      ∧ (main (puzzle_specs isPositive_table isPositive_table) strtol_c strtof_stub 0 2147483647
        (fun _ => 0) ["btest", "isPositive", "1", "2", "3", "4"]).messages = [.usage]
      ∧ (main (puzzle_specs isPositive_table isPositive_table) strtol_c strtof_stub 0 2147483647
        (fun _ => 0) ["btest", "isPositive", "1", "2", "3", "4"]).calls = [])
    ∧ ((main (puzzle_specs isPositive_table isPositive_table) strtol_c strtof_stub 0 2147483647
        (fun _ => 0) ["btest", "isPositive", "1", "2"]).ending
        = (main (puzzle_specs isPositive_table isPositive_table) strtol_c strtof_stub 0
          2147483647 (fun _ => 0) ["btest", "isPositive", "1"]).ending
      ∧ (main (puzzle_specs isPositive_table isPositive_table) strtol_c strtof_stub 0 2147483647
        (fun _ => 0) ["btest", "isPositive", "1", "2"]).results
        = (main (puzzle_specs isPositive_table isPositive_table) strtol_c strtof_stub 0
          2147483647 (fun _ => 0) ["btest", "isPositive", "1"]).results
      ∧ (main (puzzle_specs isPositive_table isPositive_table) strtol_c strtof_stub 0 2147483647
        (fun _ => 0) ["btest", "isPositive", "1", "2"]).messages
        = (main (puzzle_specs isPositive_table isPositive_table) strtol_c strtof_stub 0
          2147483647 (fun _ => 0) ["btest", "isPositive", "1"]).messages
      ∧ (main (puzzle_specs isPositive_table isPositive_table) strtol_c strtof_stub 0 2147483647
        (fun _ => 0) ["btest", "isPositive", "1", "2"]).calls.map (fun c => c.1.name)
        = (main (puzzle_specs isPositive_table isPositive_table) strtol_c strtof_stub 0
          2147483647 (fun _ => 0) ["btest", "isPositive", "1"]).calls.map (fun c => c.1.name)) :=
  ⟨(C18_extra_args_ignored (puzzle_specs isPositive_table isPositive_table) strtol_c strtof_stub
      0 2147483647 (fun _ => 0) ["btest", "isPositive", "1", "2", "3", "4"] [] "" ⟨none, none, none⟩
      ⟨none, none, none⟩).1 (by decide),
    (C18_extra_args_ignored (puzzle_specs isPositive_table isPositive_table) strtol_c strtof_stub
      0 2147483647 (fun _ => 0) ["btest", "isPositive", "1", "2"] ["btest", "isPositive", "1"]
      "isPositive" ⟨some 1, some 2, none⟩ ⟨some 1, none, none⟩).2 rfl rfl
      (by
        intro s hs hname i hi
        have hmem : (s.name, s.num_args) ∈ (puzzle_specs isPositive_table isPositive_table).map
            (fun s => (s.name, s.num_args)) := List.mem_map.mpr ⟨s, hs, rfl⟩
        rw [hname] at hmem
        have harity : s.num_args = 1 := by
          generalize s.num_args = n at hmem
          simp [puzzle_specs] at hmem
          exact hmem
        have hi0 : i = 0 := by omega
        subst hi0
        rfl)⟩

/-- C19: `get_num_val` accepts tokens that are no numeric literal. The integer
branch never looks at `endp`: for `"12abc"` it stores `12` and returns `1`,
for `"zzz"` (no digit at all) it stores `0` and returns `1`; `btest
isPositive 12abc` prints no message and runs the puzzle with its argument
pinned to `12`. -/
theorem C19_malformed_token_accepted :
    strtol_c "12abc" = (12, "abc")
    ∧ get_num_val strtol_c strtof_stub "12abc" 0 = (1, 12)
    ∧ strtol_c "zzz" = (0, "zzz")
    ∧ get_num_val strtol_c strtof_stub "zzz" 0 = (1, 0)
    ∧ (main (puzzle_specs isPositive_table isPositive_table) strtol_c strtof_stub 0 2147483647
        (fun _ => 0) ["btest", "isPositive", "12abc"]).messages = []
    ∧ (main (puzzle_specs isPositive_table isPositive_table) strtol_c strtof_stub 0 2147483647
        (fun _ => 0) ["btest", "isPositive", "12abc"]).calls.map (fun c => (c.1.name, c.2))
        = [("isPositive", ⟨some 12, none, none⟩)]
    ∧ (main (puzzle_specs isPositive_table isPositive_table) strtol_c strtof_stub 0 2147483647
        (fun _ => 0) ["btest", "isPositive", "12abc"]).ending = .returned 0 := by
  decide

/-- C22: the names of the registry entries are pairwise distinct, so the named
loop of `main`, which takes the first match, tests exactly the entry `d`
when asked for the name of any registered entry `d`. -/
theorem C22_registry_names_distinct (test impl : String → List Nat → Nat) (fuel RAND_MAX : Nat)
    (rand : Nat → Nat) (args : Arr3 (Option Nat)) (d : puzzle_spec_t)
    (hd : d ∈ puzzle_specs test impl) :
    ((puzzle_specs test impl).map (fun s => s.name)).Nodup
    ∧ (run_named fuel RAND_MAX rand args d.name (puzzle_specs test impl)).calls = [(d, args)]
    ∧ (run_named fuel RAND_MAX rand args d.name (puzzle_specs test impl)).messages = [] := by
  have hnd := registry_nodup test impl
  rw [run_named_of_nodup fuel RAND_MAX rand args _ d hnd hd]
  exact ⟨hnd, rfl, rfl⟩

/-- Witness for C22: the ninth entry, `rotateLeft`. -/
theorem C22_registry_names_distinct_witness :
    ((puzzle_specs isPositive_table isPositive_table).map (fun s => s.name)).Nodup
    ∧ (run_named 0 2147483647 (fun _ => 0) ⟨none, none, none⟩
        ((puzzle_specs isPositive_table isPositive_table).get ⟨8, by decide⟩).name
        (puzzle_specs isPositive_table isPositive_table)).calls
        = [((puzzle_specs isPositive_table isPositive_table).get ⟨8, by decide⟩,
            ⟨none, none, none⟩)]
    ∧ (run_named 0 2147483647 (fun _ => 0) ⟨none, none, none⟩
        ((puzzle_specs isPositive_table isPositive_table).get ⟨8, by decide⟩).name
        (puzzle_specs isPositive_table isPositive_table)).messages = [] :=
  C22_registry_names_distinct isPositive_table isPositive_table 0 2147483647 (fun _ => 0)
    ⟨none, none, none⟩ _ (List.get_mem _ 8 (by decide))

/-- C29: for a token without `x`, `e` or `.` whose value parsed by `strtol` is
`v`, and `*valp` initially `0`: `v >> 31` is `0`, `-1` or `1` exactly when
`-2^31 ≤ v ≤ 2^32 - 1`; in that case `get_num_val` returns `1` and stores
`v mod 2^32`, and otherwise it returns `0` and leaves `*valp` at `0`. -/
theorem C29_integer_token_range (strtol : String → Int × String)
    (strtof : String → Nat × String) (sval : String) (v : Int) (rest : String)
    (hk : (scan_kind sval.toList false false).2 = false) (hv : strtol sval = (v, rest)) :
    ((v >>> 31 = 0 ∨ v >>> 31 = -1 ∨ v >>> 31 = 1) ↔ (-(2 : Int) ^ 31 ≤ v ∧ v ≤ 2 ^ 32 - 1))
    ∧ ((-(2 : Int) ^ 31 ≤ v ∧ v ≤ 2 ^ 32 - 1) →
        get_num_val strtol strtof sval 0 = (1, toUInt32 v)
        ∧ ((toUInt32 v : Nat) : Int) = v % 2 ^ 32)
    ∧ (¬ (-(2 : Int) ^ 31 ≤ v ∧ v ≤ 2 ^ 32 - 1) →
        get_num_val strtol strtof sval 0 = (0, 0)) := by
  have hiff := upperbits_iff v
  have e1 : -(2 : Int) ^ 31 = -2147483648 := by norm_num
  have e2 : (2 : Int) ^ 32 - 1 = 4294967295 := by norm_num
  have e3 : (2 : Int) ^ 32 = 4294967296 := by norm_num
  rw [e1, e2, e3]
  obtain ⟨h, hs⟩ : ∃ h, scan_kind sval.toList false false = (h, false) :=
    ⟨(scan_kind sval.toList false false).1, Prod.ext rfl hk⟩
  refine ⟨hiff, ?_, ?_⟩
  · intro hr
    have hu := hiff.mpr hr
    exact ⟨by rw [get_num_val, hs]; simp [hv, hu], toUInt32_cast v⟩
  · intro hr
    have hu : ¬ (v >>> 31 = 0 ∨ v >>> 31 = -1 ∨ v >>> 31 = 1) := fun h => hr (hiff.mp h)
    rw [get_num_val, hs]
    simp [hv, hu]

/-- Witness for C29: the token `4294967295` read by `strtol_c`. -/
theorem C29_integer_token_range_witness :
    ((((4294967295 : Int) >>> 31 = 0 ∨ (4294967295 : Int) >>> 31 = -1
        ∨ (4294967295 : Int) >>> 31 = 1)
        ↔ (-(2 : Int) ^ 31 ≤ 4294967295 ∧ (4294967295 : Int) ≤ 2 ^ 32 - 1))
    ∧ ((-(2 : Int) ^ 31 ≤ 4294967295 ∧ (4294967295 : Int) ≤ 2 ^ 32 - 1) →
        get_num_val strtol_c strtof_stub "4294967295" 0 = (1, toUInt32 4294967295)
        ∧ ((toUInt32 4294967295 : Nat) : Int) = 4294967295 % 2 ^ 32)
    ∧ (¬ (-(2 : Int) ^ 31 ≤ 4294967295 ∧ (4294967295 : Int) ≤ 2 ^ 32 - 1) →
        get_num_val strtol_c strtof_stub "4294967295" 0 = (0, 0)))
    ∧ get_num_val strtol_c strtof_stub "4294967295" 0 = (1, 4294967295)
    ∧ get_num_val strtol_c strtof_stub "4294967296" 0 = (0, 0)
    ∧ get_num_val strtol_c strtof_stub "-2147483648" 0 = (1, 2147483648) :=
  ⟨C29_integer_token_range strtol_c strtof_stub "4294967295" 4294967295 "" (by decide)
      (by decide),
    by decide, by decide, by decide⟩

/-- C23: under the boundary/random policy with budget `b`, the output of
`gen_vals` is the concatenation, for `i = 0, ..., b - 1` in order, of
`min + i`, `max - i` (as `int` expressions), then `i` if `min ≤ i ≤ max`,
then `-i` if `min ≤ -i ≤ max`, then one draw of `random_val`; it holds
between `3 * b` and `5 * b` values, and exactly `5 * b` on the full `int`
range. While `min + i` and `max - i` stay in the `int` range they are the
exact sums. -/
theorem C23_sample_sequence (fuel RAND_MAX : Nat) (rand : Nat → Nat) (k : Nat) (min max : Int)
    (b : Nat) (hb : (b : Int) ≤ INT_MAX)
    (hp : policy_of min max false = .boundary_random) :
    ∃ vals : List Int,
      gen_vals fuel RAND_MAX rand k min max false (b : Int) = .done (vals, k + b)
      ∧ vals = (List.range b).flatMap (fun (i : Nat) =>
          [toInt32 (min + (i : Int)), toInt32 (max - (i : Int))]
            ++ (if (i : Int) ≥ min ∧ (i : Int) ≤ max then [(i : Int)] else [])
            ++ (if -(i : Int) ≥ min ∧ -(i : Int) ≤ max then [-(i : Int)] else [])
            ++ [random_val RAND_MAX (rand (k + i)) min max])
      ∧ 3 * b ≤ vals.length ∧ vals.length ≤ 5 * b
      ∧ (min = INT_MIN → max = INT_MAX → vals.length = 5 * b)
      ∧ (∀ i : Nat, i < b → INT_MIN ≤ min → min + (i : Int) ≤ INT_MAX →
          toInt32 (min + (i : Int)) = min + (i : Int))
      ∧ (∀ i : Nat, i < b → max ≤ INT_MAX → INT_MIN ≤ max - (i : Int) →
          toInt32 (max - (i : Int)) = max - (i : Int)) := by
  have hgen := gen_vals_sample fuel RAND_MAX rand k min max (b : Int) hp
  simp only [Int.toNat_ofNat] at hgen
  refine ⟨_, hgen, rfl, ?_, ?_, ?_, ?_, ?_⟩
  · have h := flatMap_length_ge
      (fun (j : Nat) => sample_iter RAND_MAX (rand (k + j)) min max (j : Int)) 3
      (List.range b) (fun j _ => by
        beta_reduce
        rw [sample_iter_eq, List.length_append]
        have := (sample_fixed_length min max (j : Int)).1
        simp only [List.length_cons, List.length_nil]
        omega)
    rw [List.length_range] at h
    exact h
  · have h := flatMap_length_le
      (fun (j : Nat) => sample_iter RAND_MAX (rand (k + j)) min max (j : Int)) 5
      (List.range b) (fun j _ => sample_iter_length_le _ _ _ _ _)
    rw [List.length_range] at h
    exact h
  · intro hmin hmax
    subst hmin hmax
    have h := flatMap_length_eq
      (fun (j : Nat) => sample_iter RAND_MAX (rand (k + j)) INT_MIN INT_MAX (j : Int)) 5
      (List.range b) (fun j hj => by
        have hjb := List.mem_range.mp hj
        have hI : INT_MAX = 2147483647 := rfl
        rw [hI] at hb
        beta_reduce
        rw [sample_iter_eq, List.length_append,
          sample_fixed_length_full (j : Int) (by omega) (by omega)]
        rfl)
    rw [List.length_range] at h
    exact h
  · intro i _ h1 h2
    exact toInt32_of_range _ (by have : INT_MIN = -2147483648 := rfl; omega) h2
  · intro i _ h1 h2
    exact toInt32_of_range _ h2 (by have : INT_MAX = 2147483647 := rfl; omega)

/-- Witness for C23: the full `int` range with the budget `707`. -/
theorem C23_sample_sequence_witness :
    ∃ vals : List Int,
      gen_vals 0 2147483647 (fun _ => 0) 0 INT_MIN INT_MAX false ((707 : Nat) : Int)
        = .done (vals, 0 + 707)
      ∧ vals = (List.range 707).flatMap (fun (i : Nat) =>
          [toInt32 (INT_MIN + (i : Int)), toInt32 (INT_MAX - (i : Int))]
            ++ (if (i : Int) ≥ INT_MIN ∧ (i : Int) ≤ INT_MAX then [(i : Int)] else [])
            ++ (if -(i : Int) ≥ INT_MIN ∧ -(i : Int) ≤ INT_MAX then [-(i : Int)] else [])
            ++ [random_val 2147483647 ((fun _ => 0) (0 + i)) INT_MIN INT_MAX])
      ∧ 3 * 707 ≤ vals.length ∧ vals.length ≤ 5 * 707
      ∧ (INT_MIN = INT_MIN → INT_MAX = INT_MAX → vals.length = 5 * 707)
      ∧ (∀ i : Nat, i < 707 → INT_MIN ≤ INT_MIN → INT_MIN + (i : Int) ≤ INT_MAX →
          toInt32 (INT_MIN + (i : Int)) = INT_MIN + (i : Int))
      ∧ (∀ i : Nat, i < 707 → INT_MAX ≤ INT_MAX → INT_MIN ≤ INT_MAX - (i : Int) →
          toInt32 (INT_MAX - (i : Int)) = INT_MAX - (i : Int)) :=
  C23_sample_sequence 0 2147483647 (fun _ => 0) 0 INT_MIN INT_MAX 707 (by decide) (by decide)

/-- C25: in the float-bits policy the loop runs `min(budget, 2^23)` times, and
for every offset `i` below that bound no store wraps (the patterns are the
exact sums and differences) and each stays within one exponent step of its
base: `N + i` has biased exponent `1` and `O + i` has `127`; for `i ≥ 1`,
`N - i` is a nonzero denormal (exponent `0`), `O - i` has exponent `126` and
`L - i` has `253`. -/
theorem C25_float_offsets (fuel RAND_MAX : Nat) (rand : Nat → Nat) (k : Nat) (min max : Int)
    (b i : Nat) (hi : i < Nat.min b (2 ^ 23)) :
    gen_vals fuel RAND_MAX rand k min max true (b : Int)
      = .done (((List.range (Nat.min b (2 ^ 23))).flatMap float_patterns
          ++ float_sentinels).map stored, k)
    ∧ (float_iter (i : Int)).map toUInt32
        = [ i, 0x80000000 + i,
            0x00800000 + i, 0x00800000 - i,
            0x80000000 + (0x00800000 + i), 0x80000000 + (0x00800000 - i),
            0x3f800000 + i, 0x3f800000 - i,
            0x80000000 + (0x3f800000 + i), 0x80000000 + (0x3f800000 - i),
            0x7f000000 - i, 0x80000000 + (0x7f000000 - i) ]
    ∧ i ≤ 0x00800000
    ∧ 0x80000000 + (0x3f800000 + i) < 2 ^ 32
    ∧ biased_exponent (0x00800000 + i) = 1
    ∧ biased_exponent (0x3f800000 + i) = 127
    ∧ (1 ≤ i →
        biased_exponent (0x00800000 - i) = 0 ∧ 1 ≤ mantissa (0x00800000 - i)
        ∧ 1 ≤ 0x00800000 - i
        ∧ biased_exponent (0x3f800000 - i) = 126
        ∧ biased_exponent (0x7f000000 - i) = 253) := by
  have hb : float_budget ((b : Int).toNat) = Nat.min b (2 ^ 23) := by simp [float_budget]
  have hi2 : i < 8388608 := by
    have hle := float_budget_le ((b : Int).toNat)
    rw [hb] at hle
    omega
  refine ⟨by rw [gen_vals_float, hb], ?_, by omega, by norm_num; omega, ?_, ?_, ?_⟩
  · rw [float_iter_eq i hi2, map_toUInt32_stored _ (fun w hw => (float_patterns_low i hi2 w hw).1)]
    simp only [float_patterns, sign_or i (by omega), sign_or (0x00800000 + i) (by omega),
      sign_or (0x00800000 - i) (by omega), sign_or (0x3f800000 + i) (by omega),
      sign_or (0x3f800000 - i) (by omega), sign_or (0x7f000000 - i) (by omega)]
  · simp only [biased_exponent, Nat.shiftRight_eq_div_pow]
    norm_num
    omega
  · simp only [biased_exponent, Nat.shiftRight_eq_div_pow]
    norm_num
    omega
  · intro h1
    simp only [biased_exponent, mantissa, Nat.shiftRight_eq_div_pow]
    norm_num
    omega

/-- Witness for C25: the budget `500000` and the offset `499999`. -/
theorem C25_float_offsets_witness :
    gen_vals 0 2147483647 (fun _ => 0) 0 0 (-1) true ((500000 : Nat) : Int)
      = .done (((List.range (Nat.min 500000 (2 ^ 23))).flatMap float_patterns
          ++ float_sentinels).map stored, 0)
    ∧ (float_iter ((499999 : Nat) : Int)).map toUInt32
        = [ 499999, 0x80000000 + 499999,
            0x00800000 + 499999, 0x00800000 - 499999,
            0x80000000 + (0x00800000 + 499999), 0x80000000 + (0x00800000 - 499999),
            0x3f800000 + 499999, 0x3f800000 - 499999,
            0x80000000 + (0x3f800000 + 499999), 0x80000000 + (0x3f800000 - 499999),
            0x7f000000 - 499999, 0x80000000 + (0x7f000000 - 499999) ]
    ∧ 499999 ≤ 0x00800000
    ∧ 0x80000000 + (0x3f800000 + 499999) < 2 ^ 32
    ∧ biased_exponent (0x00800000 + 499999) = 1
    ∧ biased_exponent (0x3f800000 + 499999) = 127
    ∧ (1 ≤ 499999 →
        biased_exponent (0x00800000 - 499999) = 0 ∧ 1 ≤ mantissa (0x00800000 - 499999)
        ∧ 1 ≤ 0x00800000 - 499999
        ∧ biased_exponent (0x3f800000 - 499999) = 126
        ∧ biased_exponent (0x7f000000 - 499999) = 253) :=
  C25_float_offsets 0 2147483647 (fun _ => 0) 0 0 (-1) 500000 499999 (by decide)

/-- C27: `MAX_TEST_VALS` does not bound what `gen_vals` stores. For `min = 0`,
`max = 6500000` the test `max - MAX_TEST_VALS <= min` selects the exhaustive
policy, which stores the `6500001` values `0 .. 6500000`: one more than the
`6500000` elements of a test-value array, whatever the budget; the model of
`test_function` reports the store past the end of the array. -/
theorem C27_count_exceeds_array (fuel RAND_MAX : Nat) (rand : Nat → Nat) (k : Nat) (b : Int) :
    policy_of 0 6500000 false = .exhaustive
    ∧ gen_vals (6500002 + fuel) RAND_MAX rand k 0 6500000 false b
        = .done ((List.range 6500001).map (fun (j : Nat) => (0 : Int) + (j : Int)), k)
    ∧ gen_count (gen_vals (6500002 + fuel) RAND_MAX rand k 0 6500000 false b) = some 6500001
    ∧ MAX_TEST_VALS = 6500000
    ∧ test_function (6500002 + fuel) RAND_MAX rand k
        { int_max_spec with arg_min := ⟨0, 0, 0⟩, arg_max := ⟨6500000, 0, 0⟩ }
        ⟨none, none, none⟩ = .overrun := by
  have hg : ∀ b : Int, gen_vals (6500002 + fuel) RAND_MAX rand k 0 6500000 false b
      = .done ((List.range 6500001).map (fun (j : Nat) => (0 : Int) + (j : Int)), k) :=
    fun b => gen_vals_exhaustive (6500002 + fuel) RAND_MAX rand k 0 6500000 b 6500001
      (by omega) (by omega) (by omega) (by omega) (by omega) (by omega)
  have hM : MAX_TEST_VALS = 6500000 := rfl
  refine ⟨by decide, hg b, ?_, hM, ?_⟩
  · rw [hg b]
    simp [gen_count]
  · have hlen : (((List.range 6500001).map (fun (j : Nat) => (0 : Int) + (j : Int))).length : Int)
        > MAX_TEST_VALS := by
      rw [hM]
      simp
    simp only [test_function, test_range_of, int_max_spec, sample_args, Arr3.get, is_float_of,
      hg, hlen, if_true]

/-- C24 (as stated, refuted): for `min = -3`, `max = 0`, `rand() = 1` and
`RAND_MAX = 2147483647` the weight lies in `[0, 1)` and the interpolation is
about `-2.9999999986`, computed in double (`-6442450941 / 2^31`) as well as
in real numbers; its floor is `-3`, and `random_val` returns `-2`. -/
theorem C24_random_val_counterexample :
    (-3 : Int) ≤ 0
    ∧ (0 : ℚ) ≤ (1 : ℚ) / 2147483647 ∧ (1 : ℚ) / 2147483647 < 1
    ∧ interpolation 2147483647 1 (-3) 0 = -6442450941 / 2147483648
    ∧ ⌊interpolation 2147483647 1 (-3) 0⌋ = -3
    ∧ ⌊((-3 : Int) : ℚ) * (1 - ((1 : Nat) : ℚ) / ((2147483647 : Nat) : ℚ))
        + ((0 : Int) : ℚ) * (((1 : Nat) : ℚ) / ((2147483647 : Nat) : ℚ))⌋ = -3
    ∧ random_val 2147483647 1 (-3) 0 = -2 := by
  refine ⟨by decide, by norm_num, by norm_num, interpolation_at_m3, ?_, ?_, ?_⟩
  · rw [interpolation_at_m3, Int.floor_eq_iff]
    norm_num
  · rw [Int.floor_eq_iff]
    norm_num
  · have hx : ¬ (0 : ℚ) ≤ -6442450941 / 2147483648 := by norm_num
    rw [random_val_eq, interpolation_at_m3, truncToInt_eq, if_neg hx, Int.ceil_eq_iff]
    norm_num

/-- C24 (amended): `random_val` returns the linear interpolation
`min * (1 - w) + max * w`, with `w = rand() / RAND_MAX` and every operation
rounded to double, truncated toward zero by the conversion to `int`: the
floor of the computed value when that value is non-negative, its ceiling when
it is negative. So the result is the floor exactly when the computed value
is non-negative or an integer, it is the floor plus one otherwise, and it is
the floor whenever `min` and `max` are non-negative and `rand() <= RAND_MAX`. -/
theorem C24_random_val_truncates (RAND_MAX r : Nat) (min max : Int) :
    random_val RAND_MAX r min max
        = (if 0 ≤ interpolation RAND_MAX r min max then ⌊interpolation RAND_MAX r min max⌋
          else ⌈interpolation RAND_MAX r min max⌉)
    ∧ (random_val RAND_MAX r min max = ⌊interpolation RAND_MAX r min max⌋
        ↔ (0 ≤ interpolation RAND_MAX r min max
          ∨ ((⌊interpolation RAND_MAX r min max⌋ : Int) : ℚ) = interpolation RAND_MAX r min max))
    ∧ (interpolation RAND_MAX r min max < 0 →
        ((⌊interpolation RAND_MAX r min max⌋ : Int) : ℚ) ≠ interpolation RAND_MAX r min max →
        random_val RAND_MAX r min max = ⌊interpolation RAND_MAX r min max⌋ + 1)
    ∧ (r ≤ RAND_MAX → 0 ≤ min → 0 ≤ max →
        random_val RAND_MAX r min max = ⌊interpolation RAND_MAX r min max⌋) := by
  have htr := truncToInt_eq (interpolation RAND_MAX r min max)
  rw [← random_val_eq] at htr
  refine ⟨htr, ?_, ?_, ?_⟩
  · by_cases h0 : 0 ≤ interpolation RAND_MAX r min max
    · rw [if_pos h0] at htr
      exact ⟨fun _ => Or.inl h0, fun _ => htr⟩
    · rw [if_neg h0] at htr
      rw [htr, ceil_eq_floor_iff]
      exact ⟨fun h => Or.inr h, fun h => h.resolve_left h0⟩
  · intro hneg hni
    rw [if_neg (not_le.mpr hneg)] at htr
    have h1 : ⌊interpolation RAND_MAX r min max⌋ ≤ ⌈interpolation RAND_MAX r min max⌉ :=
      Int.floor_le_ceil _
    have h2 : ⌈interpolation RAND_MAX r min max⌉ ≤ ⌊interpolation RAND_MAX r min max⌋ + 1 :=
      Int.ceil_le_floor_add_one _
    have h3 : ⌈interpolation RAND_MAX r min max⌉ ≠ ⌊interpolation RAND_MAX r min max⌋ :=
      fun h => hni ((ceil_eq_floor_iff _).mp h)
    rw [htr]
    omega
  · intro hr hmin hmax
    rw [if_pos (interpolation_nonneg RAND_MAX r min max hr hmin hmax)] at htr
    exact htr

/-- Witness for C24: with `min = 0` and `max = 7` the result is the floor of
the computed interpolation; with `min = -3`, `max = 0` and `rand() = 1` it is
the floor plus one. -/
theorem C24_random_val_truncates_witness :
    random_val 2147483647 1073741824 0 7 = ⌊interpolation 2147483647 1073741824 0 7⌋
    ∧ random_val 2147483647 1 (-3) 0 = ⌊interpolation 2147483647 1 (-3) 0⌋ + 1 :=
  ⟨(C24_random_val_truncates 2147483647 1073741824 0 7).2.2.2 (by decide) (by decide) (by decide),
    (C24_random_val_truncates 2147483647 1 (-3) 0).2.2.1
      (by rw [interpolation_at_m3]; norm_num)
      (by
        rw [interpolation_at_m3]
        intro h
        have hf : ⌊(-6442450941 / 2147483648 : ℚ)⌋ = -3 := by
          rw [Int.floor_eq_iff]
          norm_num
        rw [hf] at h
        norm_num at h)⟩

/-- C26: two descriptors with the same arity, functions and bounds whose
argument kinds differ only in `INT_ARG` versus `UNSIGNED_ARG` and whose
return kinds differ only in `INT_RET` versus `UNSIGNED_RET` make
`test_function` behave identically on the same pinned values and random
draws: the same code, the same diagnostic (the bit patterns of the first
mismatching tuple and of both results) and the same evaluated tuples. -/
theorem C26_signedness_irrelevant (fuel RAND_MAX : Nat) (rand : Nat → Nat) (k : Nat)
    (spec spec1 : puzzle_spec_t) (args : Arr3 (Option Nat))
    (hn : spec.num_args = spec1.num_args)
    (hk : ∀ i, sign_variant (spec.arg_types.get i) (spec1.arg_types.get i))
    (hret : ret_variant spec.return_type spec1.return_type)
    (hmin : spec.arg_min = spec1.arg_min) (hmax : spec.arg_max = spec1.arg_max)
    (htest : spec.test_func = spec1.test_func) (himpl : spec.impl_func = spec1.impl_func) :
    test_function fuel RAND_MAX rand k spec args = test_function fuel RAND_MAX rand k spec1 args := by
  have hf : ∀ i, is_float_of (spec.arg_types.get i) = is_float_of (spec1.arg_types.get i) :=
    fun i => is_float_of_variant _ _ (hk i)
  rcases htr : test_range_of spec.num_args with _ | tr
  · have htr1 : test_range_of spec1.num_args = none := by rw [← hn]; exact htr
    simp only [test_function, htr, htr1]
  · have htr1 : test_range_of spec1.num_args = some tr := by rw [← hn]; exact htr
    have hsame := sample_args_spec_congr fuel RAND_MAX rand spec spec1 args tr hf hmin hmax
      spec.num_args 0 k []
    rcases hs : sample_args fuel RAND_MAX rand spec args tr spec.num_args 0 k []
      with ⟨sets, k1⟩ | ⟨s1, e1⟩ | _ | _
    · have hs1 : sample_args fuel RAND_MAX rand spec1 args tr spec1.num_args 0 k []
          = .done (sets, k1) := by rw [← hn, ← hsame]; exact hs
      rcases hr : ret_ctype spec.return_type with _ | rt
      · have hr1 := (ret_ctype_variant _ _ hret).mp hr
        simp only [test_function, htr, htr1, hs, hs1, dispatch_bad_ret spec sets k1 hr,
          dispatch_bad_ret spec1 sets k1 hr1]
      · obtain ⟨rt1, hr1⟩ : ∃ rt1, ret_ctype spec1.return_type = some rt1 := by
          rcases h1 : ret_ctype spec1.return_type with _ | rt1
          · have := (ret_ctype_variant _ _ hret).mpr h1
            rw [hr] at this
            exact absurd this (by simp)
          · exact ⟨rt1, rfl⟩
        rw [test_function_done fuel RAND_MAX rand k spec args tr sets k1 rt htr hs hr,
          test_function_done fuel RAND_MAX rand k spec1 args tr sets k1 rt1 htr1 hs1 hr1,
          compare_body_congr spec spec1 htest himpl]
    · have hs1 : sample_args fuel RAND_MAX rand spec1 args tr spec1.num_args 0 k []
          = .exit s1 e1 := by rw [← hn, ← hsame]; exact hs
      simp only [test_function, htr, htr1, hs, hs1]
    · have hs1 : sample_args fuel RAND_MAX rand spec1 args tr spec1.num_args 0 k []
          = .overrun := by rw [← hn, ← hsame]; exact hs
      simp only [test_function, htr, htr1, hs, hs1]
    · have hs1 : sample_args fuel RAND_MAX rand spec1 args tr spec1.num_args 0 k []
          = .nofuel := by rw [← hn, ← hsame]; exact hs
      simp only [test_function, htr, htr1, hs, hs1]

/-- Witness for C26: `bitAnd` with an OR candidate, pinned to `(5, 3)`, against
its variant with `unsigned` arguments and result. -/
theorem C26_signedness_irrelevant_witness :
    test_function 0 2147483647 (fun _ => 0) 0 (bitAnd_spec or_candidate) ⟨some 5, some 3, none⟩
      = test_function 0 2147483647 (fun _ => 0) 0
          { bitAnd_spec or_candidate with
            return_type := .UNSIGNED_RET,
            arg_types := ⟨.UNSIGNED_ARG, .UNSIGNED_ARG, .UNUSED_ARG⟩ }
          ⟨some 5, some 3, none⟩ :=
  C26_signedness_irrelevant 0 2147483647 (fun _ => 0) 0 (bitAnd_spec or_candidate)
    { bitAnd_spec or_candidate with
      return_type := .UNSIGNED_RET,
      arg_types := ⟨.UNSIGNED_ARG, .UNSIGNED_ARG, .UNUSED_ARG⟩ }
    ⟨some 5, some 3, none⟩ rfl
    (by
      intro i
      match i with
      | 0 => exact Or.inr (Or.inl ⟨rfl, rfl⟩)
      | 1 => exact Or.inr (Or.inl ⟨rfl, rfl⟩)
      | _ + 2 => exact Or.inl rfl)
    (Or.inr (Or.inl ⟨rfl, rfl⟩)) rfl rfl rfl rfl

/-- C28: the output of `gen_vals` depends on the random source only through
the draws of `random_val`. Under the float-bits and the exhaustive policy two
runs with different random sources store the same sequence; under the
boundary/random policy each run stores, for every `i` below the budget, the
same values `sample_fixed min max i` followed by its own draw, so the two
sequences have the same length and can differ only at the last position of
each group. -/
theorem C28_random_only_in_draws (fuel RAND_MAX RAND_MAX1 : Nat) (rand rand1 : Nat → Nat)
    (k k1 : Nat) (min max : Int) (f : Bool) (b : Int) :
    (policy_of min max f ≠ .boundary_random →
      gen_output (gen_vals fuel RAND_MAX rand k min max f b)
        = gen_output (gen_vals fuel RAND_MAX1 rand1 k1 min max f b))
    ∧ (policy_of min max f = .boundary_random →
      gen_output (gen_vals fuel RAND_MAX rand k min max f b)
        = some ((List.range b.toNat).flatMap (fun (i : Nat) =>
            sample_fixed min max (i : Int) ++ [random_val RAND_MAX (rand (k + i)) min max]))
      ∧ gen_output (gen_vals fuel RAND_MAX1 rand1 k1 min max f b)
        = some ((List.range b.toNat).flatMap (fun (i : Nat) =>
            sample_fixed min max (i : Int) ++ [random_val RAND_MAX1 (rand1 (k1 + i)) min max]))
      ∧ ((List.range b.toNat).flatMap (fun (i : Nat) =>
            sample_fixed min max (i : Int) ++ [random_val RAND_MAX (rand (k + i)) min max])).length
        = ((List.range b.toNat).flatMap (fun (i : Nat) =>
            sample_fixed min max (i : Int)
              ++ [random_val RAND_MAX1 (rand1 (k1 + i)) min max])).length) := by
  constructor
  · intro hp
    cases f with
    | true => rw [gen_vals_float, gen_vals_float]; rfl
    | false =>
      have hex : policy_of min max false = .exhaustive := by
        have := policy_of_not_float min max
        cases hq : policy_of min max false <;> simp_all
      rw [(gen_vals_by_policy fuel RAND_MAX rand k min max b).1 hex,
        (gen_vals_by_policy fuel RAND_MAX1 rand1 k1 min max b).1 hex]
      cases exhaust_loop fuel min max [] <;> rfl
  · intro hp
    cases f with
    | true => simp [policy_of] at hp
    | false =>
      rw [gen_vals_sample fuel RAND_MAX rand k min max b hp,
        gen_vals_sample fuel RAND_MAX1 rand1 k1 min max b hp]
      refine ⟨rfl, rfl, ?_⟩
      simp only [List.length_flatMap]
      congr 1
      apply List.map_congr_left
      intro i _
      simp only [Function.comp, List.length_append, List.length_cons, List.length_nil]

/-- Witness for C28: the range `[0, 31]` (exhaustive) and the full `int` range
(boundary/random) with two random sources. -/
theorem C28_random_only_in_draws_witness :
    gen_output (gen_vals 40 2147483647 (fun _ => 0) 0 0 31 false 707)
      = gen_output (gen_vals 40 32767 (fun n => n) 5 0 31 false 707)
    ∧ (gen_output (gen_vals 40 2147483647 (fun _ => 0) 0 INT_MIN INT_MAX false 2)
        = some ((List.range (2 : Int).toNat).flatMap (fun (i : Nat) =>
            sample_fixed INT_MIN INT_MAX (i : Int)
              ++ [random_val 2147483647 ((fun _ => 0) (0 + i)) INT_MIN INT_MAX]))
      ∧ gen_output (gen_vals 40 32767 (fun n => n) 5 INT_MIN INT_MAX false 2)
        = some ((List.range (2 : Int).toNat).flatMap (fun (i : Nat) =>
            sample_fixed INT_MIN INT_MAX (i : Int)
              ++ [random_val 32767 ((fun n => n) (5 + i)) INT_MIN INT_MAX]))
      ∧ ((List.range (2 : Int).toNat).flatMap (fun (i : Nat) =>
            sample_fixed INT_MIN INT_MAX (i : Int)
              ++ [random_val 2147483647 ((fun _ => 0) (0 + i)) INT_MIN INT_MAX])).length
        = ((List.range (2 : Int).toNat).flatMap (fun (i : Nat) =>
            sample_fixed INT_MIN INT_MAX (i : Int)
              ++ [random_val 32767 ((fun n => n) (5 + i)) INT_MIN INT_MAX])).length) :=
  ⟨(C28_random_only_in_draws 40 2147483647 32767 (fun _ => 0) (fun n => n) 0 5 0 31 false 707).1
      (by decide),
    (C28_random_only_in_draws 40 2147483647 32767 (fun _ => 0) (fun n => n) 0 5 INT_MIN INT_MAX
      false 2).2 (by decide)⟩

/-- C21, counterexample: the registered `rotateLeft` with a candidate that
always returns 5 and its first argument pinned to 1 evaluates the tuple
`(1, 0)` only, where the oracle returns 1, and returns `-1` there: the
tuples `(1, 1), .., (1, 31)` are not evaluated. -/
theorem C21_rotateLeft_counterexample :
    rotateLeft_spec (fun _ => 5) ∈ puzzle_specs (fun _ => test_rotateLeft) (fun _ _ => 5)
    ∧ test_function 40 2147483647 (fun _ => 0) 0 (rotateLeft_spec (fun _ => 5))
        ⟨some 1, none, none⟩
      = .done ⟨-1, some ⟨[1, 0], 5, 1⟩, [[1, 0]], 0⟩ := by
  constructor
  · simp [puzzle_specs, rotateLeft_spec]
  · decide

/-- C21, amended: for the registered puzzle `rotateLeft` with only its first
argument pinned to `v`, `test_function` walks the single row `(v, 0), (v, 1),
.., (v, 31)` in that order and stops at the first tuple on which the
candidate and the oracle differ. When they agree on the whole row it
evaluates exactly the 32 tuples and returns 0; when `(v, n)` is the first
mismatch it evaluates exactly `(v, 0), .., (v, n)`, reports `(v, n)` and
returns `-1`. No random draw is made. -/
theorem C21_rotateLeft_row (test impl : String → List Nat → Nat) (fuel RAND_MAX : Nat)
    (rand : Nat → Nat) (k : Nat) (s : puzzle_spec_t) (hs : s ∈ puzzle_specs test impl)
    (hname : s.name = "rotateLeft") (v : Nat) (hfuel : 32 < fuel) :
    ((∀ n : Nat, n < 32 → agree s [toInt32 v, (n : Int)]) →
      test_function fuel RAND_MAX rand k s ⟨some v, none, none⟩
        = .done ⟨0, none,
            (List.range 32).map (fun (j : Nat) => patterns [toInt32 v, (j : Int)]), k⟩)
    ∧ (∀ n : Nat, n < 32 → (∀ j : Nat, j < n → agree s [toInt32 v, (j : Int)]) → ¬ agree s [toInt32 v, (n : Int)] →
      test_function fuel RAND_MAX rand k s ⟨some v, none, none⟩
        = .done ⟨-1, some (report_at s [toInt32 v, (n : Int)]),
            (List.range (n + 1)).map (fun (j : Nat) => patterns [toInt32 v, (j : Int)]), k⟩) := by
  have hspec := registry_rotateLeft test impl s hs hname
  have htr : test_range_of s.num_args = some 707 := by
    rw [hspec]; simp only [test_range_of, sqrt_budget]
  have hr : ret_ctype s.return_type = some .int := by rw [hspec]; rfl
  have hsets := rotateLeft_sets test impl fuel RAND_MAX rand k s hs hname v ((707 : Nat) : Int) hfuel
  have hcross : cross [[toInt32 v], (List.range 32).map (fun (j : Nat) => (j : Int))]
      = (List.range 32).map (fun (j : Nat) => [toInt32 v, (j : Int)]) := by
    rw [cross_pair]
    simp only [List.flatMap_cons, List.flatMap_nil, List.append_nil, List.map_map]
    rfl
  constructor
  · intro hall
    rw [test_function_pass fuel RAND_MAX rand k s ⟨some v, none, none⟩ 707 _ k .int htr hsets hr
      (by
        rw [hcross]
        intro t ht
        rcases List.mem_map.mp ht with ⟨j, hj, rfl⟩
        exact hall j (List.mem_range.mp hj)), hcross, List.map_map]
    rfl
  · intro n hn hpre hbad
    rw [test_function_fail fuel RAND_MAX rand k s ⟨some v, none, none⟩ 707 _ k .int htr hsets hr
      ((List.range n).map (fun (j : Nat) => [toInt32 v, (j : Int)]))
      ((List.range (32 - n - 1)).map (fun (j : Nat) => [toInt32 v, ((n + 1 + j : Nat) : Int)]))
      [toInt32 v, (n : Int)]
      (by rw [hcross]; exact map_range_split (fun (j : Nat) => [toInt32 v, (j : Int)]) 32 n hn)
      (by
        intro t ht
        rcases List.mem_map.mp ht with ⟨j, hj, rfl⟩
        exact hpre j (List.mem_range.mp hj))
      hbad]
    rw [List.range_succ, List.map_append, List.map_append, List.map_map]
    rfl

/-- Witness for C21: the registered `rotateLeft` with the oracle as candidate
and its first argument pinned to 1 evaluates the 32 tuples of the row and
returns 0. -/
theorem C21_rotateLeft_row_witness :
    rotateLeft_spec test_rotateLeft
        ∈ puzzle_specs (fun _ => test_rotateLeft) (fun _ => test_rotateLeft)
    ∧ test_function 40 2147483647 (fun _ => 0) 0 (rotateLeft_spec test_rotateLeft)
          ⟨some 1, none, none⟩
        = .done ⟨0, none,
            (List.range 32).map (fun (j : Nat) => patterns [toInt32 ((1 : Nat) : Int), (j : Int)]),
            0⟩ :=
  ⟨by simp [puzzle_specs, rotateLeft_spec],
    (C21_rotateLeft_row (fun _ => test_rotateLeft) (fun _ => test_rotateLeft) 40 2147483647
      (fun _ => 0) 0 (rotateLeft_spec test_rotateLeft)
      (by simp [puzzle_specs, rotateLeft_spec]) rfl 1 (by decide)).1 (fun _ _ => rfl)⟩

/-- C30: `test_floatIsEqual` is IEEE-754 equality on bit patterns. For 32-bit
`uf` and `ug` it is 0 whenever one of them is a NaN pattern, also when
`uf = ug` (both `0x7fc00000`); it is 1 for `+0` against `-0` in either order;
and for every other pair it is 1 exactly when `uf = ug`. -/
theorem C30_floatIsEqual (uf ug : Nat) (hf : uf < 4294967296) (hg : ug < 4294967296) :
    ((is_nan_pattern uf ∨ is_nan_pattern ug) → test_floatIsEqual [uf, ug] = 0)
    ∧ test_floatIsEqual [0x7fc00000, 0x7fc00000] = 0
    ∧ test_floatIsEqual [0x00000000, 0x80000000] = 1
    ∧ test_floatIsEqual [0x80000000, 0x00000000] = 1
    ∧ (¬ is_nan_pattern uf → ¬ is_nan_pattern ug →
        ¬ (uf = 0x00000000 ∧ ug = 0x80000000) → ¬ (uf = 0x80000000 ∧ ug = 0x00000000) →
        (test_floatIsEqual [uf, ug] = 1 ↔ uf = ug)) := by
  refine ⟨?_, by decide, by decide, by decide, ?_⟩
  · intro h
    simp only [test_floatIsEqual, List.getD_cons_zero, List.getD_cons_succ, float_of_bits]
    rcases h with ⟨he, hm⟩ | ⟨he, hm⟩
    · simp [he, hm, float_eq]
    · rw [if_pos he, if_neg hm, float_eq_nan_right]
      simp
  · intro hnf hng hz hz1
    simp only [test_floatIsEqual, List.getD_cons_zero, List.getD_cons_succ, float_of_bits]
    have hfin := finite_eq_iff uf ug hf hg hz hz1
    by_cases he : biased_exponent uf = 255
    · have hm : mantissa uf = 0 := by
        by_contra hne
        exact hnf ⟨he, hne⟩
      by_cases he1 : biased_exponent ug = 255
      · have hm1 : mantissa ug = 0 := by
          by_contra hne
          exact hng ⟨he1, hne⟩
        simp only [he, he1, hm, hm1, if_true, float_eq]
        constructor
        · intro h
          have hs : sign_bit uf = sign_bit ug := by
            by_contra hne
            simp [hne] at h
          exact pattern_ext uf ug hf hg hs (by rw [he, he1]) (by rw [hm, hm1])
        · intro h
          simp [h]
      · simp only [he, he1, hm, if_true, if_false, float_eq]
        constructor
        · intro h
          simp at h
        · intro h
          rw [h] at he
          exact absurd he he1
    · by_cases he1 : biased_exponent ug = 255
      · have hm1 : mantissa ug = 0 := by
          by_contra hne
          exact hng ⟨he1, hne⟩
        simp only [he, he1, hm1, if_true, if_false, float_eq]
        constructor
        · intro h
          simp at h
        · intro h
          rw [h] at he
          exact absurd he1 he
      · simp only [he, he1, if_false, float_eq]
        rw [← hfin]
        simp

/-- Witness for C30: `1.0f` against itself, two 32-bit patterns. -/
theorem C30_floatIsEqual_witness :
    ((is_nan_pattern 0x3f800000 ∨ is_nan_pattern 0x3f800000) →
        test_floatIsEqual [0x3f800000, 0x3f800000] = 0)
    ∧ test_floatIsEqual [0x7fc00000, 0x7fc00000] = 0
    ∧ test_floatIsEqual [0x00000000, 0x80000000] = 1
    ∧ test_floatIsEqual [0x80000000, 0x00000000] = 1
    ∧ (¬ is_nan_pattern 0x3f800000 → ¬ is_nan_pattern 0x3f800000 →
        ¬ (0x3f800000 = 0x00000000 ∧ 0x3f800000 = 0x80000000) →
        ¬ (0x3f800000 = 0x80000000 ∧ 0x3f800000 = 0x00000000) →
        (test_floatIsEqual [0x3f800000, 0x3f800000] = 1 ↔ 0x3f800000 = 0x3f800000)) :=
  C30_floatIsEqual 0x3f800000 0x3f800000 (by decide) (by decide)

/-- C31: every descriptor of the registry is well-formed: its arity is
between 1 and 3, each slot below the arity has a recognised argument kind,
each slot at or above the arity is `UNUSED_ARG`, its return kind is
`INT_RET` or `UNSIGNED_RET`, and every non-float slot has
`arg_min <= arg_max`. Hence `test_function`, given fuel for the largest
enumerated range (`0 .. 255`), reaches no `exit(1)` on a registered
descriptor, with or without pinned arguments: it returns `0` or `-1`. -/
theorem C31_registry_well_formed (test impl : String → List Nat → Nat) (fuel RAND_MAX : Nat)
    (rand : Nat → Nat) (hfuel : 256 < fuel) (s : puzzle_spec_t)
    (hs : s ∈ puzzle_specs test impl) :
    (1 ≤ s.num_args ∧ s.num_args ≤ 3)
    ∧ (∀ i < s.num_args, s.arg_types.get i = .INT_ARG ∨ s.arg_types.get i = .UNSIGNED_ARG
        ∨ s.arg_types.get i = .FLOAT_AS_UNSIGNED_ARG)
    ∧ (∀ i : Nat, s.num_args ≤ i → i < 3 → s.arg_types.get i = .UNUSED_ARG)
    ∧ (s.return_type = .INT_RET ∨ s.return_type = .UNSIGNED_RET)
    ∧ (∀ i < 3, s.arg_types.get i ≠ .FLOAT_AS_UNSIGNED_ARG → s.arg_min.get i ≤ s.arg_max.get i)
    ∧ ∀ (input_args : Arr3 (Option Nat)) (k : Nat), ∃ o,
        test_function fuel RAND_MAX rand k s input_args = .done o
        ∧ (o.code = 0 ∨ o.code = -1) := by
  have htotal : ∀ (input_args : Arr3 (Option Nat)) (k : Nat), ∃ o,
      test_function fuel RAND_MAX rand k s input_args = .done o
      ∧ (o.code = 0 ∨ o.code = -1) := by
    obtain ⟨tr, rt, htr, hr, _, hslots⟩ :=
      registry_slot_count test impl fuel RAND_MAX rand hfuel s hs
    intro input_args k
    refine test_function_total fuel RAND_MAX rand k s input_args tr rt htr hr ?_
    intro i hi
    obtain ⟨f, hf, hg⟩ := hslots i hi
    refine ⟨f, hf, Or.inr ?_⟩
    intro k0
    obtain ⟨vals, k1, hgv, hl⟩ := hg k0
    refine ⟨vals, k1, hgv, ?_⟩
    have hle := claimed_count_le s.name i
    have hM : MAX_TEST_VALS = 6500000 := rfl
    rw [hM, hl]
    omega
  have hbounds : INT_MIN ≤ INT_MAX := by decide
  refine ⟨?_, ?_, ?_, ?_, ?_, htotal⟩
  all_goals clear htotal
  all_goals
    simp only [puzzle_specs, List.mem_cons, List.mem_singleton, List.not_mem_nil, or_false] at hs
  · rcases hs with rfl | rfl | rfl | rfl | rfl | rfl | rfl | rfl | rfl | rfl | rfl | rfl <;>
      exact ⟨by simp, by simp⟩
  · rcases hs with rfl | rfl | rfl | rfl | rfl | rfl | rfl | rfl | rfl | rfl | rfl | rfl <;>
      intro i hi <;> simp only at hi <;>
      (have hi3 : i = 0 ∨ i = 1 ∨ i = 2 := by omega) <;>
      rcases hi3 with rfl | rfl | rfl <;>
      first
        | (exfalso; omega)
        | simp [Arr3.get]
  · rcases hs with rfl | rfl | rfl | rfl | rfl | rfl | rfl | rfl | rfl | rfl | rfl | rfl <;>
      intro i hi hi3 <;> simp only at hi <;>
      (have hi4 : i = 0 ∨ i = 1 ∨ i = 2 := by omega) <;>
      rcases hi4 with rfl | rfl | rfl <;>
      first
        | (exfalso; omega)
        | simp [Arr3.get]
  · rcases hs with rfl | rfl | rfl | rfl | rfl | rfl | rfl | rfl | rfl | rfl | rfl | rfl <;>
      simp
  · rcases hs with rfl | rfl | rfl | rfl | rfl | rfl | rfl | rfl | rfl | rfl | rfl | rfl <;>
      intro i hi <;>
      (have hi3 : i = 0 ∨ i = 1 ∨ i = 2 := by omega) <;>
      rcases hi3 with rfl | rfl | rfl <;>
      simp [Arr3.get, hbounds]

/-- Witness for C31: the seventh entry, `replaceByte`. -/
theorem C31_registry_well_formed_witness :
    (1 ≤ ((puzzle_specs isPositive_table isPositive_table).get ⟨6, by decide⟩).num_args
      ∧ ((puzzle_specs isPositive_table isPositive_table).get ⟨6, by decide⟩).num_args ≤ 3)
    ∧ ∀ (input_args : Arr3 (Option Nat)) (k : Nat), ∃ o,
        test_function 300 2147483647 (fun _ => 0) k
          ((puzzle_specs isPositive_table isPositive_table).get ⟨6, by decide⟩) input_args
          = .done o
        ∧ (o.code = 0 ∨ o.code = -1) :=
  ⟨(C31_registry_well_formed isPositive_table isPositive_table 300 2147483647 (fun _ => 0)
      (by decide) _ (List.get_mem _ 6 (by decide))).1,
    (C31_registry_well_formed isPositive_table isPositive_table 300 2147483647 (fun _ => 0)
      (by decide) _ (List.get_mem _ 6 (by decide))).2.2.2.2.2⟩

/-- C32: for every slot of every registered descriptor, `gen_vals` called with
the arity-scaled budget (`500000`, `707` or `79`) and fuel for the largest
enumerated range returns, and the count it returns is `claimed_count`:
`6000004` for the argument of `floatScale2`, `8488` for each argument of
`floatIsEqual`, `2500000` and `3535` for a full-range `int` argument of a
1-argument and of a 2-argument puzzle, `32` for the shift count of
`rotateLeft` and each argument of `bitMask`, and `395`, `4`, `256` for the
arguments of `replaceByte`; each is at most `MAX_TEST_VALS = 6500000`. -/
theorem C32_registry_counts (test impl : String → List Nat → Nat) (fuel RAND_MAX : Nat)
    (rand : Nat → Nat) (hfuel : 256 < fuel) (s : puzzle_spec_t)
    (hs : s ∈ puzzle_specs test impl) (i : Nat) (hi : i < s.num_args) :
    ∃ (tr : Nat) (f : Bool), test_range_of s.num_args = some tr
      ∧ (tr = 500000 ∨ tr = 707 ∨ tr = 79)
      ∧ is_float_of (s.arg_types.get i) = some f
      ∧ (∀ k, gen_count (gen_vals fuel RAND_MAX rand k (s.arg_min.get i) (s.arg_max.get i) f
            (tr : Int)) = some (claimed_count s.name i : Int))
      ∧ (claimed_count s.name i : Int) ≤ MAX_TEST_VALS
      ∧ MAX_TEST_VALS = 6500000 := by
  obtain ⟨tr, rt, htr, hr, htr3, hslots⟩ :=
    registry_slot_count test impl fuel RAND_MAX rand hfuel s hs
  obtain ⟨f, hf, hg⟩ := hslots i hi
  refine ⟨tr, f, htr, htr3, hf, ?_, ?_, rfl⟩
  · intro k
    obtain ⟨vals, k1, hgv, hl⟩ := hg k
    rw [hgv]
    simp only [gen_count, hl]
  · have hle := claimed_count_le s.name i
    have hM : MAX_TEST_VALS = 6500000 := rfl
    rw [hM]
    omega

/-- Witness for C32: the third argument of `replaceByte` (range `0 .. 255`,
budget `79`) gets `256` values. -/
theorem C32_registry_counts_witness :
    ∃ (tr : Nat) (f : Bool),
      test_range_of ((puzzle_specs isPositive_table isPositive_table).get ⟨6, by decide⟩).num_args
        = some tr
      ∧ (tr = 500000 ∨ tr = 707 ∨ tr = 79)
      ∧ is_float_of
          (((puzzle_specs isPositive_table isPositive_table).get ⟨6, by decide⟩).arg_types.get 2)
        = some f
      ∧ (∀ k, gen_count (gen_vals 300 2147483647 (fun _ => 0) k
            (((puzzle_specs isPositive_table isPositive_table).get ⟨6, by decide⟩).arg_min.get 2)
            (((puzzle_specs isPositive_table isPositive_table).get ⟨6, by decide⟩).arg_max.get 2)
            f (tr : Int))
          = some (claimed_count
              ((puzzle_specs isPositive_table isPositive_table).get ⟨6, by decide⟩).name 2 : Int))
      ∧ (claimed_count
            ((puzzle_specs isPositive_table isPositive_table).get ⟨6, by decide⟩).name 2 : Int)
          ≤ MAX_TEST_VALS
      ∧ MAX_TEST_VALS = 6500000 :=
  C32_registry_counts isPositive_table isPositive_table 300 2147483647 (fun _ => 0) (by decide)
    _ (List.get_mem _ 6 (by decide)) 2 (by decide)

/-- C33, counterexample: a descriptor of arity 2 whose unpinned `INT_ARG` slot 0
has the empty range `[1, 0]` and whose slot 1 has the kind `UNUSED_ARG`:
`gen_vals` returns 0 values for slot 0, and `test_function` ends in `exit(1)`
instead of returning 0. -/
theorem C33_empty_range_counterexample :
    gen_vals 1 2147483647 (fun _ => 0) 0 1 0 false 707 = .done ([], 0)
    ∧ test_function 1 2147483647 (fun _ => 0) 0
        { bad_kind_spec with arg_min := ⟨1, 0, 0⟩, arg_max := ⟨0, 0, 0⟩ }
        ⟨none, none, none⟩ = .exit 1 [] := by
  constructor <;> decide

/-- C33, amended: on a descriptor of arity at most 3 with a recognised return
kind, every slot of which has a recognised kind and is pinned or sampled to
completion within its array, if an unpinned non-float slot `i` has an empty
range (`min > max`, with `max - 6500000` not overflowing) then `gen_vals`
returns 0 values for it and `test_function` returns 0 without calling the
reference or the candidate on any tuple, whatever they compute. -/
theorem C33_empty_range_passes (fuel RAND_MAX : Nat) (rand : Nat → Nat) (k : Nat)
    (spec : puzzle_spec_t) (input_args : Arr3 (Option Nat)) (tr : Nat) (rt : CType) (i : Nat)
    (hfuel : 0 < fuel)
    (htr : test_range_of spec.num_args = some tr)
    (hr : ret_ctype spec.return_type = some rt)
    (hi : i < spec.num_args) (hpin : input_args.get i = none)
    (hkind : is_float_of (spec.arg_types.get i) = some false)
    (hempty : spec.arg_max.get i < spec.arg_min.get i)
    (hlow : -2147483648 + 6500000 ≤ spec.arg_max.get i)
    (hmax : spec.arg_max.get i ≤ 2147483647)
    (hothers : ∀ j < spec.num_args, j ≠ i → ∃ f, is_float_of (spec.arg_types.get j) = some f
      ∧ (input_args.get j ≠ none
        ∨ slot_samples fuel RAND_MAX rand (spec.arg_min.get j) (spec.arg_max.get j) f tr)) :
    (∀ k0, gen_vals fuel RAND_MAX rand k0 (spec.arg_min.get i) (spec.arg_max.get i) false tr
        = .done ([], k0))
    ∧ ∃ k1, test_function fuel RAND_MAX rand k spec input_args = .done ⟨0, none, [], k1⟩ := by
  have hgen : ∀ k0, gen_vals fuel RAND_MAX rand k0 (spec.arg_min.get i) (spec.arg_max.get i)
      false tr = .done ([], k0) :=
    fun k0 => gen_vals_empty fuel RAND_MAX rand k0 _ _ tr hfuel hempty hlow hmax
  refine ⟨hgen, ?_⟩
  have hslots : ∀ j < spec.num_args, ∃ f, is_float_of (spec.arg_types.get (0 + j)) = some f
      ∧ (input_args.get (0 + j) ≠ none
        ∨ slot_samples fuel RAND_MAX rand (spec.arg_min.get (0 + j)) (spec.arg_max.get (0 + j))
            f tr) := by
    intro j hj
    rw [Nat.zero_add]
    by_cases hji : j = i
    · subst hji
      refine ⟨false, hkind, Or.inr ?_⟩
      intro k0
      refine ⟨[], k0, hgen k0, ?_⟩
      decide
    · exact hothers j hj hji
  obtain ⟨sets, k1, hs⟩ :=
    sample_args_total fuel RAND_MAX rand spec input_args tr spec.num_args 0 k [] hslots
  obtain ⟨new, hnew, hlen, hall⟩ :=
    sample_args_spec fuel RAND_MAX rand spec input_args tr spec.num_args 0 k [] sets k1 hs
  simp only [List.nil_append] at hnew
  subst hnew
  have hfill := (hall i hi).2
  rw [Nat.zero_add] at hfill
  simp only [slot_filled, hpin] at hfill
  obtain ⟨f, k0, k2, hf, hg⟩ := hfill
  rw [hkind] at hf
  have hff : f = false := by
    simp only [Option.some.injEq] at hf
    exact hf.symm
  subst hff
  rw [hgen k0] at hg
  have hnil : sets.getD i [] = [] := by
    simp only [Run.done.injEq, Prod.mk.injEq] at hg
    exact hg.1.symm
  have hmem : [] ∈ sets := by
    have hlt : i < sets.length := by rw [hlen]; exact hi
    rw [List.getD_eq_getElem sets [] hlt] at hnil
    rw [← hnil]
    exact List.getElem_mem hlt
  have hcross := cross_empty sets hmem
  refine ⟨k1, ?_⟩
  rw [test_function_pass fuel RAND_MAX rand k spec input_args tr sets k1 rt htr hs hr
    (by rw [hcross]; intro t ht; simp at ht), hcross]
  rfl

/-- Witness for C33: `rotateLeft` with the range of its shift count replaced
by the empty range `[1, 0]` and a candidate that never agrees with the
oracle. -/
theorem C33_empty_range_passes_witness :
    (∀ k0, gen_vals 1 2147483647 (fun _ => 0) k0 1 0 false ((707 : Nat) : Int) = .done ([], k0))
    ∧ ∃ k1, test_function 1 2147483647 (fun _ => 0) 0
        { rotateLeft_spec (fun ws => test_rotateLeft ws + 1) with
          arg_min := ⟨INT_MIN, 1, 0⟩, arg_max := ⟨INT_MAX, 0, 0⟩ }
        ⟨none, none, none⟩ = .done ⟨0, none, [], k1⟩ :=
  C33_empty_range_passes 1 2147483647 (fun _ => 0) 0
    { rotateLeft_spec (fun ws => test_rotateLeft ws + 1) with
      arg_min := ⟨INT_MIN, 1, 0⟩, arg_max := ⟨INT_MAX, 0, 0⟩ }
    ⟨none, none, none⟩ 707 .int 1 (by decide)
    (by simp only [test_range_of, sqrt_budget, rotateLeft_spec]) rfl (by decide) rfl rfl
    (by decide) (by decide) (by decide)
    (by
      intro j hj hne
      have hj0 : j = 0 := by
        have : j < 2 := hj
        omega
      subst hj0
      exact ⟨false, rfl, Or.inr (slot_samples_full 1 2147483647 (fun _ => 0) 707 (by omega))⟩)

/-- C34: for every 32-bit `x` and every `n` with `0 <= n <= 31`,
`test_rotateLeft(x, n)` is the 32-bit left rotation
`((x << n) | (x >> (32 - n))) mod 2^32` of `x` taken as unsigned, which is `x`
itself when `n = 0`; equivalently bit `j` of `x` is bit `(j + n) mod 32` of the
result. -/
theorem C34_rotateLeft_oracle (x n : Nat) (hx : x < 4294967296) (hn : n ≤ 31) :
    test_rotateLeft [x, n] = ((x <<< n) ||| (x >>> (32 - n))) % 4294967296
    ∧ test_rotateLeft [x, 0] = x
    ∧ test_rotateLeft [x, n] < 4294967296
    ∧ ∀ j < 32, (test_rotateLeft [x, n]).testBit ((j + n) % 32) = x.testBit j := by
  have hcount : (toInt32 ((n : Nat) : Int)).toNat = n := by
    rw [toInt32_of_range _ (by omega) (by omega)]
    simp
  have hdef : test_rotateLeft [x, n] = rotate_step^[n] x := by
    simp only [test_rotateLeft, List.getD_cons_zero, List.getD_cons_succ, hcount]
  refine ⟨?_, ?_, ?_, ?_⟩
  · rw [hdef]
    exact rotate_iter_eq n x hx hn
  · have h0 : (toInt32 ((0 : Nat) : Int)).toNat = 0 := by decide
    simp only [test_rotateLeft, List.getD_cons_zero, List.getD_cons_succ, h0,
      Function.iterate_zero, id_eq]
  · rw [hdef]
    exact rotate_iter_lt n x hx
  · intro j hj
    rw [hdef]
    exact rotate_iter_testBit n x hx j hj

/-- Witness for C34: `0x80000001` rotated by 4 is `0x00000018`. -/
theorem C34_rotateLeft_oracle_witness :
    test_rotateLeft [0x80000001, 4] = 0x00000018
    ∧ test_rotateLeft [0x80000001, 4]
        = ((0x80000001 <<< 4) ||| (0x80000001 >>> (32 - 4))) % 4294967296 :=
  ⟨(C34_rotateLeft_oracle 0x80000001 4 (by decide) (by decide)).1.trans (by decide),
    (C34_rotateLeft_oracle 0x80000001 4 (by decide) (by decide)).1⟩

/-- C35: for every word `x` (in particular every 32-bit one), every `n` in
`0 .. 3` and every `c` in `0 .. 255`, `test_replaceByte(x, n, c)` is the 32-bit
word whose byte `n` (byte 0 least significant) is `c` and whose other three
bytes are those of `x`. -/
theorem C35_replaceByte_oracle (x n c : Nat) (hn : n ≤ 3) (hc : c ≤ 255) :
    test_replaceByte [x, n, c] < 4294967296
    ∧ byte_of (test_replaceByte [x, n, c]) n = c
    ∧ ∀ k < 4, k ≠ n → byte_of (test_replaceByte [x, n, c]) k = byte_of x k := by
  refine ⟨replaceByte_lt x n c (by omega) hn, ?_, ?_⟩
  · rw [replaceByte_byte x n c n (by omega) hn (by omega), if_pos rfl]
  · intro k hk hne
    rw [replaceByte_byte x n c k (by omega) hn hk, if_neg hne]

/-- Witness for C35: byte 2 of `0x12345678` replaced by `0xAB`. -/
theorem C35_replaceByte_oracle_witness :
    test_replaceByte [0x12345678, 2, 0xAB] < 4294967296
    ∧ byte_of (test_replaceByte [0x12345678, 2, 0xAB]) 2 = 0xAB
    ∧ ∀ k < 4, k ≠ 2 →
        byte_of (test_replaceByte [0x12345678, 2, 0xAB]) k = byte_of 0x12345678 k :=
  C35_replaceByte_oracle 0x12345678 2 0xAB (by decide) (by decide)

/-- C36: for `highbit` and `lowbit` in `0 .. 31`, `test_bitMask(highbit,
lowbit)` returns (given fuel for its at most 32 iterations) a 32-bit word
whose bit `i` is set exactly when `lowbit <= i <= highbit`; the word is `0`
when `lowbit > highbit` and `0xFFFFFFFF` for `(31, 0)`. -/
theorem C36_bitMask_oracle (highbit lowbit fuel : Nat) (hh : highbit ≤ 31) (hl : lowbit ≤ 31)
    (hfuel : 32 < fuel) :
    ∃ r, test_bitMask fuel [highbit, lowbit] = some r
      ∧ r < 4294967296
      ∧ (∀ i, r.testBit i = decide (lowbit ≤ i ∧ i ≤ highbit))
      ∧ (highbit < lowbit → r = 0)
      ∧ (highbit = 31 → lowbit = 0 → r = 0xFFFFFFFF) := by
  obtain ⟨r, hr, hbits⟩ := bitMask_spec highbit lowbit fuel hh hl hfuel
  refine ⟨r, hr, ?_, hbits, ?_, ?_⟩
  · have h32 : (4294967296 : Nat) = 2 ^ 32 := by norm_num
    rw [h32]
    apply Nat.lt_pow_two_of_testBit
    intro i hi
    rw [hbits i]
    have : ¬ (lowbit ≤ i ∧ i ≤ highbit) := by omega
    simp [this]
  · intro hlt
    apply Nat.zero_of_testBit_eq_false
    intro i
    rw [hbits i]
    have : ¬ (lowbit ≤ i ∧ i ≤ highbit) := by omega
    simp [this]
  · intro h31 h0
    have hall : (0xFFFFFFFF : Nat) = 2 ^ 32 - 1 := by norm_num
    apply Nat.eq_of_testBit_eq
    intro i
    rw [hbits i, hall, Nat.testBit_two_pow_sub_one]
    have : (lowbit ≤ i ∧ i ≤ highbit) ↔ i < 32 := by omega
    simp [this]

/-- Witness for C36: `test_bitMask(31, 0)` is `0xFFFFFFFF`. -/
theorem C36_bitMask_oracle_witness : test_bitMask 40 [31, 0] = some 0xFFFFFFFF := by
  obtain ⟨r, h1, _, _, _, h5⟩ := C36_bitMask_oracle 31 0 40 (by decide) (by decide) (by decide)
  rw [h1, h5 rfl rfl]

/-- C37: for every word `x`, `test_allOddBits(x)` returns (given fuel for its
16 iterations) 1 if `(x & 0xAAAAAAAA) == 0xAAAAAAAA`, that is if all sixteen
odd-numbered bits, bit 31 included, are set, and 0 otherwise. -/
theorem C37_allOddBits_oracle (x fuel : Nat) (hfuel : 16 < fuel) :
    test_allOddBits fuel [x] = some (if x &&& 0xAAAAAAAA = 0xAAAAAAAA then 1 else 0)
    ∧ (x &&& 0xAAAAAAAA = 0xAAAAAAAA ↔ ∀ j, j < 16 → x.testBit (2 * j + 1) = true) := by
  refine ⟨?_, odd_mask_iff x⟩
  have hdef : test_allOddBits fuel [x] = allOddBits_loop x fuel ((2 * 0 + 1 : Nat) : Int) := rfl
  rw [hdef]
  rcases allOddBits_loop_spec x 16 fuel 0 (by omega) hfuel with ⟨h1, hall⟩ | ⟨h0, j, _, hj2, hj3⟩
  · have hm : x &&& 0xAAAAAAAA = 0xAAAAAAAA :=
      (odd_mask_iff x).mpr (fun j hj => hall j (Nat.zero_le j) hj)
    rw [h1, if_pos hm]
  · have hm : ¬ x &&& 0xAAAAAAAA = 0xAAAAAAAA := by
      intro h
      have := (odd_mask_iff x).mp h j hj2
      rw [hj3] at this
      exact absurd this (by simp)
    rw [h0, if_neg hm]

/-- Witness for C37: `0xAAAAAAAA` has all odd-numbered bits set. -/
theorem C37_allOddBits_oracle_witness :
    test_allOddBits 17 [0xAAAAAAAA]
      = some (if 0xAAAAAAAA &&& 0xAAAAAAAA = 0xAAAAAAAA then 1 else 0) :=
  (C37_allOddBits_oracle 0xAAAAAAAA 17 (by decide)).1

/-- C38: for every 32-bit pattern `w` of a signed `x`, `test_isPower2(x)`
returns (given fuel for its 31 iterations) 1 exactly when `x > 0` and
`x & (x - 1) == 0`, that is when `x` is one of `2^0, .., 2^30`, and 0
otherwise, in particular for `0`, for every negative `x` and for
`INT_MIN`. -/
theorem C38_isPower2_oracle (w fuel : Nat) (hw : w < 4294967296) (hfuel : 31 < fuel) :
    test_isPower2 fuel [w]
      = some (if 0 < toInt32 (w : Int) ∧ w &&& toUInt32 ((w : Int) - 1) = 0 then 1 else 0)
    ∧ ((0 < toInt32 (w : Int) ∧ w &&& toUInt32 ((w : Int) - 1) = 0) ↔ ∃ i, i ≤ 30 ∧ w = 2 ^ i)
    ∧ (toInt32 (w : Int) ≤ 0 → test_isPower2 fuel [w] = some 0) := by
  have hiff := power2_test_iff w hw
  have hdef : test_isPower2 fuel [w] = isPower2_loop (toInt32 (w : Int)) fuel ((0 : Nat) : Int) :=
    rfl
  have hmain : test_isPower2 fuel [w]
      = some (if 0 < toInt32 (w : Int) ∧ w &&& toUInt32 ((w : Int) - 1) = 0 then 1 else 0) := by
    rw [hdef]
    rcases isPower2_loop_spec (toInt32 (w : Int)) 31 fuel 0 (by omega) hfuel
      with ⟨h1, j, _, hj2, hj3⟩ | ⟨h0, hall⟩
    · have hp := two_pow_le_30 j hj2
      have hpi : ((2 ^ j : Nat) : Int) ≤ 1073741824 := by exact_mod_cast hp
      have hp0 : (0 : Int) ≤ ((2 ^ j : Nat) : Int) := Int.ofNat_nonneg _
      have hwj : w = 2 ^ j := by
        have hc : (w : Int) = ((2 ^ j : Nat) : Int) := by
          unfold toInt32 at hj3
          omega
        exact_mod_cast hc
      rw [h1, if_pos (hiff.mpr ⟨j, hj2, hwj⟩)]
    · have hno : ¬ (0 < toInt32 (w : Int) ∧ w &&& toUInt32 ((w : Int) - 1) = 0) := by
        intro h
        obtain ⟨i, hi, hwi⟩ := hiff.mp h
        have hp := two_pow_le_30 i hi
        apply hall i (Nat.zero_le i) hi
        rw [← hwi] at hp ⊢
        exact toInt32_of_range _ (by omega) (by omega)
      rw [h0, if_neg hno]
  refine ⟨hmain, hiff, ?_⟩
  intro hneg
  rw [hmain, if_neg (by intro h; omega)]

/-- Witness for C38: `test_isPower2` is 1 at `2^30` (pattern `0x40000000`). -/
theorem C38_isPower2_oracle_witness :
    test_isPower2 32 [0x40000000]
      = some (if 0 < toInt32 ((0x40000000 : Nat) : Int)
          ∧ 0x40000000 &&& toUInt32 (((0x40000000 : Nat) : Int) - 1) = 0 then 1 else 0) :=
  (C38_isPower2_oracle 0x40000000 32 (by decide) (by decide)).1

end Btest
